import Mathlib

/-! # fortune-cat: the round-resolution engine

A shallow embedding of `src/game/SymbolManager.js`, `src/game/WinningDetector.js`
and `src/game/MultiplierEngine.js`, followed by theorems about it.

Modelling conventions.

* A JavaScript value that can sit in a symbol slot is a `JSVal`: a string key,
  `undefined` (an out-of-range array read) or `null` (what `getBaseSymbol`
  returns when the non-wild cells disagree).  `===` on such values is `=`.
* A board is a JavaScript array of string keys, here a `List String`; the read
  `board[i]` is `boardAt board i`.
* JavaScript numbers are exact rationals (`ℚ`) or, where the code only ever
  produces counts, naturals.  Every amount the game itself produces is an
  integer or an integer plus one half, far below `2^53`, where IEEE doubles
  are exact.
* A winning line, a three-element array literal `[pos1, pos2, pos3]`, is a
  triple of naturals.
* `Math.random()` is an explicit argument: a number for `getRandomMultiplier`, a
  `Draw` (a number in `[0, 1)`) or a sequence of draws elsewhere.
* An `async` method is cut at its `await`s; see the section on
  `SlotMachine.js`.
-/

set_option autoImplicit false

/-- A JavaScript value occurring where the code expects a symbol key. -/
inductive JSVal where
  | undefined : JSVal
  | null : JSVal
  | str (s : String) : JSVal
  deriving DecidableEq, Repr

namespace JSVal

/-- Property-key coercion of `obj[v]`: non-string values are stringified. -/
def toPropertyKey : JSVal → String
  | undefined => "undefined"
  | null => "null"
  | str s => s

end JSVal

/-- A board: the array of symbol keys handed to the detector. -/
abbrev Board := List String

/-- The array read `board[i]`; out of range it is `undefined`. -/
def boardAt (board : Board) (i : Nat) : JSVal :=
  match board[i]? with
  | some s => JSVal.str s
  | none => JSVal.undefined

/-! ## SymbolManager.js -/

/-- One entry of `this.symbols`; `isWild` is absent (falsy) on all but the tiger. -/
structure SymbolInfo where
  emoji : String
  value : Nat
  name : String
  multiplier : Nat
  isWild : Bool
  deriving DecidableEq, Repr

namespace SymbolManager

/-- The object literal `this.symbols` of the constructor, as an own-property
lookup.  A miss stands for `undefined` (or for an inherited `Object.prototype`
member, which has neither a `multiplier` nor an `isWild` field). -/
def symbols : String → Option SymbolInfo
  | "bomb" => some ⟨"💣", 1, "Bomba", 5, false⟩
  | "card" => some ⟨"🃏", 2, "Carta", 10, false⟩
  | "barrel" => some ⟨"🛢️", 3, "Barril", 15, false⟩
  | "goldPot" => some ⟨"🪙", 4, "Pote de Ouro", 20, false⟩
  | "frog" => some ⟨"🐸", 5, "Sapo", 30, false⟩
  | "cat" => some ⟨"🐱", 6, "Gato", 50, false⟩
  | "tiger" => some ⟨"🐅", 10, "Tigre", 100, true⟩
  | _ => none

/-- The constructor field `this.symbolKeys = Object.keys(this.symbols)`. -/
def symbolKeys : List String :=
  ["bomb", "card", "barrel", "goldPot", "frog", "cat", "tiger"]

/-- The constructor field `this.baseSymbols`. -/
def baseSymbols : List String :=
  ["bomb", "card", "barrel", "goldPot", "frog", "cat"]

/-- The method `getSymbolInfo(symbolKey)`: `this.symbols[symbolKey]`. -/
def getSymbolInfo (symbolKey : JSVal) : Option SymbolInfo :=
  symbols symbolKey.toPropertyKey

/-- The method `getSymbolMultiplier(symbolKey)`:
`this.symbols[symbolKey]?.multiplier || 1`. -/
def getSymbolMultiplier (symbolKey : JSVal) : Nat :=
  match symbols symbolKey.toPropertyKey with
  | some info => if info.multiplier = 0 then 1 else info.multiplier
  | none => 1

/-- The method `isWild(symbolKey)`: `this.symbols[symbolKey]?.isWild || false`. -/
def isWild (symbolKey : JSVal) : Bool :=
  match symbols symbolKey.toPropertyKey with
  | some info => info.isWild
  | none => false

end SymbolManager

/-! ## WinningDetector.js -/

/-- The record pushed by `checkWinningLines` for one matching line. -/
structure LineWin where
  line : Nat × Nat × Nat
  symbol : JSVal
  symbolInfo : Option SymbolInfo
  multiplier : ℚ
  wildCount : Nat
  lineType : Option String
  deriving DecidableEq

/-- The record returned by `checkFullBoardWin`. -/
structure FullBoardWin where
  type : String
  symbol : JSVal
  symbolInfo : Option SymbolInfo
  multiplier : ℚ
  bonusMultiplier : ℚ
  deriving DecidableEq

/-- The record returned by `analyzeWin`. -/
structure WinAnalysis where
  wins : List LineWin
  fullBoardWin : Option FullBoardWin
  winAmount : ℚ
  totalWins : Nat
  hasWin : Bool
  isBigWin : Bool
  isMegaWin : Bool

namespace WinningDetector

open SymbolManager

/-- The method `generateWinningLines()`: rows, columns, diagonals. -/
def generateWinningLines : List (Nat × Nat × Nat) :=
  [(0, 1, 2), (3, 4, 5), (6, 7, 8),
   (0, 3, 6), (1, 4, 7), (2, 5, 8),
   (0, 4, 8), (2, 4, 6)]

/-- The constructor field `this.winningLines`. -/
def winningLines : List (Nat × Nat × Nat) := generateWinningLines

/-- The method `countWilds`: how many of the three cells are wild. -/
def countWilds (symbol1 symbol2 symbol3 : JSVal) : Nat :=
  ([symbol1, symbol2, symbol3].filter (fun s => isWild s)).length

/-- The array read `arr[i]` on an array of symbol values. -/
def jsAt (arr : List JSVal) (i : Nat) : JSVal :=
  arr.getD i JSVal.undefined

/-- The method `isMatchingLine`. -/
def isMatchingLine (symbol1 symbol2 symbol3 : JSVal) : Bool :=
  if symbol1 = symbol2 ∧ symbol2 = symbol3 then true
  else
    let wilds := countWilds symbol1 symbol2 symbol3
    if wilds ≥ 2 then true
    else if wilds = 1 then
      let nonWildSymbols := [symbol1, symbol2, symbol3].filter (fun s => !isWild s)
      decide (nonWildSymbols.length = 1) ||
        (decide (nonWildSymbols.length = 2) &&
          decide (jsAt nonWildSymbols 0 = jsAt nonWildSymbols 1))
    else false

/-- The method `getBaseSymbol`; the result `JSVal.null` is the `null` of the
last line. -/
def getBaseSymbol (symbol1 symbol2 symbol3 : JSVal) : JSVal :=
  let nonWildSymbols := [symbol1, symbol2, symbol3].filter (fun s => !isWild s)
  if nonWildSymbols.length = 0 then JSVal.str "tiger"
  else if nonWildSymbols.length = 1 then jsAt nonWildSymbols 0
  else if jsAt nonWildSymbols 0 = jsAt nonWildSymbols 1 then jsAt nonWildSymbols 0
  else JSVal.null

/-- The method `getLineType(lineIndex)`: `types[lineIndex]`. -/
def getLineType (lineIndex : Nat) : Option String :=
  ["Linha 1", "Linha 2", "Linha 3",
   "Coluna 1", "Coluna 2", "Coluna 3",
   "Diagonal Principal", "Diagonal Secundária"][lineIndex]?

/-- The record `lineInfo` built inside `checkWinningLines` for the line at
`index` of the table. -/
def lineInfo (board : Board) (index : Nat) (line : Nat × Nat × Nat) : LineWin :=
  let symbol1 := boardAt board line.1
  let symbol2 := boardAt board line.2.1
  let symbol3 := boardAt board line.2.2
  let baseSymbol := getBaseSymbol symbol1 symbol2 symbol3
  { line := line
    symbol := baseSymbol
    symbolInfo := getSymbolInfo baseSymbol
    multiplier := (getSymbolMultiplier baseSymbol : ℚ)
    wildCount := countWilds symbol1 symbol2 symbol3
    lineType := getLineType index }

/-- The method `checkWinningLines(board)`: `forEach` over the table, pushing a
record for every matching line. -/
def checkWinningLines (board : Board) : List LineWin :=
  winningLines.enum.foldl
    (fun wins entry =>
      let index := entry.1
      let line := entry.2
      let symbol1 := boardAt board line.1
      let symbol2 := boardAt board line.2.1
      let symbol3 := boardAt board line.2.2
      if isMatchingLine symbol1 symbol2 symbol3 then wins ++ [lineInfo board index line]
      else wins)
    []

/-- The method `checkFullBoardWin(board)`. -/
def checkFullBoardWin (board : Board) : Option FullBoardWin :=
  let firstSymbol := boardAt board 0
  if board.all (fun symbol => decide (JSVal.str symbol = firstSymbol)) then
    some { type := "fullBoard"
           symbol := firstSymbol
           symbolInfo := getSymbolInfo firstSymbol
           multiplier := (getSymbolMultiplier firstSymbol : ℚ) * 10
           bonusMultiplier := 10 }
  else
    let wilds := (board.filter (fun symbol => isWild (JSVal.str symbol))).length
    if wilds ≥ 3 then
      some { type := "wildBoard"
             symbol := JSVal.str "tiger"
             symbolInfo := getSymbolInfo (JSVal.str "tiger")
             multiplier := (getSymbolMultiplier (JSVal.str "tiger") : ℚ) * 5
             bonusMultiplier := 5 }
    else none

/-- The method `calculateWinAmount(bet, wins, fullBoardWin = null)`. -/
def calculateWinAmount (bet : ℚ) (wins : List LineWin)
    (fullBoardWin : Option FullBoardWin) : ℚ :=
  let totalWin : ℚ :=
    match fullBoardWin with
    | some f => 0 + bet * f.multiplier
    | none => 0
  wins.foldl
    (fun totalWin win =>
      let lineMultiplier : ℚ :=
        if win.wildCount > 0 then win.multiplier * (1 + (win.wildCount : ℚ) * (1 / 2))
        else win.multiplier
      totalWin + bet * lineMultiplier)
    totalWin

/-- The method `analyzeWin(board, bet)`. -/
def analyzeWin (board : Board) (bet : ℚ) : WinAnalysis :=
  let wins := checkWinningLines board
  let fullBoardWin := checkFullBoardWin board
  let winAmount := calculateWinAmount bet wins fullBoardWin
  { wins := wins
    fullBoardWin := fullBoardWin
    winAmount := winAmount
    totalWins := wins.length
    hasWin := decide (wins.length > 0) || decide (fullBoardWin ≠ none)
    isBigWin := decide (fullBoardWin ≠ none) || decide (wins.length ≥ 3)
    isMegaWin := decide (winAmount ≥ bet * 50) }

/-- The method `getWinningPositions(board)`: the cells of every matching line,
first occurrences kept (`[...new Set(winningPositions)]`). -/
def getWinningPositions (board : Board) : List Nat :=
  let winningPositions := winningLines.foldl
    (fun acc line =>
      let symbol1 := boardAt board line.1
      let symbol2 := boardAt board line.2.1
      let symbol3 := boardAt board line.2.2
      if isMatchingLine symbol1 symbol2 symbol3 then acc ++ [line.1, line.2.1, line.2.2]
      else acc)
    []
  winningPositions.eraseDups

end WinningDetector

/-! ## MultiplierEngine.js -/

/-- The function `Math.round`: the nearest integer, a half going up. -/
def mathRound (x : ℚ) : ℤ := ⌊x + 1 / 2⌋

/-- The mutable fields of a `MultiplierEngine` (the two tables are constants). -/
structure MultiplierEngine where
  currentMultiplier : ℚ
  isRevealing : Bool
  deriving DecidableEq

namespace MultiplierEngine

/-- The constructor field `this.possibleMultipliers`. -/
def possibleMultipliers : List Nat := [5, 10, 15, 20, 25, 30, 40, 50, 75, 100]

/-- The constructor field `this.multiplierWeights`, as `Object.entries` lists
it (integer keys in ascending order, which is also the order of the literal);
the keys are already parsed (`parseInt(multiplier)`). -/
def multiplierWeights : List (Nat × Nat) :=
  [(5, 30), (10, 25), (15, 20), (20, 15), (25, 12),
   (30, 10), (40, 8), (50, 6), (75, 4), (100, 2)]

/-- The engine as the constructor leaves it. -/
def new : MultiplierEngine := { currentMultiplier := 1, isRevealing := false }

/-- The sum `Object.values(this.multiplierWeights).reduce((sum, weight) => sum + weight, 0)`. -/
def totalWeight : Nat :=
  (multiplierWeights.map (fun e => e.2)).foldl (fun sum weight => sum + weight) 0

/-- The `for` loop of `getRandomMultiplier` over the remaining entries, with
`random` as it stands on entry; `none` when the loop runs off the table. -/
def walkWeights : List (Nat × Nat) → ℚ → Option Nat
  | [], _ => none
  | (multiplier, weight) :: rest, random =>
    let random := random - (weight : ℚ)
    if random ≤ 0 then some multiplier else walkWeights rest random

/-- The method `getRandomMultiplier()`, with the value of `Math.random()` as
the argument `rand`. -/
def getRandomMultiplier (rand : ℚ) : Nat :=
  let random := rand * (totalWeight : ℚ)
  match walkWeights multiplierWeights random with
  | some multiplier => multiplier
  | none => 5

/-- The lookup `this.multiplierWeights[targetMultiplier] || 0` of
`calculateProbability`. -/
def targetWeight (targetMultiplier : Nat) : Nat :=
  match multiplierWeights.lookup targetMultiplier with
  | some weight => weight
  | none => 0

/-- The method `applyMultiplier(baseAmount)`. -/
def applyMultiplier (e : MultiplierEngine) (baseAmount : ℚ) : ℤ :=
  mathRound (baseAmount * e.currentMultiplier)

/-- The method `resetMultiplier()`. -/
def resetMultiplier (_e : MultiplierEngine) : MultiplierEngine :=
  { currentMultiplier := 1, isRevealing := false }

/-- The method `isHighMultiplier()`. -/
def isHighMultiplier (e : MultiplierEngine) : Bool := decide (e.currentMultiplier ≥ 50)

/-- The method `isMegaMultiplier()`. -/
def isMegaMultiplier (e : MultiplierEngine) : Bool := decide (e.currentMultiplier ≥ 75)

/-- The method `getMultiplierTier()`. -/
def getMultiplierTier (e : MultiplierEngine) : String :=
  if e.currentMultiplier ≥ 75 then "MEGA"
  else if e.currentMultiplier ≥ 50 then "HIGH"
  else if e.currentMultiplier ≥ 25 then "MEDIUM"
  else if e.currentMultiplier ≥ 15 then "LOW"
  else "MINIMAL"

/-- The method `getMultiplierBonus()`; the literals `1.2` and `1.1` are the
decimal fractions 6/5 and 11/10. -/
def getMultiplierBonus (e : MultiplierEngine) : ℚ :=
  match getMultiplierTier e with
  | "MEGA" => 2
  | "HIGH" => 3 / 2
  | "MEDIUM" => 6 / 5
  | "LOW" => 11 / 10
  | _ => 1

/-- The method `calculateFinalWin(baseWin)`. -/
def calculateFinalWin (e : MultiplierEngine) (baseWin : ℚ) : ℤ :=
  let multiplierWin := applyMultiplier e baseWin
  let bonus := getMultiplierBonus e
  mathRound ((multiplierWin : ℚ) * bonus)

end MultiplierEngine

/-! ## Random draws and board generation (SymbolManager.js) -/

/-- A value returned by `Math.random()`: a number in `[0, 1)`. -/
abbrev Draw := {u : ℚ // 0 ≤ u ∧ u < 1}

namespace SymbolManager

/-- The array `availableSymbols` of `getRandomSymbol`. -/
def availableSymbols (includeWild : Bool) : List String :=
  if includeWild then symbolKeys else baseSymbols

/-- The method `getRandomSymbol(includeWild)` with its draw as an argument:
`availableSymbols[Math.floor(Math.random() * availableSymbols.length)]`.  For a
draw in `[0, 1)` the index is inside the array, which the bound proof records. -/
def getRandomSymbol (includeWild : Bool) (u : Draw) : String :=
  (availableSymbols includeWild).get
    ⟨⌊u.1 * ((availableSymbols includeWild).length : ℚ)⌋.toNat, by
      have hn : 0 < (availableSymbols includeWild).length := by
        cases includeWild <;> decide
      have hn0 : (0 : ℚ) < ((availableSymbols includeWild).length : ℚ) := by
        exact_mod_cast hn
      have h1 : u.1 * ((availableSymbols includeWild).length : ℚ) <
          ((availableSymbols includeWild).length : ℚ) := by
        have := mul_lt_mul_of_pos_right u.2.2 hn0
        simpa using this
      have h2 : ⌊u.1 * ((availableSymbols includeWild).length : ℚ)⌋ <
          ((availableSymbols includeWild).length : ℤ) := by
        rw [Int.floor_lt]
        exact_mod_cast h1
      have h3 : 0 ≤ ⌊u.1 * ((availableSymbols includeWild).length : ℚ)⌋ :=
        Int.floor_nonneg.2 (mul_nonneg u.2.1 hn0.le)
      omega⟩

/-- The loop of `shuffleBoard`: `n` cells still to push, `k` draws of the
sequence `rand` consumed so far.  Each cell draws once for the wild test and,
when the cell is not a wild, once more inside `getRandomSymbol(false)`.
Returns the board and the number of draws consumed. -/
def shuffleLoop (includeWild : Bool) (rand : Nat → Draw) :
    Nat → Nat → Board → Board × Nat
  | 0, k, newBoard => (newBoard, k)
  | n + 1, k, newBoard =>
    if decide ((rand k).1 < 1 / 10) && includeWild then
      shuffleLoop includeWild rand n (k + 1) (newBoard ++ ["tiger"])
    else
      shuffleLoop includeWild rand n (k + 2) (newBoard ++ [getRandomSymbol false (rand (k + 1))])

/-- The method `shuffleBoard(board, includeWild)`; `rand` is the sequence of
values `Math.random()` returns from here on, `k` the position reached in it.
Returns the new board and the position after the call. -/
def shuffleBoard (_board : Board) (includeWild : Bool) (rand : Nat → Draw) (k : Nat) :
    Board × Nat :=
  shuffleLoop includeWild rand 9 k []

/-- The loop of `generateBoard`: `n` cells still to push, `k` draws of the
sequence `rand` consumed so far; each cell is one `getRandomSymbol(includeWild)`. -/
def generateLoop (includeWild : Bool) (rand : Nat → Draw) :
    Nat → Nat → Board → Board × Nat
  | 0, k, board => (board, k)
  | n + 1, k, board =>
    generateLoop includeWild rand n (k + 1) (board ++ [getRandomSymbol includeWild (rand k)])

/-- The method `generateBoard(includeWild)`; `rand` and `k` as in `shuffleBoard`. -/
def generateBoard (includeWild : Bool) (rand : Nat → Draw) (k : Nat) : Board × Nat :=
  generateLoop includeWild rand 9 k []

end SymbolManager

/-! ## MultiplierEngine.js, continued -/

/-- The method `Number.prototype.toFixed(1)`, as the value of the decimal string
it returns: the multiple of one tenth nearest to `x`, the larger one on a tie
(for a negative `x`, minus the rounding of `-x`). -/
def toFixed1 (x : ℚ) : ℚ :=
  if x < 0 then -((⌊(-x) * 10 + 1 / 2⌋ : ℤ) : ℚ) / 10
  else ((⌊x * 10 + 1 / 2⌋ : ℤ) : ℚ) / 10

namespace MultiplierEngine

/-- The sum `Object.values(weights).reduce((sum, weight) => sum + weight, 0)` for
a weight table `weights` standing in the field `this.multiplierWeights`. -/
def totalWeightOf (weights : List (Nat × Nat)) : Nat :=
  (weights.map (fun e => e.2)).foldl (fun sum weight => sum + weight) 0

/-- The lookup `weights[targetMultiplier] || 0`. -/
def targetWeightOf (weights : List (Nat × Nat)) (targetMultiplier : Nat) : Nat :=
  match weights.lookup targetMultiplier with
  | some weight => weight
  | none => 0

/-- The method `calculateProbability(targetMultiplier)` over a weight table:
`(targetWeight / totalWeight * 100).toFixed(1)`. -/
def calculateProbabilityOf (weights : List (Nat × Nat)) (targetMultiplier : Nat) : ℚ :=
  let totalWeight := totalWeightOf weights
  let targetWeight := targetWeightOf weights targetMultiplier
  toFixed1 ((targetWeight : ℚ) / (totalWeight : ℚ) * 100)

/-- The method `calculateProbability(targetMultiplier)` of the engine, whose
table is `multiplierWeights`. -/
def calculateProbability (targetMultiplier : Nat) : ℚ :=
  calculateProbabilityOf multiplierWeights targetMultiplier

/-- The method `getMultiplierDistribution()` over a weight table: one entry
per key, in the order of `Object.entries`. -/
def getMultiplierDistributionOf (weights : List (Nat × Nat)) : List (Nat × ℚ) :=
  weights.map (fun e => (e.1, calculateProbabilityOf weights e.1))

/-- The method `getMultiplierDistribution()` of the engine. -/
def getMultiplierDistribution : List (Nat × ℚ) :=
  getMultiplierDistributionOf multiplierWeights

/-- What `revealMultiplier` has done when it first suspends or returns. -/
inductive RevealStart where
  /-- A reveal was already running: `return this.currentMultiplier`. -/
  | early (current : ℚ) : RevealStart
  /-- The flag is set, `finalMultiplier` is drawn, the animation has started and
  the method waits. -/
  | waiting (e : MultiplierEngine) (finalMultiplier : Nat) : RevealStart

/-- The method `revealMultiplier(duration)` up to `await this.waitForDuration`;
`u` is the draw of `getRandomMultiplier`. -/
def revealMultiplierStart (e : MultiplierEngine) (u : Draw) : RevealStart :=
  if e.isRevealing then RevealStart.early e.currentMultiplier
  else
    RevealStart.waiting { e with isRevealing := true } (getRandomMultiplier u.1)

/-- The method `revealMultiplier(duration)` after the wait: the final multiplier
becomes the current one and the flag is cleared. -/
def revealMultiplierEnd (e : MultiplierEngine) (finalMultiplier : Nat) : MultiplierEngine :=
  { e with currentMultiplier := (finalMultiplier : ℚ), isRevealing := false }

end MultiplierEngine

/-! ## SlotMachine.js

An `async` method runs in segments: from one `await` to the next nothing else
runs, and while it waits any event handler may.  `Game` pairs the fields of
the `SlotMachine` with the point at which the one `spin()` call in flight is
waiting; `callSpin`, `changeBet` and `resume` are the three things that can
happen next.  Calls into the canvas, the DOM and `localStorage` change none of
the fields; inside the `try` block of `spin` they may throw, which `Fault`
records. -/

/-- The field `this.wallet`. -/
structure Wallet where
  balance : ℚ
  bet : ℚ
  deriving DecidableEq

/-- The field `this.lastWin`: the analysis spread out, the multiplier and the
final amount. -/
structure LastWin where
  analysis : WinAnalysis
  multiplier : ℚ
  finalWinAmount : ℤ

/-- The fields of a `SlotMachine` that the game logic reads or writes. -/
structure SlotMachine where
  board : Board
  wallet : Wallet
  isSpinning : Bool
  currentMultiplier : ℚ
  lastWinningPositions : List Nat
  lastWin : Option LastWin
  multiplierEngine : MultiplierEngine

/-- The `await` at which a `spin()` call is suspended. -/
inductive SpinStage where
  /-- Line 103, `await this.performSpinAnimation()`. -/
  | animating : SpinStage
  /-- Line 108, inside `revealMultiplier`, `await this.waitForDuration(duration)`. -/
  | revealing (finalMultiplier : Nat) : SpinStage
  /-- Line 111, `await this.canvas.animateShuffle(this.board, 1500)`. -/
  | shuffling : SpinStage
  /-- Lines 171 and 175 of `handleWin`, before the balance is credited. -/
  | celebrating (winAmount : ℤ) (winAnalysis : WinAnalysis) : SpinStage
  /-- Line 183 of `handleWin`, `await this.showWinDisplayAnimated(...)`, after
  the balance is credited. -/
  | displaying (winAnalysis : WinAnalysis) : SpinStage

/-- Whether and where a segment of the `try` block throws. -/
inductive Fault where
  /-- Nothing throws. -/
  | none : Fault
  /-- The awaited promise rejects, or the first call of the segment throws:
  control goes to `catch` before the segment changes any field. -/
  | onResume : Fault
  /-- The segment changes its fields, then the collaborator call that ends it
  (a canvas or DOM call) throws. -/
  | onSuspend : Fault
  deriving DecidableEq

/-- What the environment supplies when the suspended `spin()` call resumes:
whether something throws, and the values `Math.random()` returns. -/
structure ResumeInput where
  fault : Fault
  rand : Nat → Draw

/-- The machine together with the suspended `spin()` call, if any. -/
structure Game where
  slot : SlotMachine
  pending : Option SpinStage

/-- How a `spin()` call returned or suspended. -/
inductive SpinOutcome where
  /-- The guard `if (this.isSpinning) return`. -/
  | ignored : SpinOutcome
  /-- The guard `balance < bet`: `showInsufficientFunds()` and return. -/
  | insufficientFunds : SpinOutcome
  /-- The bet is debited and the call waits at line 103. -/
  | accepted : SpinOutcome
  deriving DecidableEq

/-- The record parsed from `localStorage`, with numeric fields. -/
structure SavedWallet where
  balance : ℚ
  bet : ℚ
  deriving DecidableEq

/-- The operator `x || d` on numbers: `d` when `x` is `0`. -/
def jsOr (x d : ℚ) : ℚ := if x = 0 then d else x

namespace SlotMachine

/-- The method `changeBet(amount)`. -/
def changeBet (s : SlotMachine) (amount : ℚ) : SlotMachine :=
  let newBet := s.wallet.bet + amount
  if newBet ≥ 5 ∧ newBet ≤ s.wallet.balance ∧ newBet ≤ 500 then
    { s with wallet := { s.wallet with bet := newBet } }
  else s

/-- The method `spin()` up to its first `await` (lines 85 to 103). -/
def spinStart (s : SlotMachine) : SlotMachine × SpinOutcome :=
  if s.isSpinning then (s, SpinOutcome.ignored)
  else if s.wallet.balance < s.wallet.bet then (s, SpinOutcome.insufficientFunds)
  else
    ({ s with isSpinning := true,
              wallet := { s.wallet with balance := s.wallet.balance - s.wallet.bet } },
      SpinOutcome.accepted)

/-- The `finally` block of `spin()` (lines 135 to 139). -/
def spinFinally (s : SlotMachine) : SlotMachine :=
  { s with isSpinning := false,
           multiplierEngine := MultiplierEngine.resetMultiplier s.multiplierEngine }

/-- The method `loadWalletFromStorage()`; `saved` is the parsed record, `none`
when nothing is stored (or parsing throws, which the `catch` swallows).  In the
object literal `this.wallet.balance` is read before `this.wallet` is assigned:
it is the balance of the wallet being replaced. -/
def loadWalletFromStorage (s : SlotMachine) (saved : Option SavedWallet) : SlotMachine :=
  match saved with
  | some savedWallet =>
    { s with wallet :=
        { balance := min (max (jsOr savedWallet.balance 1000) 0) 100000
          bet := min (max (jsOr savedWallet.bet 10) 5) s.wallet.balance } }
  | none => s

/-- The constructor: `initialBoard` is the board `initializeBoard()` generates,
`saved` what `localStorage` holds. -/
def new (initialBoard : Board) (saved : Option SavedWallet) : SlotMachine :=
  loadWalletFromStorage
    { board := initialBoard
      wallet := { balance := 1000, bet := 10 }
      isSpinning := false
      currentMultiplier := 1
      lastWinningPositions := []
      lastWin := none
      multiplierEngine := MultiplierEngine.new }
    saved

end SlotMachine

namespace Game

open SymbolManager WinningDetector MultiplierEngine

/-- The `finally` block runs and the call is over. -/
def finish (s : SlotMachine) : Game :=
  { slot := SlotMachine.spinFinally s, pending := none }

/-- A call of `spin()`: its first segment; when the call is accepted it is left
waiting at line 103. -/
def callSpin (g : Game) : Game × SpinOutcome :=
  match SlotMachine.spinStart g.slot with
  | (s, SpinOutcome.accepted) => ({ slot := s, pending := some SpinStage.animating },
      SpinOutcome.accepted)
  | (s, outcome) => ({ g with slot := s }, outcome)

/-- A call of `changeBet(amount)`, from the bet buttons or otherwise. -/
def changeBet (g : Game) (amount : ℚ) : Game :=
  { g with slot := SlotMachine.changeBet g.slot amount }

/-- Lines 105 to 108: the wild flag is drawn, the board is shuffled and
`revealMultiplier` starts.  When a reveal was already running the method
returns at once and `spin` goes on to line 111. -/
def resumeAnimating (s : SlotMachine) (inp : ResumeInput) : Game :=
  match inp.fault with
  | Fault.onResume => finish s
  | fault =>
    let includeWild := decide ((inp.rand 0).1 < 15 / 100)
    let shuffled := shuffleBoard s.board includeWild inp.rand 1
    let s1 := { s with board := shuffled.1 }
    match revealMultiplierStart s1.multiplierEngine (inp.rand shuffled.2) with
    | RevealStart.early current =>
      let s2 := { s1 with currentMultiplier := current }
      if fault = Fault.onSuspend then finish s2
      else { slot := s2, pending := some SpinStage.shuffling }
    | RevealStart.waiting e finalMultiplier =>
      let s2 := { s1 with multiplierEngine := e }
      if fault = Fault.onSuspend then finish s2
      else { slot := s2, pending := some (SpinStage.revealing finalMultiplier) }

/-- The end of `revealMultiplier` and lines 109 to 111 of `spin`. -/
def resumeRevealing (s : SlotMachine) (finalMultiplier : Nat) (inp : ResumeInput) : Game :=
  match inp.fault with
  | Fault.onResume => finish s
  | fault =>
    let s1 := { s with
      multiplierEngine := revealMultiplierEnd s.multiplierEngine finalMultiplier
      currentMultiplier := (finalMultiplier : ℚ) }
    if fault = Fault.onSuspend then finish s1
    else { slot := s1, pending := some SpinStage.shuffling }

/-- Lines 113 to 130 of `spin` and the start of `handleWin`: the board is
analysed with the bet the wallet holds now, the final amount is computed, and
either `handleWin` starts its animations or `showNoWin()` ends the round. -/
def resumeShuffling (s : SlotMachine) (inp : ResumeInput) : Game :=
  match inp.fault with
  | Fault.onResume => finish s
  | fault =>
    let winAnalysis := analyzeWin s.board s.wallet.bet
    let finalWinAmount := calculateFinalWin s.multiplierEngine winAnalysis.winAmount
    let s1 := { s with
      lastWin := some { analysis := winAnalysis, multiplier := s.currentMultiplier,
                        finalWinAmount := finalWinAmount }
      lastWinningPositions := getWinningPositions s.board }
    if fault = Fault.onSuspend then finish s1
    else if winAnalysis.hasWin then
      { slot := s1, pending := some (SpinStage.celebrating finalWinAmount winAnalysis) }
    else finish s1

/-- Lines 178 to 183 of `handleWin`: the balance is credited. -/
def resumeCelebrating (s : SlotMachine) (winAmount : ℤ) (winAnalysis : WinAnalysis)
    (inp : ResumeInput) : Game :=
  match inp.fault with
  | Fault.onResume => finish s
  | fault =>
    let s1 := { s with
      wallet := { s.wallet with balance := s.wallet.balance + (winAmount : ℚ) } }
    if fault = Fault.onSuspend then finish s1
    else { slot := s1, pending := some (SpinStage.displaying winAnalysis) }

/-- Lines 185 to 187 of `handleWin`, then the `finally` block. -/
def resumeDisplaying (s : SlotMachine) (_winAnalysis : WinAnalysis) (_inp : ResumeInput) :
    Game :=
  finish s

/-- The suspended `spin()` call runs its next segment. -/
def resume (g : Game) (inp : ResumeInput) : Game :=
  match g.pending with
  | none => g
  | some SpinStage.animating => resumeAnimating g.slot inp
  | some (SpinStage.revealing finalMultiplier) => resumeRevealing g.slot finalMultiplier inp
  | some SpinStage.shuffling => resumeShuffling g.slot inp
  | some (SpinStage.celebrating winAmount winAnalysis) =>
    resumeCelebrating g.slot winAmount winAnalysis inp
  | some (SpinStage.displaying winAnalysis) => resumeDisplaying g.slot winAnalysis inp

end Game

/-- What can happen next to a game: a call of `spin()`, a call of
`changeBet(amount)`, or the suspended `spin()` call going on. -/
inductive Event where
  | spin : Event
  | changeBet (amount : ℚ) : Event
  | resume (inp : ResumeInput) : Event

namespace Game

/-- One event. -/
def step (g : Game) : Event → Game
  | Event.spin => (callSpin g).1
  | Event.changeBet amount => changeBet g amount
  | Event.resume inp => resume g inp

/-- A sequence of events, in order. -/
def run (g : Game) (events : List Event) : Game :=
  events.foldl step g

/-- The game right after the constructor. -/
def new (initialBoard : Board) (saved : Option SavedWallet) : Game :=
  { slot := SlotMachine.new initialBoard saved, pending := none }

/-- One `spin()` call that nothing interrupts: the call, then its segments with
the inputs `inps`, one after the other. -/
def playRound (g : Game) (inps : List ResumeInput) : Game :=
  run (callSpin g).1 (inps.map Event.resume)

end Game

/-! ## Sample inputs -/

/-- The draw `0`. -/
def drawZero : Draw := ⟨0, by norm_num⟩

/-- The draw `1/6`. -/
def drawSixth : Draw := ⟨1 / 6, by norm_num⟩

/-- The draw `1/3`. -/
def drawThird : Draw := ⟨1 / 3, by norm_num⟩

/-- The draw `1/2`. -/
def drawHalf : Draw := ⟨1 / 2, by norm_num⟩

/-- Draws that settle the board of nine bombs with round multiplier 5: the first
draw, `1/2`, leaves wilds out, every later draw is `0`. -/
def bombDraws : Nat → Draw := fun k => if k = 0 then drawHalf else drawZero

/-- Draws that settle a board without any win, with round multiplier 15: the
first draw, `1/2`, leaves wilds out; each cell then draws `1/2` and the draw
that picks its symbol. -/
def losingDraws : Nat → Draw := fun k =>
  [drawHalf,
   drawHalf, drawZero, drawHalf, drawSixth, drawHalf, drawThird,
   drawHalf, drawSixth, drawHalf, drawThird, drawHalf, drawZero,
   drawHalf, drawZero, drawHalf, drawSixth, drawHalf, drawThird].getD k drawHalf

/-- The board `losingDraws` settles. -/
def losingBoard : Board :=
  ["bomb", "card", "barrel", "card", "barrel", "bomb", "bomb", "card", "barrel"]

/-- A resumption at which nothing throws. -/
def cleanInput (rand : Nat → Draw) : ResumeInput := { fault := Fault.none, rand := rand }

/-- The five resumptions of a round at which nothing throws. -/
def cleanRound (rand : Nat → Draw) : List ResumeInput :=
  List.replicate 5 (cleanInput rand)

/-! ## Specification-side definitions -/

/-- The wild key of the catalog. -/
def wildKey : String := "tiger"

/-- The line rule in the words of the specification: all three keys identical,
or at least two of them wild, or exactly one wild and the two others equal. -/
def LineRule (W : String → Prop) (s1 s2 s3 : String) : Prop :=
  (s1 = s2 ∧ s2 = s3) ∨
  ((W s1 ∧ W s2) ∨ (W s1 ∧ W s3) ∨ (W s2 ∧ W s3)) ∨
  ((W s1 ∧ ¬ W s2 ∧ ¬ W s3 ∧ s2 = s3) ∨
   (¬ W s1 ∧ W s2 ∧ ¬ W s3 ∧ s1 = s3) ∨
   (¬ W s1 ∧ ¬ W s2 ∧ W s3 ∧ s1 = s2))

namespace WinningDetector

/-- Whether the three cells that `line` reads off `board` form a match: the
test `checkWinningLines` and `getWinningPositions` apply to each line. -/
def lineMatches (board : Board) (line : Nat × Nat × Nat) : Bool :=
  isMatchingLine (boardAt board line.1) (boardAt board line.2.1) (boardAt board line.2.2)

/-- The line payout in the words of the specification:
`bet × baseMultiplier × (1 + 0.5 × wildCount)`. -/
def lineContribution (bet : ℚ) (win : LineWin) : ℚ :=
  bet * win.multiplier * (1 + (1 / 2) * (win.wildCount : ℚ))

/-- The full-board payout in the words of the specification: the bet times the
win's multiplier when a full-board win is present, nothing otherwise. -/
def fullBoardContribution (bet : ℚ) (fullBoardWin : Option FullBoardWin) : ℚ :=
  match fullBoardWin with
  | some f => bet * f.multiplier
  | none => 0

end WinningDetector

/-- Rounding to the nearest integer with halves going up, as a relation: `n`
is the rounding of `x` when `n - 1/2 ≤ x < n + 1/2`. -/
def IsNearestHalfUp (x : ℚ) (n : ℤ) : Prop :=
  (n : ℚ) - 1 / 2 ≤ x ∧ x < (n : ℚ) + 1 / 2

/-- The tiered bonus in the words of the specification. -/
def bonusForMultiplier (m : ℚ) : ℚ :=
  if 75 ≤ m then 2
  else if 50 ≤ m ∧ m < 75 then 3 / 2
  else if 25 ≤ m ∧ m < 50 then 6 / 5
  else if 15 ≤ m ∧ m < 25 then 11 / 10
  else 1

/-- The cumulative weight `w_1 + … + w_k` of the first `k` entries of a weight
table. -/
def cumulativeWeight (table : List (Nat × Nat)) (k : Nat) : ℚ :=
  (((table.take k).map (fun e => e.2)).sum : Nat)

/-- The theoretical selection share of a multiplier: its weight over the sum
of the weights. -/
def weightShare (v : Nat) : ℚ :=
  (MultiplierEngine.targetWeight v : ℚ) / (MultiplierEngine.totalWeight : ℚ)

/-- Rounding to one decimal place, as a relation: `r` is a whole number of tenths
and `r - 0.05 ≤ x < r + 0.05` (a tie goes up). -/
def IsNearestTenth (x r : ℚ) : Prop :=
  (∃ n : ℤ, r = (n : ℚ) / 10) ∧ r - 1 / 20 ≤ x ∧ x < r + 1 / 20

namespace Game

/-- The game the constructor leaves, but holding the wallet `wallet`. -/
def withWallet (initialBoard : Board) (wallet : Wallet) : Game :=
  { slot := { SlotMachine.new initialBoard none with wallet := wallet }, pending := none }

/-- The bankroll invariant together with what keeps it: the balance is not
negative, the bet is at least 5, the engine multiplier is not negative, and an
amount waiting to be credited is not negative. -/
def WalletSafe (g : Game) : Prop :=
  0 ≤ g.slot.wallet.balance ∧ 5 ≤ g.slot.wallet.bet ∧
  0 ≤ g.slot.multiplierEngine.currentMultiplier ∧
  ∀ w a, g.pending = some (SpinStage.celebrating w a) → 0 ≤ w

end Game

namespace Game

/-- The board a round settles on: `shuffleBoard` with the wild flag drawn first. -/
def settledBoard (g : Game) (rand : Nat → Draw) : Board :=
  (SymbolManager.shuffleBoard g.slot.board (decide ((rand 0).1 < 15 / 100)) rand 1).1

/-- The round multiplier a round draws, with the draw that follows the shuffle. -/
def drawnMultiplier (g : Game) (rand : Nat → Draw) : Nat :=
  MultiplierEngine.getRandomMultiplier
    (rand (SymbolManager.shuffleBoard g.slot.board (decide ((rand 0).1 < 15 / 100)) rand 1).2).1

/-- The final win of a round evaluated at bet `bet`:
`calculateFinalWin(analyzeWin(B, bet).winAmount)` under the drawn multiplier. -/
def roundFinalWin (g : Game) (rand : Nat → Draw) (bet : ℚ) : ℤ :=
  MultiplierEngine.calculateFinalWin
    { currentMultiplier := (drawnMultiplier g rand : ℚ), isRevealing := false }
    (WinningDetector.analyzeWin (settledBoard g rand) bet).winAmount

end Game

/-- Whether the balance has not been credited yet when a call waits at this
stage. -/
def SpinStage.beforeCredit : SpinStage → Bool
  | SpinStage.displaying _ => false
  | _ => true

/-- How many resumptions a call waiting at this stage can still need. -/
def SpinStage.rank : SpinStage → Nat
  | SpinStage.animating => 5
  | SpinStage.revealing _ => 4
  | SpinStage.shuffling => 3
  | SpinStage.celebrating _ _ => 2
  | SpinStage.displaying _ => 1

/-- Whether a fault at this stage ends the round before the credit step: any
fault before `handleWin` waits, and at that wait a rejected animation, but not
a throw after the balance has been credited. -/
def failsBeforeCredit : SpinStage → Fault → Bool
  | _, Fault.none => false
  | SpinStage.displaying _, _ => false
  | SpinStage.celebrating _ _, Fault.onSuspend => false
  | _, _ => true

/-- Whether an event is a resumption. -/
def Event.isResume : Event → Bool
  | Event.resume _ => true
  | _ => false

namespace Game

/-- How many resumptions the call in flight can still need; 0 when idle. -/
def rank (g : Game) : Nat :=
  match g.pending with
  | none => 0
  | some st => st.rank

/-- What holds of a game while one accepted call, debited down to `debited`, is
in flight or just over: when over, `isSpinning` is clear and the engine is
reset; when waiting, `isSpinning` is set and, before the credit step, the
balance is `debited`. -/
def RoundInv (debited : ℚ) (g : Game) : Prop :=
  match g.pending with
  | none =>
    g.slot.isSpinning = false ∧ g.slot.multiplierEngine.currentMultiplier = 1 ∧
      g.slot.multiplierEngine.isRevealing = false
  | some st =>
    g.slot.isSpinning = true ∧ (st.beforeCredit = true → g.slot.wallet.balance = debited)

end Game

namespace SymbolManager

/-- The position in the draw sequence after the cell that starts at `p`: one
draw further when the cell is a wild, two otherwise. -/
def nextDrawPosition (includeWild : Bool) (rand : Nat → Draw) (p : Nat) : Nat :=
  if decide ((rand p).1 < 1 / 10) && includeWild then p + 1 else p + 2

/-- The position of the first draw of cell `i` when the shuffle starts at
position `k` of the sequence. -/
def drawPosition (includeWild : Bool) (rand : Nat → Draw) : Nat → Nat → Nat
  | k, 0 => k
  | k, i + 1 => drawPosition includeWild rand (nextDrawPosition includeWild rand k) i

/-- A shuffled cell in the words of the specification: the wild when wilds are
included and the first draw `first` is below 0.1, otherwise the base symbol
picked by the second draw `second`. -/
def shuffleCell (includeWild : Bool) (first second : Draw) : String :=
  if includeWild = true ∧ first.1 < 1 / 10 then "tiger" else getRandomSymbol false second

end SymbolManager

namespace WinningDetector

/-- The three line functions agree on the triples `(x, y, z)` and `(a, b, c)`. -/
def SameLine (x y z a b c : String) : Prop :=
  isMatchingLine (JSVal.str x) (JSVal.str y) (JSVal.str z) =
    isMatchingLine (JSVal.str a) (JSVal.str b) (JSVal.str c) ∧
  countWilds (JSVal.str x) (JSVal.str y) (JSVal.str z) =
    countWilds (JSVal.str a) (JSVal.str b) (JSVal.str c) ∧
  (isMatchingLine (JSVal.str a) (JSVal.str b) (JSVal.str c) = true →
    getBaseSymbol (JSVal.str x) (JSVal.str y) (JSVal.str z) =
      getBaseSymbol (JSVal.str a) (JSVal.str b) (JSVal.str c))

end WinningDetector

/-! ## Theorems -/

namespace SymbolManager

theorem isWild_str (s : String) : isWild (JSVal.str s) = true ↔ s = "tiger" := by
  constructor
  · intro h
    by_contra hne
    unfold isWild at h
    simp only [JSVal.toPropertyKey] at h
    split at h
    · rename_i info heq
      unfold symbols at heq
      split at heq <;> first | exact hne rfl | (cases heq; exact absurd h (by simp)) | simp at heq
    · simp at h
  · rintro rfl
    simp [isWild, JSVal.toPropertyKey, symbols]

theorem isWild_eq_decide (s : String) :
    isWild (JSVal.str s) = decide (s = "tiger") := by
  by_cases h : s = "tiger"
  · subst h
    simp [(isWild_str "tiger").2 rfl]
  · have : isWild (JSVal.str s) ≠ true := fun hw => h ((isWild_str s).1 hw)
    simp [h, this]

end SymbolManager

namespace WinningDetector

open SymbolManager

theorem isMatchingLine_str_iff (s1 s2 s3 : String) :
    isMatchingLine (JSVal.str s1) (JSVal.str s2) (JSVal.str s3) = true ↔
      LineRule (fun s => s = "tiger") s1 s2 s3 := by
  unfold isMatchingLine countWilds LineRule
  simp only [isWild_eq_decide, List.filter]
  by_cases h1 : s1 = "tiger" <;> by_cases h2 : s2 = "tiger" <;>
    by_cases h3 : s3 = "tiger" <;> simp [h1, h2, h3, jsAt]

theorem isMatchingLine_tiger_cat_cat :
    isMatchingLine (JSVal.str "tiger") (JSVal.str "cat") (JSVal.str "cat") = true :=
  (isMatchingLine_str_iff _ _ _).2 (Or.inr (Or.inr (Or.inl ⟨rfl, by decide, by decide, rfl⟩)))

/-- C1. `isMatchingLine` holds on a triple of keys exactly when the three keys
are identical, or at least two are wild, or exactly one is wild and the two
non-wild keys are equal; so one wild with two distinct non-wild keys, and no
wild without all three equal, are not matches.  The wild key is `tiger`. -/
theorem C1_isMatchingLine_iff_rule :
    (∀ s1 s2 s3 : String,
      isMatchingLine (JSVal.str s1) (JSVal.str s2) (JSVal.str s3) = true ↔
        LineRule (fun s => isWild (JSVal.str s) = true) s1 s2 s3) ∧
    (∀ s : String, isWild (JSVal.str s) = true ↔ s = wildKey) ∧
    (∀ a b : String, a ≠ b → a ≠ wildKey → b ≠ wildKey →
      isMatchingLine (JSVal.str wildKey) (JSVal.str a) (JSVal.str b) = false ∧
      isMatchingLine (JSVal.str a) (JSVal.str wildKey) (JSVal.str b) = false ∧
      isMatchingLine (JSVal.str a) (JSVal.str b) (JSVal.str wildKey) = false) ∧
    (∀ s1 s2 s3 : String, s1 ≠ wildKey → s2 ≠ wildKey → s3 ≠ wildKey →
      ¬ (s1 = s2 ∧ s2 = s3) →
      isMatchingLine (JSVal.str s1) (JSVal.str s2) (JSVal.str s3) = false) ∧
    isMatchingLine (JSVal.str "cat") (JSVal.str "cat") (JSVal.str "cat") = true ∧
    isMatchingLine (JSVal.str "tiger") (JSVal.str "cat") (JSVal.str "cat") = true ∧
    isMatchingLine (JSVal.str "tiger") (JSVal.str "tiger") (JSVal.str "cat") = true ∧
    isMatchingLine (JSVal.str "tiger") (JSVal.str "tiger") (JSVal.str "tiger") = true ∧
    isMatchingLine (JSVal.str "cat") (JSVal.str "cat") (JSVal.str "frog") = false := by
  have key := isMatchingLine_str_iff
  have hw : ∀ s : String, isWild (JSVal.str s) = true ↔ s = wildKey := isWild_str
  refine ⟨?_, hw, ?_, ?_, ?_, ?_, ?_, ?_, ?_⟩
  · intro s1 s2 s3
    rw [key]
    simp only [LineRule, isWild_str]
  · intro a b hab ha hb
    have e1 := not_congr (key wildKey a b)
    have e2 := not_congr (key a wildKey b)
    have e3 := not_congr (key a b wildKey)
    simp only [Bool.not_eq_true] at e1 e2 e3
    rw [e1, e2, e3]
    unfold LineRule wildKey at *
    refine ⟨?_, ?_, ?_⟩ <;> simp [ha, hb, hab]
  · intro s1 s2 s3 h1 h2 h3 hne
    have e := not_congr (key s1 s2 s3)
    simp only [Bool.not_eq_true] at e
    rw [e]
    unfold LineRule wildKey at *
    simp [h1, h2, h3]
    tauto
  · exact (key _ _ _).2 (Or.inl ⟨rfl, rfl⟩)
  · exact (key _ _ _).2 (Or.inr (Or.inr (Or.inl ⟨rfl, by decide, by decide, rfl⟩)))
  · exact (key _ _ _).2 (Or.inr (Or.inl (Or.inl ⟨rfl, rfl⟩)))
  · exact (key _ _ _).2 (Or.inl ⟨rfl, rfl⟩)
  · have e := not_congr (key "cat" "cat" "frog")
    simp only [Bool.not_eq_true] at e
    rw [e]
    unfold LineRule
    decide

/-- C2. On every triple of keys that `isMatchingLine` accepts, `getBaseSymbol`
does not return `null`: it returns the wild key `tiger` when all three cells are
wild, and otherwise the one key shared by all the non-wild cells. -/
theorem C2_getBaseSymbol_of_matching (s1 s2 s3 : String)
    (h : isMatchingLine (JSVal.str s1) (JSVal.str s2) (JSVal.str s3) = true) :
    getBaseSymbol (JSVal.str s1) (JSVal.str s2) (JSVal.str s3) ≠ JSVal.null ∧
    ((∀ s ∈ [s1, s2, s3], isWild (JSVal.str s) = true) →
      getBaseSymbol (JSVal.str s1) (JSVal.str s2) (JSVal.str s3) = JSVal.str "tiger") ∧
    (¬ (∀ s ∈ [s1, s2, s3], isWild (JSVal.str s) = true) →
      ∃ k : String,
        getBaseSymbol (JSVal.str s1) (JSVal.str s2) (JSVal.str s3) = JSVal.str k ∧
        isWild (JSVal.str k) = false ∧ k ∈ [s1, s2, s3] ∧
        ∀ s ∈ [s1, s2, s3], isWild (JSVal.str s) = false → s = k) := by
  unfold isMatchingLine countWilds at h
  unfold getBaseSymbol
  simp only [isWild_eq_decide, List.filter] at h ⊢
  by_cases h1 : s1 = "tiger" <;> by_cases h2 : s2 = "tiger" <;>
    by_cases h3 : s3 = "tiger" <;> simp [h1, h2, h3, jsAt] at h ⊢
  · have e : s2 = s3 := h.elim (fun h => h.2) id
    subst e
    exact ⟨rfl, s2, by simp [h2]⟩
  · subst h
    exact ⟨rfl, s1, by simp [h1]⟩
  · subst h
    exact ⟨rfl, s1, by simp [h1]⟩
  · obtain ⟨e1, e2⟩ := h
    subst e1
    subst e2
    exact ⟨rfl, s1, by simp [h1]⟩

/-- C2, at the triple (tiger, cat, cat): the line matches and resolves to a
key, here `cat`. -/
theorem C2_getBaseSymbol_of_matching_witness :
    isMatchingLine (JSVal.str "tiger") (JSVal.str "cat") (JSVal.str "cat") = true ∧
    getBaseSymbol (JSVal.str "tiger") (JSVal.str "cat") (JSVal.str "cat") ≠ JSVal.null :=
  ⟨isMatchingLine_tiger_cat_cat, (C2_getBaseSymbol_of_matching "tiger" "cat" "cat" isMatchingLine_tiger_cat_cat).1⟩

/-- A `forEach` that pushes `f x` for every `x` passing `p` builds the filtered,
mapped list after what was already there. -/
theorem foldl_push_eq {α β : Type} (p : α → Bool) (f : α → β) (l : List α) (init : List β) :
    l.foldl (fun acc x => if p x then acc ++ [f x] else acc) init =
      init ++ (l.filter p).map f := by
  induction l generalizing init with
  | nil => simp
  | cons x xs ih =>
    simp only [List.foldl_cons, ih]
    by_cases hp : p x <;> simp [hp, List.filter_cons]

theorem checkWinningLines_eq (board : Board) :
    checkWinningLines board =
      (winningLines.enum.filter (fun e => lineMatches board e.2)).map
        (fun e => lineInfo board e.1 e.2) := by
  unfold checkWinningLines
  have h := foldl_push_eq (fun e : Nat × Nat × Nat × Nat => lineMatches board e.2)
    (fun e => lineInfo board e.1 e.2) winningLines.enum []
  simpa [lineMatches] using h

theorem enumFrom_filter_snd {α : Type} (p : α → Bool) (l : List α) (n : Nat) :
    ((l.enumFrom n).filter (fun e => p e.2)).map Prod.snd = l.filter p := by
  induction l generalizing n with
  | nil => simp
  | cons x xs ih =>
    simp only [List.enumFrom_cons, List.filter_cons]
    by_cases hp : p x <;> simp [hp, ih]

theorem countWilds_le (a b c : JSVal) : countWilds a b c ≤ 3 := by
  unfold countWilds
  exact (List.length_filter_le _ _).trans (by simp)

/-- C3. `checkWinningLines` returns one record per line of the fixed table of
eight lines whose three cells satisfy `isMatchingLine`, in table order (so the
lines of the result are a subsequence of the table and there are at most eight
records); each record carries `getBaseSymbol` of its three cells, that symbol's
catalog multiplier, and the number of wild cells on the line, which is at most
three. -/
theorem C3_checkWinningLines_records (board : Board) :
    winningLines =
      [(0, 1, 2), (3, 4, 5), (6, 7, 8), (0, 3, 6), (1, 4, 7), (2, 5, 8),
       (0, 4, 8), (2, 4, 6)] ∧
    (checkWinningLines board).map (fun w => w.line) =
      winningLines.filter (fun l =>
        isMatchingLine (boardAt board l.1) (boardAt board l.2.1) (boardAt board l.2.2)) ∧
    ((checkWinningLines board).map (fun w => w.line)).Sublist winningLines ∧
    (checkWinningLines board).length ≤ 8 ∧
    ∀ w ∈ checkWinningLines board,
      w.symbol = getBaseSymbol (boardAt board w.line.1) (boardAt board w.line.2.1)
        (boardAt board w.line.2.2) ∧
      w.multiplier = (getSymbolMultiplier w.symbol : ℚ) ∧
      w.wildCount = countWilds (boardAt board w.line.1) (boardAt board w.line.2.1)
        (boardAt board w.line.2.2) ∧
      w.wildCount ≤ 3 := by
  have hlines : (checkWinningLines board).map (fun w => w.line) =
      winningLines.filter (fun l => lineMatches board l) := by
    rw [checkWinningLines_eq, List.map_map]
    exact enumFrom_filter_snd (fun l => lineMatches board l) winningLines 0
  have hsub : ((checkWinningLines board).map (fun w => w.line)).Sublist winningLines := by
    rw [hlines]
    exact List.filter_sublist _
  refine ⟨rfl, hlines, hsub, ?_, ?_⟩
  · have := hsub.length_le
    simpa [winningLines, generateWinningLines] using this
  · intro w hw
    rw [checkWinningLines_eq] at hw
    obtain ⟨e, -, rfl⟩ := List.mem_map.1 hw
    exact ⟨rfl, rfl, rfl, countWilds_le _ _ _⟩

theorem getSymbolMultiplier_tiger : getSymbolMultiplier (JSVal.str "tiger") = 100 := by
  simp [getSymbolMultiplier, JSVal.toPropertyKey, symbols]

theorem wilds_eq_count (board : Board) :
    (board.filter (fun symbol => isWild (JSVal.str symbol))).length = board.count wildKey := by
  induction board with
  | nil => simp
  | cons c cs ih =>
    simp only [List.filter_cons, isWild_eq_decide, List.count_cons, wildKey] at ih ⊢
    by_cases hc : c = "tiger" <;> simp [hc, ih]

theorem all_eq_first_iff (board : Board) (h : board ≠ []) :
    board.all (fun symbol => decide (JSVal.str symbol = boardAt board 0)) = true ↔
      ∃ s, ∀ c ∈ board, c = s := by
  cases board with
  | nil => exact absurd rfl h
  | cons c0 cs =>
    simp only [boardAt, List.getElem?_cons_zero, List.all_eq_true, decide_eq_true_eq,
      JSVal.str.injEq]
    constructor
    · intro hall
      exact ⟨c0, hall⟩
    · rintro ⟨s, hs⟩ c hc
      rw [hs c hc, hs c0 (List.mem_cons_self _ _)]

theorem checkFullBoardWin_uniform (board : Board) (h : board ≠ []) (s : String)
    (hs : ∀ c ∈ board, c = s) :
    checkFullBoardWin board =
      some { type := "fullBoard", symbol := JSVal.str s,
             symbolInfo := getSymbolInfo (JSVal.str s),
             multiplier := (getSymbolMultiplier (JSVal.str s) : ℚ) * 10,
             bonusMultiplier := 10 } := by
  have hall := (all_eq_first_iff board h).2 ⟨s, hs⟩
  have hfirst : boardAt board 0 = JSVal.str s := by
    cases board with
    | nil => exact absurd rfl h
    | cons c0 cs => simp [boardAt, hs c0 (List.mem_cons_self _ _)]
  unfold checkFullBoardWin
  rw [if_pos hall, hfirst]

theorem checkFullBoardWin_not_uniform (board : Board) (h : board ≠ [])
    (hs : ¬ ∃ s : String, ∀ c ∈ board, c = s) :
    checkFullBoardWin board =
      if 3 ≤ board.count wildKey then
        some { type := "wildBoard", symbol := JSVal.str "tiger",
               symbolInfo := getSymbolInfo (JSVal.str "tiger"),
               multiplier := 500, bonusMultiplier := 5 }
      else none := by
  have hall : board.all (fun symbol => decide (JSVal.str symbol = boardAt board 0)) = false := by
    rw [← Bool.not_eq_true, all_eq_first_iff board h]
    exact hs
  unfold checkFullBoardWin
  simp only [hall, wilds_eq_count, getSymbolMultiplier_tiger]
  norm_num

/-- C4. On a nine-cell board `checkFullBoardWin` returns a `fullBoard` win of
symbol `s`, bonus 10 and multiplier `multiplier(s) * 10` when all cells equal
`s` (nine wilds included, which are not a `wildBoard` win); otherwise a
`wildBoard` win of the tiger with bonus 5 and multiplier 500 when at least
three cells are wild; otherwise nothing.  Nine cats give multiplier 500; a
non-uniform board with two wilds gives nothing. -/
theorem C4_checkFullBoardWin_cases (board : Board) (h9 : board.length = 9) :
    (∀ s : String, (∀ c ∈ board, c = s) →
      checkFullBoardWin board =
        some { type := "fullBoard", symbol := JSVal.str s,
               symbolInfo := getSymbolInfo (JSVal.str s),
               multiplier := (getSymbolMultiplier (JSVal.str s) : ℚ) * 10,
               bonusMultiplier := 10 }) ∧
    ((¬ ∃ s : String, ∀ c ∈ board, c = s) → 3 ≤ board.count wildKey →
      checkFullBoardWin board =
        some { type := "wildBoard", symbol := JSVal.str "tiger",
               symbolInfo := getSymbolInfo (JSVal.str "tiger"),
               multiplier := 500, bonusMultiplier := 5 }) ∧
    ((¬ ∃ s : String, ∀ c ∈ board, c = s) → board.count wildKey < 3 →
      checkFullBoardWin board = none) ∧
    (getSymbolMultiplier (JSVal.str "tiger") : ℚ) * 5 = 500 ∧
    (checkFullBoardWin (List.replicate 9 "cat")).map (fun f => (f.type, f.multiplier)) =
      some ("fullBoard", 500) ∧
    (checkFullBoardWin (List.replicate 9 "tiger")).map (fun f => (f.type, f.multiplier)) =
      some ("fullBoard", 1000) ∧
    checkFullBoardWin
      ["tiger", "cat", "tiger", "bomb", "frog", "card", "barrel", "goldPot", "cat"] = none := by
  have hne : board ≠ [] := by
    intro h
    rw [h] at h9
    simp at h9
  refine ⟨fun s hs => checkFullBoardWin_uniform board hne s hs, ?_, ?_, ?_, ?_, ?_, ?_⟩
  · intro hs h3
    rw [checkFullBoardWin_not_uniform board hne hs, if_pos h3]
  · intro hs h3
    rw [checkFullBoardWin_not_uniform board hne hs, if_neg (by omega)]
  · rw [getSymbolMultiplier_tiger]
    norm_num
  · rw [checkFullBoardWin_uniform (List.replicate 9 "cat") (by simp) "cat"
      (fun c hc => List.eq_of_mem_replicate hc)]
    simp [getSymbolMultiplier, JSVal.toPropertyKey, symbols]
    norm_num
  · rw [checkFullBoardWin_uniform (List.replicate 9 "tiger") (by simp) "tiger"
      (fun c hc => List.eq_of_mem_replicate hc)]
    simp [getSymbolMultiplier_tiger]
    norm_num
  · rw [checkFullBoardWin_not_uniform _ (by simp)]
    · simp [wildKey, List.count_cons]
    · rintro ⟨s, hs⟩
      have h0 := hs "tiger" (by simp)
      have h1 := hs "cat" (by simp)
      rw [← h0] at h1
      exact absurd h1 (by decide)

/-- C4, at the board of nine cats: a `fullBoard` win with multiplier 500. -/
theorem C4_checkFullBoardWin_cases_witness :
    (List.replicate 9 "cat").length = 9 ∧
    (checkFullBoardWin (List.replicate 9 "cat")).map (fun f => (f.type, f.multiplier)) =
      some ("fullBoard", 500) :=
  ⟨by simp, (C4_checkFullBoardWin_cases (List.replicate 9 "cat") (by simp)).2.2.2.2.1⟩

theorem foldl_lines_eq (bet : ℚ) (wins : List LineWin) (init : ℚ) :
    wins.foldl
      (fun totalWin win =>
        totalWin + bet *
          (if win.wildCount > 0 then win.multiplier * (1 + (win.wildCount : ℚ) * (1 / 2))
           else win.multiplier))
      init = init + (wins.map (lineContribution bet)).sum := by
  induction wins generalizing init with
  | nil => simp
  | cons w ws ih =>
    simp only [List.foldl_cons, ih, List.map_cons, List.sum_cons, lineContribution]
    by_cases hw : w.wildCount > 0
    · rw [if_pos hw]
      ring
    · have h0 : w.wildCount = 0 := by omega
      rw [if_neg hw, h0]
      simp
      ring

theorem calculateWinAmount_eq (bet : ℚ) (wins : List LineWin)
    (fullBoardWin : Option FullBoardWin) :
    calculateWinAmount bet wins fullBoardWin =
      fullBoardContribution bet fullBoardWin + (wins.map (lineContribution bet)).sum := by
  unfold calculateWinAmount
  simp only []
  rw [foldl_lines_eq]
  cases fullBoardWin <;> simp [fullBoardContribution]

/-- C5. `calculateWinAmount` returns the full-board contribution (bet times
the full-board multiplier when one is present, else 0) plus the sum over the
line wins of `bet × multiplier × (1 + 0.5 × wildCount)`; a line with 0, 1, 2 or
3 wilds pays `bet × multiplier` times 1, 1.5, 2 or 2.5, and a full-board win
is added to the line wins. -/
theorem C5_calculateWinAmount_sum (bet : ℚ) (wins : List LineWin)
    (fullBoardWin : Option FullBoardWin) :
    calculateWinAmount bet wins fullBoardWin =
      fullBoardContribution bet fullBoardWin + (wins.map (lineContribution bet)).sum ∧
    (∀ w ∈ wins,
      (w.wildCount = 0 → lineContribution bet w = bet * w.multiplier * 1) ∧
      (w.wildCount = 1 → lineContribution bet w = bet * w.multiplier * (3 / 2)) ∧
      (w.wildCount = 2 → lineContribution bet w = bet * w.multiplier * 2) ∧
      (w.wildCount = 3 → lineContribution bet w = bet * w.multiplier * (5 / 2))) ∧
    (∀ f : FullBoardWin,
      calculateWinAmount bet wins (some f) =
        bet * f.multiplier + calculateWinAmount bet wins none) := by
  refine ⟨calculateWinAmount_eq bet wins fullBoardWin, ?_, ?_⟩
  · intro w _
    refine ⟨?_, ?_, ?_, ?_⟩ <;> intro h <;> simp only [lineContribution, h] <;> norm_num
  · intro f
    rw [calculateWinAmount_eq, calculateWinAmount_eq]
    simp [fullBoardContribution]

theorem isMatchingLine_self (a : JSVal) : isMatchingLine a a a = true := by
  simp [isMatchingLine]

theorem not_wild_of_mem_baseSymbols (s : String) (hs : s ∈ baseSymbols) : s ≠ "tiger" := by
  intro h
  subst h
  simp [baseSymbols] at hs

theorem getBaseSymbol_self (s : String) (h : s ≠ "tiger") :
    getBaseSymbol (JSVal.str s) (JSVal.str s) (JSVal.str s) = JSVal.str s := by
  unfold getBaseSymbol
  simp [isWild_eq_decide, h, jsAt]

theorem countWilds_self (s : String) (h : s ≠ "tiger") :
    countWilds (JSVal.str s) (JSVal.str s) (JSVal.str s) = 0 := by
  unfold countWilds
  simp [isWild_eq_decide, h]

theorem checkWinningLines_replicate (s : String) (h : s ≠ "tiger") :
    checkWinningLines (List.replicate 9 s) =
      (winningLines.enum).map (fun e =>
        { line := e.2, symbol := JSVal.str s, symbolInfo := getSymbolInfo (JSVal.str s),
          multiplier := (getSymbolMultiplier (JSVal.str s) : ℚ), wildCount := 0,
          lineType := getLineType e.1 }) := by
  rw [checkWinningLines_eq]
  simp [winningLines, generateWinningLines, List.enum, List.enumFrom, lineMatches, lineInfo,
    boardAt, List.filter_cons, isMatchingLine_self, getBaseSymbol_self s h, countWilds_self s h]

theorem sum_map_const {α : Type} (l : List α) (c : ℚ) :
    (l.map (fun _ => c)).sum = (l.length : ℚ) * c := by
  induction l with
  | nil => simp
  | cons x xs ih =>
    simp only [List.map_cons, List.sum_cons, ih, List.length_cons]
    push_cast
    ring

theorem analyzeWin_replicate (s : String) (b : ℚ) (h : s ≠ "tiger") :
    fullBoardContribution b (analyzeWin (List.replicate 9 s) b).fullBoardWin =
      b * (getSymbolMultiplier (JSVal.str s) : ℚ) * 10 ∧
    (analyzeWin (List.replicate 9 s) b).wins.length = 8 ∧
    (∀ w ∈ (analyzeWin (List.replicate 9 s) b).wins,
      lineContribution b w = b * (getSymbolMultiplier (JSVal.str s) : ℚ)) ∧
    (analyzeWin (List.replicate 9 s) b).winAmount =
      b * (getSymbolMultiplier (JSVal.str s) : ℚ) * 10 +
        8 * (b * (getSymbolMultiplier (JSVal.str s) : ℚ)) := by
  have hfull := checkFullBoardWin_uniform (List.replicate 9 s) (by simp) s
    (fun c hc => List.eq_of_mem_replicate hc)
  have hlines := checkWinningLines_replicate s h
  have hcontrib : ∀ w ∈ checkWinningLines (List.replicate 9 s),
      lineContribution b w = b * (getSymbolMultiplier (JSVal.str s) : ℚ) := by
    intro w hw
    rw [hlines] at hw
    obtain ⟨e, -, rfl⟩ := List.mem_map.1 hw
    simp [lineContribution]
  have hlen : (checkWinningLines (List.replicate 9 s)).length = 8 := by
    rw [hlines]
    simp [winningLines, generateWinningLines]
  have hsum : ((checkWinningLines (List.replicate 9 s)).map (lineContribution b)).sum =
      8 * (b * (getSymbolMultiplier (JSVal.str s) : ℚ)) := by
    rw [List.map_congr_left hcontrib, sum_map_const, hlen]
    norm_num
  refine ⟨?_, hlen, hcontrib, ?_⟩
  · simp only [analyzeWin, hfull, fullBoardContribution]
    ring
  · simp only [analyzeWin]
    rw [calculateWinAmount_eq, hsum, hfull]
    simp only [fullBoardContribution]
    ring

/-- C6. On the board of nine cells of one non-wild catalog symbol `s`, at bet
`b`, `analyzeWin` has a full-board contribution of `b × multiplier(s) × 10`,
eight line wins each contributing `b × multiplier(s)`, and a `winAmount` that is
exactly their sum, `18 × b × multiplier(s)`; nine bombs at bet 10 give 500
and 900. -/
theorem C6_analyzeWin_uniform_board (s : String) (b : ℚ) (hs : s ∈ baseSymbols) :
    fullBoardContribution b (analyzeWin (List.replicate 9 s) b).fullBoardWin =
      b * (getSymbolMultiplier (JSVal.str s) : ℚ) * 10 ∧
    (analyzeWin (List.replicate 9 s) b).wins.length = 8 ∧
    (∀ w ∈ (analyzeWin (List.replicate 9 s) b).wins,
      lineContribution b w = b * (getSymbolMultiplier (JSVal.str s) : ℚ)) ∧
    (analyzeWin (List.replicate 9 s) b).winAmount =
      b * (getSymbolMultiplier (JSVal.str s) : ℚ) * 10 +
        8 * (b * (getSymbolMultiplier (JSVal.str s) : ℚ)) ∧
    (analyzeWin (List.replicate 9 s) b).winAmount =
      18 * b * (getSymbolMultiplier (JSVal.str s) : ℚ) ∧
    fullBoardContribution 10 (analyzeWin (List.replicate 9 "bomb") 10).fullBoardWin = 500 ∧
    (analyzeWin (List.replicate 9 "bomb") 10).winAmount = 900 := by
  have h := analyzeWin_replicate s b (not_wild_of_mem_baseSymbols s hs)
  have hb := analyzeWin_replicate "bomb" 10 (by decide)
  have hm : getSymbolMultiplier (JSVal.str "bomb") = 5 := by
    simp [getSymbolMultiplier, JSVal.toPropertyKey, symbols]
  refine ⟨h.1, h.2.1, h.2.2.1, h.2.2.2, ?_, ?_, ?_⟩
  · rw [h.2.2.2]
    ring
  · rw [hb.1, hm]
    norm_num
  · rw [hb.2.2.2, hm]
    norm_num

/-- C6, at nine bombs and bet 10: the win amount is 900. -/
theorem C6_analyzeWin_uniform_board_witness :
    "bomb" ∈ baseSymbols ∧ (analyzeWin (List.replicate 9 "bomb") 10).winAmount = 900 :=
  ⟨by simp [baseSymbols],
    (C6_analyzeWin_uniform_board "bomb" 10 (by simp [baseSymbols])).2.2.2.2.2.2⟩

/-- C7. The flags of `analyzeWin`: `hasWin` holds exactly when there is a line
win or a full-board win, `isBigWin` exactly when there is a full-board win or
at least three line wins, `isMegaWin` exactly when `winAmount ≥ 50 × bet`, and
`totalWins` is the number of line wins; the line wins and the full-board win
are those of `checkWinningLines` and `checkFullBoardWin`, the amount that of
`calculateWinAmount`. -/
theorem C7_analyzeWin_flags (board : Board) (bet : ℚ) :
    (analyzeWin board bet).wins = checkWinningLines board ∧
    (analyzeWin board bet).fullBoardWin = checkFullBoardWin board ∧
    (analyzeWin board bet).winAmount =
      calculateWinAmount bet (checkWinningLines board) (checkFullBoardWin board) ∧
    ((analyzeWin board bet).hasWin = true ↔
      (analyzeWin board bet).wins ≠ [] ∨ (analyzeWin board bet).fullBoardWin.isSome = true) ∧
    ((analyzeWin board bet).isBigWin = true ↔
      (analyzeWin board bet).fullBoardWin.isSome = true ∨
        3 ≤ (analyzeWin board bet).wins.length) ∧
    ((analyzeWin board bet).isMegaWin = true ↔
      50 * bet ≤ (analyzeWin board bet).winAmount) ∧
    (analyzeWin board bet).totalWins = (analyzeWin board bet).wins.length := by
  refine ⟨rfl, rfl, rfl, ?_, ?_, ?_, rfl⟩
  · simp only [analyzeWin, Bool.or_eq_true, decide_eq_true_eq, List.length_pos, ne_eq,
      Option.isSome_iff_ne_none]
  · simp only [analyzeWin, Bool.or_eq_true, decide_eq_true_eq, ne_eq, ge_iff_le,
      Option.isSome_iff_ne_none]
  · simp only [analyzeWin, decide_eq_true_eq, ge_iff_le, mul_comm]

end WinningDetector

namespace MultiplierEngine

theorem mathRound_nearest (x : ℚ) : IsNearestHalfUp x (mathRound x) := by
  unfold IsNearestHalfUp mathRound
  constructor
  · have := Int.floor_le (x + 1 / 2)
    linarith
  · have := Int.lt_floor_add_one (x + 1 / 2)
    linarith

theorem nearest_unique (x : ℚ) (n k : ℤ) (hn : IsNearestHalfUp x n)
    (hk : IsNearestHalfUp x k) : n = k := by
  obtain ⟨a1, a2⟩ := hn
  obtain ⟨b1, b2⟩ := hk
  have h1 : (n : ℚ) < (k : ℚ) + 1 := by linarith
  have h2 : (k : ℚ) < (n : ℚ) + 1 := by linarith
  have h3 : n < k + 1 := by exact_mod_cast h1
  have h4 : k < n + 1 := by exact_mod_cast h2
  omega

theorem getMultiplierBonus_eq (e : MultiplierEngine) :
    getMultiplierBonus e = bonusForMultiplier e.currentMultiplier := by
  unfold getMultiplierBonus getMultiplierTier bonusForMultiplier
  by_cases h75 : e.currentMultiplier ≥ 75
  · simp [h75]
  · by_cases h50 : e.currentMultiplier ≥ 50
    · simp [h75, h50, lt_of_not_ge h75]
    · by_cases h25 : e.currentMultiplier ≥ 25
      · simp [h75, h50, h25, lt_of_not_ge h50]
      · by_cases h15 : e.currentMultiplier ≥ 15
        · simp [h75, h50, h25, h15, lt_of_not_ge h25]
        · simp [h75, h50, h25, h15]

/-- C8. With current round multiplier `m`, `applyMultiplier w` is `w × m`
rounded to the nearest integer (halves up) and `calculateFinalWin w` is that
integer times the tier bonus, rounded the same way; the bonus is 2.0 from 75,
1.5 on [50, 75), 1.2 on [25, 50), 1.1 on [15, 25) and 1.0 below.  With
`w = 100` and `m = 50` the two results are 5000 and 7500. -/
theorem C8_final_win_rounding (e : MultiplierEngine) (w : ℚ) :
    IsNearestHalfUp (w * e.currentMultiplier) (applyMultiplier e w) ∧
    applyMultiplier e w = ⌊w * e.currentMultiplier + 1 / 2⌋ ∧
    IsNearestHalfUp ((applyMultiplier e w : ℚ) * bonusForMultiplier e.currentMultiplier)
      (calculateFinalWin e w) ∧
    (∀ n : ℤ, IsNearestHalfUp (w * e.currentMultiplier) n → n = applyMultiplier e w) ∧
    (∀ n : ℤ,
      IsNearestHalfUp ((applyMultiplier e w : ℚ) * bonusForMultiplier e.currentMultiplier) n →
      n = calculateFinalWin e w) ∧
    getMultiplierBonus e = bonusForMultiplier e.currentMultiplier ∧
    applyMultiplier { currentMultiplier := 50, isRevealing := false } 100 = 5000 ∧
    getMultiplierBonus { currentMultiplier := 50, isRevealing := false } = 3 / 2 ∧
    calculateFinalWin { currentMultiplier := 50, isRevealing := false } 100 = 7500 := by
  have hfinal : IsNearestHalfUp
      ((applyMultiplier e w : ℚ) * bonusForMultiplier e.currentMultiplier)
      (calculateFinalWin e w) := by
    unfold calculateFinalWin
    simp only [getMultiplierBonus_eq]
    exact mathRound_nearest _
  have h50 : getMultiplierBonus { currentMultiplier := 50, isRevealing := false } = 3 / 2 := by
    rw [getMultiplierBonus_eq]
    norm_num [bonusForMultiplier]
  have ha : applyMultiplier { currentMultiplier := 50, isRevealing := false } 100 = 5000 := by
    unfold applyMultiplier mathRound
    rw [Int.floor_eq_iff]
    norm_num
  refine ⟨mathRound_nearest _, rfl, hfinal, ?_, ?_, getMultiplierBonus_eq e, ha, h50, ?_⟩
  · intro n hn
    exact nearest_unique _ _ _ hn (mathRound_nearest _)
  · intro n hn
    exact nearest_unique _ _ _ hn hfinal
  · unfold calculateFinalWin
    simp only [ha, h50]
    unfold mathRound
    rw [Int.floor_eq_iff]
    norm_num

theorem cumulativeWeight_zero (table : List (Nat × Nat)) : cumulativeWeight table 0 = 0 := by
  simp [cumulativeWeight]

theorem cumulativeWeight_cons (m w : Nat) (rest : List (Nat × Nat)) (k : Nat) :
    cumulativeWeight ((m, w) :: rest) (k + 1) = (w : ℚ) + cumulativeWeight rest k := by
  simp [cumulativeWeight]

theorem cumulativeWeight_nil (k : Nat) : cumulativeWeight [] k = 0 := by
  simp [cumulativeWeight]

/-- The loop returns at the first entry whose cumulative weight reaches
`random`, provided the whole table reaches it. -/
theorem walkWeights_first (table : List (Nat × Nat)) (r : ℚ) (hne : table ≠ [])
    (hr : r ≤ cumulativeWeight table table.length) :
    ∃ k v wt, table[k]? = some (v, wt) ∧ walkWeights table r = some v ∧
      r ≤ cumulativeWeight table (k + 1) ∧
      ∀ j, j < k → cumulativeWeight table (j + 1) < r := by
  induction table generalizing r with
  | nil => exact absurd rfl hne
  | cons e rest ih =>
    obtain ⟨m, w⟩ := e
    by_cases h0 : r - (w : ℚ) ≤ 0
    · refine ⟨0, m, w, by simp, by simp [walkWeights, h0], ?_, ?_⟩
      · rw [cumulativeWeight_cons, cumulativeWeight_zero]
        linarith
      · intro j hj
        omega
    · have hr2 : r - (w : ℚ) ≤ cumulativeWeight rest rest.length := by
        rw [List.length_cons, cumulativeWeight_cons] at hr
        linarith
      have hrest : rest ≠ [] := by
        intro hnil
        rw [hnil, cumulativeWeight_nil] at hr2
        exact h0 hr2
      obtain ⟨k, v, wt, hk, hwalk, hle, hlt⟩ := ih (r - (w : ℚ)) hrest hr2
      refine ⟨k + 1, v, wt, by simpa using hk, by simp [walkWeights, h0, hwalk], ?_, ?_⟩
      · rw [cumulativeWeight_cons]
        linarith
      · intro j hj
        cases j with
        | zero =>
          rw [cumulativeWeight_cons, cumulativeWeight_zero]
          linarith [not_le.1 h0]
        | succ j2 =>
          rw [cumulativeWeight_cons]
          have := hlt j2 (by omega)
          linarith

theorem totalWeight_eq : totalWeight = 132 := by decide

theorem cumulativeWeight_all :
    cumulativeWeight multiplierWeights multiplierWeights.length = 132 := by
  simp [cumulativeWeight, multiplierWeights]

/-- The loop on the built-in table, written out as its ten tests. -/
theorem getRandomMultiplier_unfold (u : ℚ) :
    getRandomMultiplier u =
      if u * 132 ≤ 30 then 5
      else if u * 132 ≤ 55 then 10
      else if u * 132 ≤ 75 then 15
      else if u * 132 ≤ 90 then 20
      else if u * 132 ≤ 102 then 25
      else if u * 132 ≤ 112 then 30
      else if u * 132 ≤ 120 then 40
      else if u * 132 ≤ 126 then 50
      else if u * 132 ≤ 130 then 75
      else if u * 132 ≤ 132 then 100
      else 5 := by
  unfold getRandomMultiplier
  rw [totalWeight_eq]
  simp only [multiplierWeights, walkWeights]
  push_cast
  simp only [sub_nonpos, sub_le_iff_le_add]
  norm_num
  by_cases c0 : u * 132 ≤ 30
  · simp only [if_pos c0]
  · simp only [if_neg c0]
    by_cases c1 : u * 132 ≤ 55
    · simp only [if_pos c1]
    · simp only [if_neg c1]
      by_cases c2 : u * 132 ≤ 75
      · simp only [if_pos c2]
      · simp only [if_neg c2]
        by_cases c3 : u * 132 ≤ 90
        · simp only [if_pos c3]
        · simp only [if_neg c3]
          by_cases c4 : u * 132 ≤ 102
          · simp only [if_pos c4]
          · simp only [if_neg c4]
            by_cases c5 : u * 132 ≤ 112
            · simp only [if_pos c5]
            · simp only [if_neg c5]
              by_cases c6 : u * 132 ≤ 120
              · simp only [if_pos c6]
              · simp only [if_neg c6]
                by_cases c7 : u * 132 ≤ 126
                · simp only [if_pos c7]
                · simp only [if_neg c7]
                  by_cases c8 : u * 132 ≤ 130
                  · simp only [if_pos c8]
                  · simp only [if_neg c8]
                    by_cases c9 : u ≤ 1
                    · simp only [if_pos c9]
                    · simp only [if_neg c9]

/-- C9. With the draw `r = u × Σweights`, `u` in [0, 1), `getRandomMultiplier`
walks the table in the order 5, 10, 15, 20, 25, 30, 40, 50, 75, 100 and returns
the multiplier of the first entry whose cumulative weight is at least `r`; the
loop itself returns (the fallback after it is not reached), and the result is
one of the ten multipliers. -/
theorem C9_getRandomMultiplier_first (u : ℚ) (_h0 : 0 ≤ u) (h1 : u < 1) :
    multiplierWeights.map (fun e => e.1) = [5, 10, 15, 20, 25, 30, 40, 50, 75, 100] ∧
    (∃ k v wt, multiplierWeights[k]? = some (v, wt) ∧
      walkWeights multiplierWeights (u * (totalWeight : ℚ)) = some v ∧
      getRandomMultiplier u = v ∧
      u * (totalWeight : ℚ) ≤ cumulativeWeight multiplierWeights (k + 1) ∧
      ∀ j, j < k → cumulativeWeight multiplierWeights (j + 1) < u * (totalWeight : ℚ)) ∧
    walkWeights multiplierWeights (u * (totalWeight : ℚ)) ≠ none ∧
    getRandomMultiplier u ∈ possibleMultipliers := by
  have hr : u * (totalWeight : ℚ) ≤ cumulativeWeight multiplierWeights multiplierWeights.length := by
    rw [cumulativeWeight_all, totalWeight_eq]
    push_cast
    linarith
  obtain ⟨k, v, wt, hk, hwalk, hle, hlt⟩ :=
    walkWeights_first multiplierWeights (u * (totalWeight : ℚ)) (by simp [multiplierWeights]) hr
  have hres : getRandomMultiplier u = v := by
    unfold getRandomMultiplier
    simp only [hwalk]
  have hmap : multiplierWeights.map (fun e => e.1) = possibleMultipliers := rfl
  refine ⟨rfl, ⟨k, v, wt, hk, hwalk, hres, hle, hlt⟩, by simp [hwalk], ?_⟩
  rw [hres, ← hmap]
  exact List.mem_map.2 ⟨(v, wt), List.getElem?_mem hk, rfl⟩

/-- C9, at the draw `u = 1/2`: the loop returns 15, the first entry whose
cumulative weight (75) reaches `r = 66`. -/
theorem C9_getRandomMultiplier_first_witness :
    (0 : ℚ) ≤ 1 / 2 ∧ (1 / 2 : ℚ) < 1 ∧ getRandomMultiplier (1 / 2) = 15 ∧
    getRandomMultiplier (1 / 2) ∈ possibleMultipliers :=
  ⟨by norm_num, by norm_num, by rw [getRandomMultiplier_unfold]; norm_num,
    (C9_getRandomMultiplier_first (1 / 2) (by norm_num) (by norm_num)).2.2.2⟩

theorem targetWeight_five : targetWeight 5 = 30 := by decide

theorem targetWeight_hundred : targetWeight 100 = 2 := by decide

/-- C10 as stated fails: the weights of the table sum to 132, not 152, so the
shares of the multipliers 5 and 100 are not 30/152 and 2/152. -/
theorem C10_total_weight_is_not_152 :
    totalWeight = 132 ∧ totalWeight ≠ 152 ∧
    weightShare 5 ≠ 30 / 152 ∧ weightShare 100 ≠ 2 / 152 := by
  refine ⟨totalWeight_eq, by decide, ?_, ?_⟩
  · unfold weightShare
    rw [totalWeight_eq, targetWeight_five]
    norm_num
  · unfold weightShare
    rw [totalWeight_eq, targetWeight_hundred]
    norm_num

/-- C10, amended. The weights sum to 132 and the share of a multiplier is its
weight over 132: 30/132 for multiplier 5 and 2/132 for multiplier 100.  A draw
`r = u × 132` in [0, 132) is mapped to 5 exactly when `r ≤ 30` (an interval of
length 30) and to 100 exactly when `130 < r` (an interval of length 2). -/
theorem C10_weight_shares (u : ℚ) (h0 : 0 ≤ u) (h1 : u < 1) :
    totalWeight = 132 ∧
    targetWeight 5 = 30 ∧ targetWeight 100 = 2 ∧
    weightShare 5 = 30 / 132 ∧ weightShare 100 = 2 / 132 ∧
    0 ≤ u * (totalWeight : ℚ) ∧ u * (totalWeight : ℚ) < 132 ∧
    (getRandomMultiplier u = 5 ↔ u * (totalWeight : ℚ) ≤ 30) ∧
    (getRandomMultiplier u = 100 ↔ 130 < u * (totalWeight : ℚ)) := by
  have hs5 : weightShare 5 = 30 / 132 := by
    unfold weightShare
    rw [totalWeight_eq, targetWeight_five]
    norm_num
  have hs100 : weightShare 100 = 2 / 132 := by
    unfold weightShare
    rw [totalWeight_eq, targetWeight_hundred]
    norm_num
  refine ⟨totalWeight_eq, targetWeight_five, targetWeight_hundred, hs5, hs100, ?_, ?_, ?_, ?_⟩
  · rw [totalWeight_eq]
    push_cast
    linarith
  · rw [totalWeight_eq]
    push_cast
    linarith
  · rw [getRandomMultiplier_unfold, totalWeight_eq]
    push_cast
    constructor
    · intro h
      by_contra hn
      rw [if_neg hn] at h
      revert h
      by_cases c1 : u * 132 ≤ 55
      · rw [if_pos c1]
        decide
      · rw [if_neg c1]
        by_cases c2 : u * 132 ≤ 75
        · rw [if_pos c2]
          decide
        · rw [if_neg c2]
          by_cases c3 : u * 132 ≤ 90
          · rw [if_pos c3]
            decide
          · rw [if_neg c3]
            by_cases c4 : u * 132 ≤ 102
            · rw [if_pos c4]
              decide
            · rw [if_neg c4]
              by_cases c5 : u * 132 ≤ 112
              · rw [if_pos c5]
                decide
              · rw [if_neg c5]
                by_cases c6 : u * 132 ≤ 120
                · rw [if_pos c6]
                  decide
                · rw [if_neg c6]
                  by_cases c7 : u * 132 ≤ 126
                  · rw [if_pos c7]
                    decide
                  · rw [if_neg c7]
                    by_cases c8 : u * 132 ≤ 130
                    · rw [if_pos c8]
                      decide
                    · rw [if_neg c8, if_pos (by linarith)]
                      decide
    · intro h
      rw [if_pos h]
  · rw [getRandomMultiplier_unfold, totalWeight_eq]
    push_cast
    constructor
    · intro h
      by_contra hn
      have hle : u * 132 ≤ 130 := le_of_not_lt hn
      revert h
      show _ ≠ _
      by_cases c0 : u * 132 ≤ 30
      · rw [if_pos c0]
        decide
      · rw [if_neg c0]
        by_cases c1 : u * 132 ≤ 55
        · rw [if_pos c1]
          decide
        · rw [if_neg c1]
          by_cases c2 : u * 132 ≤ 75
          · rw [if_pos c2]
            decide
          · rw [if_neg c2]
            by_cases c3 : u * 132 ≤ 90
            · rw [if_pos c3]
              decide
            · rw [if_neg c3]
              by_cases c4 : u * 132 ≤ 102
              · rw [if_pos c4]
                decide
              · rw [if_neg c4]
                by_cases c5 : u * 132 ≤ 112
                · rw [if_pos c5]
                  decide
                · rw [if_neg c5]
                  by_cases c6 : u * 132 ≤ 120
                  · rw [if_pos c6]
                    decide
                  · rw [if_neg c6]
                    by_cases c7 : u * 132 ≤ 126
                    · rw [if_pos c7]
                      decide
                    · rw [if_neg c7]
                      rw [if_pos hle]
                      decide
    · intro h
      have h132 : u * 132 ≤ 132 := by linarith
      rw [if_neg (by linarith), if_neg (by linarith), if_neg (by linarith), if_neg (by linarith),
        if_neg (by linarith), if_neg (by linarith), if_neg (by linarith), if_neg (by linarith),
        if_neg (by linarith), if_pos h132]

/-- C10 amended, at the draw `u = 131/132`: it is mapped to 100. -/
theorem C10_weight_shares_witness :
    (0 : ℚ) ≤ 131 / 132 ∧ (131 / 132 : ℚ) < 1 ∧ getRandomMultiplier (131 / 132) = 100 :=
  ⟨by norm_num, by norm_num,
    ((C10_weight_shares (131 / 132) (by norm_num) (by norm_num)).2.2.2.2.2.2.2.2).2
      (by rw [totalWeight_eq]; norm_num)⟩

end MultiplierEngine

namespace MultiplierEngine

theorem toFixed1_nearest (x : ℚ) (hx : 0 ≤ x) : IsNearestTenth x (toFixed1 x) := by
  unfold toFixed1
  rw [if_neg (not_lt.2 hx)]
  refine ⟨⟨_, rfl⟩, ?_, ?_⟩
  · have := Int.floor_le (x * 10 + 1 / 2)
    linarith
  · have := Int.lt_floor_add_one (x * 10 + 1 / 2)
    linarith

theorem toFixed1_zero : toFixed1 0 = 0 := by
  unfold toFixed1
  norm_num

theorem foldl_add_eq_sum (l : List Nat) (init : Nat) :
    l.foldl (fun sum weight => sum + weight) init = init + l.sum := by
  induction l generalizing init with
  | nil => simp
  | cons x xs ih =>
    simp only [List.foldl_cons, ih, List.sum_cons]
    omega

theorem totalWeightOf_eq_sum (weights : List (Nat × Nat)) :
    totalWeightOf weights = (weights.map (fun e => e.2)).sum := by
  unfold totalWeightOf
  rw [foldl_add_eq_sum]
  simp

theorem targetWeightOf_cons (k w : Nat) (rest : List (Nat × Nat)) (v : Nat) :
    targetWeightOf ((k, w) :: rest) v = if v = k then w else targetWeightOf rest v := by
  unfold targetWeightOf
  by_cases h : v = k
  · subst h
    simp [List.lookup]
  · have hb : (v == k) = false := by simpa using h
    simp [List.lookup, hb, h]

theorem targetWeightOf_not_mem (weights : List (Nat × Nat)) (v : Nat)
    (hv : v ∉ weights.map (fun e => e.1)) : targetWeightOf weights v = 0 := by
  induction weights with
  | nil => simp [targetWeightOf, List.lookup]
  | cons e rest ih =>
    obtain ⟨k, w⟩ := e
    simp only [List.map_cons, List.mem_cons, not_or] at hv
    rw [targetWeightOf_cons, if_neg hv.1]
    exact ih hv.2

theorem sum_targetWeightOf (weights : List (Nat × Nat))
    (hkeys : (weights.map (fun e => e.1)).Nodup) :
    (weights.map (fun e => targetWeightOf weights e.1)).sum =
      (weights.map (fun e => e.2)).sum := by
  induction weights with
  | nil => simp
  | cons e rest ih =>
    obtain ⟨k, w⟩ := e
    simp only [List.map_cons, List.nodup_cons] at hkeys
    simp only [List.map_cons, List.sum_cons, targetWeightOf_cons, if_true]
    have hrest : rest.map (fun e => if e.1 = k then w else targetWeightOf rest e.1) =
        rest.map (fun e => targetWeightOf rest e.1) := by
      apply List.map_congr_left
      intro e he
      have hne : e.1 ≠ k := by
        intro h
        exact hkeys.1 (h ▸ List.mem_map.2 ⟨e, he, rfl⟩)
      rw [if_neg hne]
    rw [hrest, ih hkeys.2]

theorem abs_sum_sub_le {α : Type} (l : List α) (f g : α → ℚ) (c : ℚ)
    (h : ∀ a ∈ l, |f a - g a| ≤ c) :
    |(l.map f).sum - (l.map g).sum| ≤ (l.length : ℚ) * c := by
  induction l with
  | nil => simp
  | cons a as ih =>
    have ha := h a (List.mem_cons_self _ _)
    have has := ih (fun b hb => h b (List.mem_cons_of_mem _ hb))
    simp only [List.map_cons, List.sum_cons, List.length_cons]
    have e : f a + (as.map f).sum - (g a + (as.map g).sum) =
        (f a - g a) + ((as.map f).sum - (as.map g).sum) := by ring
    rw [e]
    push_cast
    calc |(f a - g a) + ((as.map f).sum - (as.map g).sum)|
        ≤ |f a - g a| + |(as.map f).sum - (as.map g).sum| := abs_add _ _
      _ ≤ c + (as.length : ℚ) * c := add_le_add ha has
      _ = ((as.length : ℚ) + 1) * c := by ring

theorem sum_map_share {α : Type} (l : List α) (f : α → Nat) (t : ℚ) :
    (l.map (fun a => (f a : ℚ) / t * 100)).sum = (((l.map f).sum : Nat) : ℚ) / t * 100 := by
  induction l with
  | nil => simp
  | cons a as ih =>
    simp only [List.map_cons, List.sum_cons, ih]
    push_cast
    ring

theorem totalWeightOf_pos (weights : List (Nat × Nat)) (hne : weights ≠ [])
    (hpos : ∀ e ∈ weights, 0 < e.2) : 0 < totalWeightOf weights := by
  rw [totalWeightOf_eq_sum]
  cases weights with
  | nil => exact absurd rfl hne
  | cons e rest =>
    have := hpos e (List.mem_cons_self _ _)
    simp only [List.map_cons, List.sum_cons]
    omega

theorem sum_exact_shares (weights : List (Nat × Nat)) (hne : weights ≠ [])
    (hkeys : (weights.map (fun e => e.1)).Nodup) (hpos : ∀ e ∈ weights, 0 < e.2) :
    (weights.map (fun e =>
      (targetWeightOf weights e.1 : ℚ) / (totalWeightOf weights : ℚ) * 100)).sum = 100 := by
  rw [sum_map_share weights (fun e => targetWeightOf weights e.1), sum_targetWeightOf weights hkeys,
    ← totalWeightOf_eq_sum]
  have hT : (0 : ℚ) < (totalWeightOf weights : ℚ) := by
    exact_mod_cast totalWeightOf_pos weights hne hpos
  field_simp

theorem calculateProbabilityOf_nearest (weights : List (Nat × Nat)) (v : Nat) :
    IsNearestTenth ((targetWeightOf weights v : ℚ) / (totalWeightOf weights : ℚ) * 100)
      (calculateProbabilityOf weights v) := by
  unfold calculateProbabilityOf
  apply toFixed1_nearest
  positivity

theorem distribution_sum_close (weights : List (Nat × Nat)) (hne : weights ≠ [])
    (hkeys : (weights.map (fun e => e.1)).Nodup) (hpos : ∀ e ∈ weights, 0 < e.2) :
    |((getMultiplierDistributionOf weights).map (fun e => e.2)).sum - 100| ≤
      (weights.length : ℚ) * (1 / 20) := by
  have h := abs_sum_sub_le weights (fun e => calculateProbabilityOf weights e.1)
    (fun e => (targetWeightOf weights e.1 : ℚ) / (totalWeightOf weights : ℚ) * 100) (1 / 20)
    (by
      intro e _
      obtain ⟨-, h1, h2⟩ := calculateProbabilityOf_nearest weights e.1
      rw [abs_le]
      constructor <;> linarith)
  rw [sum_exact_shares weights hne hkeys hpos] at h
  unfold getMultiplierDistributionOf
  rw [List.map_map]
  exact h

/-- C11. `calculateProbability(v)` is `100 × weight(v) / Σweights` rounded to one
decimal place, and `0.0` for a `v` that is not a key of the table; over any
table of `n` positive weights the probabilities of all its keys sum to 100
within `n × 0.05`, and over the built-in table of ten entries within `0.5`. -/
theorem C11_calculateProbability_rounding (weights : List (Nat × Nat)) (hne : weights ≠ [])
    (hkeys : (weights.map (fun e => e.1)).Nodup) (hpos : ∀ e ∈ weights, 0 < e.2) :
    (∀ v : Nat,
      IsNearestTenth (100 * (targetWeightOf weights v : ℚ) / (totalWeightOf weights : ℚ))
        (calculateProbabilityOf weights v)) ∧
    (∀ v : Nat, v ∉ weights.map (fun e => e.1) → calculateProbabilityOf weights v = 0) ∧
    |((getMultiplierDistributionOf weights).map (fun e => e.2)).sum - 100| ≤
      (weights.length : ℚ) * (1 / 20) ∧
    (∀ v : Nat, calculateProbability v = calculateProbabilityOf multiplierWeights v) ∧
    |(getMultiplierDistribution.map (fun e => e.2)).sum - 100| ≤ 1 / 2 := by
  refine ⟨?_, ?_, distribution_sum_close weights hne hkeys hpos, fun _ => rfl, ?_⟩
  · intro v
    have h := calculateProbabilityOf_nearest weights v
    have e : 100 * (targetWeightOf weights v : ℚ) / (totalWeightOf weights : ℚ) =
        (targetWeightOf weights v : ℚ) / (totalWeightOf weights : ℚ) * 100 := by ring
    rw [e]
    exact h
  · intro v hv
    unfold calculateProbabilityOf
    simp only [targetWeightOf_not_mem weights v hv]
    simp [toFixed1_zero]
  · have h := distribution_sum_close multiplierWeights (by decide) (by decide) (by decide)
    have hl : ((multiplierWeights.length : Nat) : ℚ) * (1 / 20) = 1 / 2 := by
      have : multiplierWeights.length = 10 := rfl
      rw [this]
      norm_num
    rw [hl] at h
    exact h

/-- C11, at the built-in table: the ten probabilities sum to 100 within 0.5,
and a multiplier outside the table, 7, has probability 0. -/
theorem C11_calculateProbability_rounding_witness :
    |(getMultiplierDistribution.map (fun e => e.2)).sum - 100| ≤ 1 / 2 ∧
    calculateProbabilityOf multiplierWeights 7 = 0 :=
  ⟨(C11_calculateProbability_rounding multiplierWeights (by decide) (by decide)
      (by decide)).2.2.2.2,
    (C11_calculateProbability_rounding multiplierWeights (by decide) (by decide)
      (by decide)).2.1 7 (by decide)⟩

end MultiplierEngine

namespace Game

open SymbolManager WinningDetector MultiplierEngine

theorem callSpin_spinning (g : Game) (h : g.slot.isSpinning = true) :
    callSpin g = (g, SpinOutcome.ignored) := by
  unfold callSpin SlotMachine.spinStart
  simp [h]

theorem callSpin_insufficient (g : Game) (h : g.slot.isSpinning = false)
    (hlt : g.slot.wallet.balance < g.slot.wallet.bet) :
    callSpin g = (g, SpinOutcome.insufficientFunds) := by
  unfold callSpin SlotMachine.spinStart
  simp [h, hlt]

theorem callSpin_accepted (g : Game) (h : g.slot.isSpinning = false)
    (hle : g.slot.wallet.bet ≤ g.slot.wallet.balance) :
    callSpin g =
      ({ slot := { g.slot with
            isSpinning := true
            wallet := { g.slot.wallet with
              balance := g.slot.wallet.balance - g.slot.wallet.bet } },
         pending := some SpinStage.animating },
        SpinOutcome.accepted) := by
  unfold callSpin SlotMachine.spinStart
  simp [h, not_lt.2 hle]

/-- C12. In a state that is not spinning: with `balance < bet` the call reports
insufficient funds and changes nothing; with `balance ≥ bet` it sets
`isSpinning`, takes exactly `bet` off the balance and waits at its first
`await`, with the board, both multipliers, the engine and the last win still
as they were. -/
theorem C12_spin_guard_and_debit (g : Game) (hidle : g.slot.isSpinning = false) :
    (g.slot.wallet.balance < g.slot.wallet.bet →
      (callSpin g).2 = SpinOutcome.insufficientFunds ∧ (callSpin g).1 = g) ∧
    (g.slot.wallet.bet ≤ g.slot.wallet.balance →
      (callSpin g).2 = SpinOutcome.accepted ∧
      (callSpin g).1.slot.isSpinning = true ∧
      (callSpin g).1.slot.wallet.balance = g.slot.wallet.balance - g.slot.wallet.bet ∧
      (callSpin g).1.slot.wallet.bet = g.slot.wallet.bet ∧
      (callSpin g).1.slot.board = g.slot.board ∧
      (callSpin g).1.slot.currentMultiplier = g.slot.currentMultiplier ∧
      (callSpin g).1.slot.multiplierEngine = g.slot.multiplierEngine ∧
      (callSpin g).1.slot.lastWinningPositions = g.slot.lastWinningPositions ∧
      (callSpin g).1.slot.lastWin = g.slot.lastWin ∧
      (callSpin g).1.pending = some SpinStage.animating) := by
  constructor
  · intro hlt
    rw [callSpin_insufficient g hidle hlt]
    exact ⟨rfl, rfl⟩
  · intro hle
    rw [callSpin_accepted g hidle hle]
    exact ⟨rfl, rfl, rfl, rfl, rfl, rfl, rfl, rfl, rfl, rfl⟩

/-- C12, at the game the constructor leaves (balance 1000, bet 10): the call is
accepted and the balance becomes 990. -/
theorem C12_spin_guard_and_debit_witness :
    (Game.new losingBoard none).slot.isSpinning = false ∧
    (callSpin (Game.new losingBoard none)).2 = SpinOutcome.accepted ∧
    (callSpin (Game.new losingBoard none)).1.slot.wallet.balance = 990 := by
  have h := (C12_spin_guard_and_debit (Game.new losingBoard none) rfl).2
    (by norm_num [Game.new, SlotMachine.new, SlotMachine.loadWalletFromStorage])
  refine ⟨rfl, h.1, ?_⟩
  rw [h.2.2.1]
  norm_num [Game.new, SlotMachine.new, SlotMachine.loadWalletFromStorage]

/-- C13. `changeBet(delta)` sets the bet to `bet + delta` and leaves everything
else, the balance included, as it was when `5 ≤ bet + delta ≤ min(500, balance)`;
otherwise it changes nothing.  It always returns, and after a call that changed
the bet the bet lies in `[5, min(500, balance)]`. -/
theorem C13_changeBet_frame (s : SlotMachine) (delta : ℚ) :
    ((5 ≤ s.wallet.bet + delta ∧ s.wallet.bet + delta ≤ min 500 s.wallet.balance) →
      SlotMachine.changeBet s delta =
        { s with wallet := { balance := s.wallet.balance, bet := s.wallet.bet + delta } }) ∧
    (¬ (5 ≤ s.wallet.bet + delta ∧ s.wallet.bet + delta ≤ min 500 s.wallet.balance) →
      SlotMachine.changeBet s delta = s) ∧
    (SlotMachine.changeBet s delta).wallet.balance = s.wallet.balance ∧
    ((SlotMachine.changeBet s delta).wallet.bet ≠ s.wallet.bet →
      5 ≤ (SlotMachine.changeBet s delta).wallet.bet ∧
      (SlotMachine.changeBet s delta).wallet.bet ≤
        min 500 (SlotMachine.changeBet s delta).wallet.balance) ∧
    (∀ g : Game, (changeBet g delta).pending = g.pending ∧
      (changeBet g delta).slot = SlotMachine.changeBet g.slot delta) := by
  by_cases h : s.wallet.bet + delta ≥ 5 ∧ s.wallet.bet + delta ≤ s.wallet.balance ∧
      s.wallet.bet + delta ≤ 500
  · have e : SlotMachine.changeBet s delta =
        { s with wallet := { balance := s.wallet.balance, bet := s.wallet.bet + delta } } := by
      unfold SlotMachine.changeBet
      simp only [h, and_self, if_true]
    refine ⟨fun _ => e, ?_, ?_, ?_, fun g => ⟨rfl, rfl⟩⟩
    · intro hn
      exact absurd ⟨h.1, le_min h.2.2 h.2.1⟩ hn
    · rw [e]
    · intro _
      rw [e]
      exact ⟨h.1, le_min h.2.2 h.2.1⟩
  · have e : SlotMachine.changeBet s delta = s := by
      unfold SlotMachine.changeBet
      simp only [h, if_false]
    refine ⟨?_, fun _ => e, ?_, ?_, fun g => ⟨rfl, rfl⟩⟩
    · intro hc
      exact absurd ⟨hc.1, (le_min_iff.1 hc.2).2, (le_min_iff.1 hc.2).1⟩ h
    · rw [e]
    · intro hne
      rw [e] at hne
      exact absurd rfl hne

theorem run_cons (g : Game) (e : Event) (es : List Event) :
    run g (e :: es) = run (step g e) es := rfl

theorem run_append (g : Game) (es fs : List Event) :
    run g (es ++ fs) = run (run g es) fs := by
  unfold run
  rw [List.foldl_append]

/-- C16. A `spin()` call made while `isSpinning` is set returns at once and
changes nothing: not the balance, the bet, the board, `isSpinning`, either
multiplier or the call in flight.  So when a second call follows an accepted
one before it has resolved, the bet is debited once and whatever comes next
finds the game as after the first call alone. -/
theorem C16_spin_in_flight_is_noop (g : Game) (h : g.slot.isSpinning = true) :
    (callSpin g).1 = g ∧ (callSpin g).2 = SpinOutcome.ignored ∧
    (∀ es : List Event, run g (Event.spin :: es) = run g es) ∧
    (∀ g0 : Game, (callSpin g0).2 = SpinOutcome.accepted →
      (callSpin (callSpin g0).1).1 = (callSpin g0).1 ∧
      (callSpin (callSpin g0).1).2 = SpinOutcome.ignored ∧
      (callSpin (callSpin g0).1).1.slot.wallet.balance =
        g0.slot.wallet.balance - g0.slot.wallet.bet ∧
      ∀ es : List Event,
        run g0 (Event.spin :: Event.spin :: es) = run g0 (Event.spin :: es)) := by
  have hacc : ∀ g0 : Game, (callSpin g0).2 = SpinOutcome.accepted →
      g0.slot.isSpinning = false ∧ g0.slot.wallet.bet ≤ g0.slot.wallet.balance := by
    intro g0 h0
    by_cases hs : g0.slot.isSpinning = true
    · rw [callSpin_spinning g0 hs] at h0
      exact absurd h0 (by simp)
    · have hs2 : g0.slot.isSpinning = false := by simpa using hs
      by_cases hlt : g0.slot.wallet.balance < g0.slot.wallet.bet
      · rw [callSpin_insufficient g0 hs2 hlt] at h0
        exact absurd h0 (by simp)
      · exact ⟨hs2, not_lt.1 hlt⟩
  refine ⟨by rw [callSpin_spinning g h], by rw [callSpin_spinning g h], ?_, ?_⟩
  · intro es
    rw [run_cons]
    simp only [step, callSpin_spinning g h]
  · intro g0 h0
    obtain ⟨hs, hle⟩ := hacc g0 h0
    have h1 : (callSpin g0).1.slot.isSpinning = true := by
      rw [callSpin_accepted g0 hs hle]
    have h2 := callSpin_spinning (callSpin g0).1 h1
    refine ⟨by rw [h2], by rw [h2], ?_, ?_⟩
    · rw [h2, callSpin_accepted g0 hs hle]
    · intro es
      rw [run_cons, run_cons, run_cons]
      simp only [step, h2]

/-- C16, at the game right after an accepted call from the initial wallet: a
second call leaves the balance at 990. -/
theorem C16_spin_in_flight_is_noop_witness :
    (callSpin (Game.new losingBoard none)).1.slot.isSpinning = true ∧
    (callSpin (callSpin (Game.new losingBoard none)).1).1.slot.wallet.balance = 990 := by
  have hs : (callSpin (Game.new losingBoard none)).1.slot.isSpinning = true := by
    rw [callSpin_accepted _ rfl
      (by norm_num [Game.new, SlotMachine.new, SlotMachine.loadWalletFromStorage])]
  refine ⟨hs, ?_⟩
  rw [(C16_spin_in_flight_is_noop (callSpin (Game.new losingBoard none)).1 hs).1,
    callSpin_accepted _ rfl
      (by norm_num [Game.new, SlotMachine.new, SlotMachine.loadWalletFromStorage])]
  norm_num [Game.new, SlotMachine.new, SlotMachine.loadWalletFromStorage]

end Game

namespace WinningDetector

open SymbolManager

theorem getSymbolMultiplier_pos (v : JSVal) : 1 ≤ getSymbolMultiplier v := by
  unfold getSymbolMultiplier
  split
  · rename_i info _
    by_cases h : info.multiplier = 0
    · simp [h]
    · rw [if_neg h]
      omega
  · exact le_refl 1

theorem checkWinningLines_multiplier (board : Board) (w : LineWin)
    (hw : w ∈ checkWinningLines board) : (1 : ℚ) ≤ w.multiplier := by
  rw [checkWinningLines_eq] at hw
  obtain ⟨e, -, rfl⟩ := List.mem_map.1 hw
  simp only [lineInfo]
  exact_mod_cast getSymbolMultiplier_pos _

theorem checkFullBoardWin_multiplier (board : Board) (f : FullBoardWin)
    (hf : checkFullBoardWin board = some f) : (10 : ℚ) ≤ f.multiplier := by
  unfold checkFullBoardWin at hf
  simp only at hf
  split at hf
  · cases hf
    have h := getSymbolMultiplier_pos (boardAt board 0)
    have h2 : (1 : ℚ) ≤ (getSymbolMultiplier (boardAt board 0) : ℚ) := by exact_mod_cast h
    show (10 : ℚ) ≤ (getSymbolMultiplier (boardAt board 0) : ℚ) * 10
    linarith
  · split at hf
    · cases hf
      show (10 : ℚ) ≤ (getSymbolMultiplier (JSVal.str "tiger") : ℚ) * 5
      rw [getSymbolMultiplier_tiger]
      norm_num
    · exact absurd hf (by simp)

theorem lineContribution_ge (bet : ℚ) (hb : 0 ≤ bet) (w : LineWin) (hw : 1 ≤ w.multiplier) :
    bet ≤ lineContribution bet w := by
  unfold lineContribution
  have h1 : (0 : ℚ) ≤ (w.wildCount : ℚ) := Nat.cast_nonneg _
  have h2 : bet * 1 ≤ bet * w.multiplier := mul_le_mul_of_nonneg_left hw hb
  have h3 : 0 ≤ bet * w.multiplier := by linarith
  have h4 : bet * w.multiplier * 1 ≤ bet * w.multiplier * (1 + 1 / 2 * (w.wildCount : ℚ)) :=
    mul_le_mul_of_nonneg_left (by linarith) h3
  linarith

theorem sum_lineContribution_nonneg (bet : ℚ) (hb : 0 ≤ bet) (wins : List LineWin)
    (hw : ∀ w ∈ wins, 1 ≤ w.multiplier) :
    0 ≤ (wins.map (lineContribution bet)).sum := by
  induction wins with
  | nil => simp
  | cons w ws ih =>
    simp only [List.map_cons, List.sum_cons]
    have h1 := lineContribution_ge bet hb w (hw w (List.mem_cons_self _ _))
    have h2 := ih (fun x hx => hw x (List.mem_cons_of_mem _ hx))
    linarith

theorem fullBoardContribution_nonneg (bet : ℚ) (hb : 0 ≤ bet) (board : Board) :
    0 ≤ fullBoardContribution bet (checkFullBoardWin board) := by
  cases h : checkFullBoardWin board with
  | none => simp [fullBoardContribution]
  | some f =>
    simp only [fullBoardContribution]
    have := checkFullBoardWin_multiplier board f h
    exact mul_nonneg hb (by linarith)

theorem analyzeWin_winAmount_nonneg (board : Board) (bet : ℚ) (hb : 0 ≤ bet) :
    0 ≤ (analyzeWin board bet).winAmount := by
  show 0 ≤ calculateWinAmount bet (checkWinningLines board) (checkFullBoardWin board)
  rw [calculateWinAmount_eq]
  have h1 := fullBoardContribution_nonneg bet hb board
  have h2 := sum_lineContribution_nonneg bet hb (checkWinningLines board)
    (checkWinningLines_multiplier board)
  linarith

theorem analyzeWin_winAmount_ge (board : Board) (bet : ℚ) (hb : 0 ≤ bet)
    (hwin : (analyzeWin board bet).hasWin = true) :
    bet ≤ (analyzeWin board bet).winAmount := by
  show bet ≤ calculateWinAmount bet (checkWinningLines board) (checkFullBoardWin board)
  rw [calculateWinAmount_eq]
  have h1 := fullBoardContribution_nonneg bet hb board
  have h2 := sum_lineContribution_nonneg bet hb (checkWinningLines board)
    (checkWinningLines_multiplier board)
  have hw : (checkWinningLines board).length > 0 ∨ checkFullBoardWin board ≠ none := by
    simpa [analyzeWin] using hwin
  rcases hw with hlen | hfull
  · cases hc : checkWinningLines board with
    | nil => rw [hc] at hlen; simp at hlen
    | cons w ws =>
      have hmem : ∀ x ∈ w :: ws, 1 ≤ x.multiplier := by
        intro x hx
        exact checkWinningLines_multiplier board x (hc ▸ hx)
      have h3 := lineContribution_ge bet hb w (hmem w (List.mem_cons_self _ _))
      have h4 := sum_lineContribution_nonneg bet hb ws
        (fun x hx => hmem x (List.mem_cons_of_mem _ hx))
      simp only [List.map_cons, List.sum_cons]
      linarith
  · cases hc : checkFullBoardWin board with
    | none => exact absurd hc hfull
    | some f =>
      have h3 := checkFullBoardWin_multiplier board f hc
      simp only [fullBoardContribution]
      have h4 : bet * 10 ≤ bet * f.multiplier := mul_le_mul_of_nonneg_left h3 hb
      rw [hc] at h1
      linarith

theorem analyzeWin_no_win (board : Board) (bet : ℚ)
    (hwin : (analyzeWin board bet).hasWin = false) :
    (analyzeWin board bet).winAmount = 0 := by
  have hw : ¬ ((checkWinningLines board).length > 0 ∨ checkFullBoardWin board ≠ none) := by
    intro h
    have : (analyzeWin board bet).hasWin = true := by simpa [analyzeWin] using h
    rw [this] at hwin
    exact absurd hwin (by decide)
  rw [not_or] at hw
  have h1 : checkWinningLines board = [] := by
    cases hc : checkWinningLines board with
    | nil => rfl
    | cons w ws => rw [hc] at hw; simp at hw
  have h2 : checkFullBoardWin board = none := by
    by_contra h
    exact hw.2 h
  show calculateWinAmount bet (checkWinningLines board) (checkFullBoardWin board) = 0
  rw [calculateWinAmount_eq, h1, h2]
  simp [fullBoardContribution]

end WinningDetector

namespace MultiplierEngine

theorem mathRound_nonneg (x : ℚ) (hx : 0 ≤ x) : 0 ≤ mathRound x := by
  unfold mathRound
  exact Int.floor_nonneg.2 (by linarith)

theorem mathRound_ge_of_natCast (x : ℚ) (n : Nat) (hx : (n : ℚ) ≤ x) :
    (n : ℤ) ≤ mathRound x := by
  unfold mathRound
  rw [Int.le_floor]
  push_cast
  linarith

theorem mathRound_zero : mathRound 0 = 0 := by
  unfold mathRound
  norm_num

theorem bonusForMultiplier_ge_one (m : ℚ) : 1 ≤ bonusForMultiplier m := by
  unfold bonusForMultiplier
  split_ifs <;> norm_num

theorem calculateFinalWin_nonneg (e : MultiplierEngine) (w : ℚ)
    (he : 0 ≤ e.currentMultiplier) (hw : 0 ≤ w) : 0 ≤ calculateFinalWin e w := by
  unfold calculateFinalWin
  simp only [getMultiplierBonus_eq]
  apply mathRound_nonneg
  have h1 : 0 ≤ applyMultiplier e w := mathRound_nonneg _ (mul_nonneg hw he)
  have h2 : (0 : ℚ) ≤ (applyMultiplier e w : ℚ) := by exact_mod_cast h1
  have h3 := bonusForMultiplier_ge_one e.currentMultiplier
  exact mul_nonneg h2 (by linarith)

theorem calculateFinalWin_zero (e : MultiplierEngine) : calculateFinalWin e 0 = 0 := by
  unfold calculateFinalWin applyMultiplier
  simp [mathRound_zero]

end MultiplierEngine

namespace Game

open SymbolManager WinningDetector MultiplierEngine

theorem finish_safe (s : SlotMachine) (hb : 0 ≤ s.wallet.balance) (h5 : 5 ≤ s.wallet.bet) :
    WalletSafe (finish s) := by
  refine ⟨hb, h5, ?_, ?_⟩
  · show (0 : ℚ) ≤ 1
    norm_num
  · intro w a h
    exact absurd h (by simp [finish])

theorem resumeAnimating_safe (s : SlotMachine) (inp : ResumeInput)
    (hb : 0 ≤ s.wallet.balance) (h5 : 5 ≤ s.wallet.bet)
    (hm : 0 ≤ s.multiplierEngine.currentMultiplier) :
    WalletSafe (resumeAnimating s inp) := by
  unfold resumeAnimating revealMultiplierStart
  by_cases hrev : s.multiplierEngine.isRevealing = true <;>
    cases hf : inp.fault <;> simp only [hrev, if_true, if_false, reduceCtorEq]
  all_goals first
    | exact finish_safe _ hb h5
    | exact ⟨hb, h5, hm, fun w a h => absurd h (by simp)⟩

theorem resumeRevealing_safe (s : SlotMachine) (finalMultiplier : Nat) (inp : ResumeInput)
    (hb : 0 ≤ s.wallet.balance) (h5 : 5 ≤ s.wallet.bet) :
    WalletSafe (resumeRevealing s finalMultiplier inp) := by
  unfold resumeRevealing
  cases hf : inp.fault <;> simp only [if_true, if_false, reduceCtorEq]
  all_goals first
    | exact finish_safe _ hb h5
    | exact ⟨hb, h5, Nat.cast_nonneg _, fun w a h => absurd h (by simp)⟩

theorem resumeShuffling_safe (s : SlotMachine) (inp : ResumeInput)
    (hb : 0 ≤ s.wallet.balance) (h5 : 5 ≤ s.wallet.bet)
    (hm : 0 ≤ s.multiplierEngine.currentMultiplier) :
    WalletSafe (resumeShuffling s inp) := by
  unfold resumeShuffling
  by_cases hwin : (analyzeWin s.board s.wallet.bet).hasWin = true <;>
    cases hf : inp.fault <;> simp only [hwin, if_true, if_false, reduceCtorEq]
  all_goals first
    | exact finish_safe _ hb h5
    | skip
  · refine ⟨hb, h5, hm, ?_⟩
    intro w a h
    simp only [Option.some.injEq, SpinStage.celebrating.injEq] at h
    rw [← h.1]
    exact calculateFinalWin_nonneg _ _ hm
      (analyzeWin_winAmount_nonneg _ _ (by linarith))

theorem resumeCelebrating_safe (s : SlotMachine) (winAmount : ℤ) (winAnalysis : WinAnalysis)
    (inp : ResumeInput) (hb : 0 ≤ s.wallet.balance) (h5 : 5 ≤ s.wallet.bet)
    (hm : 0 ≤ s.multiplierEngine.currentMultiplier) (hw : 0 ≤ winAmount) :
    WalletSafe (resumeCelebrating s winAmount winAnalysis inp) := by
  have hw2 : (0 : ℚ) ≤ (winAmount : ℚ) := by exact_mod_cast hw
  have hb2 : 0 ≤ s.wallet.balance + (winAmount : ℚ) := by linarith
  unfold resumeCelebrating
  cases hf : inp.fault <;> simp only [if_true, if_false, reduceCtorEq]
  all_goals first
    | exact finish_safe _ hb h5
    | exact finish_safe _ hb2 h5
    | exact ⟨hb2, h5, hm, fun w a h => absurd h (by simp)⟩

theorem resume_safe (g : Game) (inp : ResumeInput) (h : WalletSafe g) :
    WalletSafe (resume g inp) := by
  obtain ⟨hb, h5, hm, hw⟩ := h
  unfold resume
  cases hp : g.pending with
  | none => exact ⟨hb, h5, hm, hw⟩
  | some st =>
    cases st with
    | animating => exact resumeAnimating_safe _ _ hb h5 hm
    | revealing fm => exact resumeRevealing_safe _ _ _ hb h5
    | shuffling => exact resumeShuffling_safe _ _ hb h5 hm
    | celebrating w a => exact resumeCelebrating_safe _ _ _ _ hb h5 hm (hw w a hp)
    | displaying a => exact finish_safe _ hb h5

theorem changeBet_safe (g : Game) (amount : ℚ) (h : WalletSafe g) :
    WalletSafe (changeBet g amount) := by
  obtain ⟨hb, h5, hm, hw⟩ := h
  unfold changeBet SlotMachine.changeBet
  by_cases hc : g.slot.wallet.bet + amount ≥ 5 ∧
      g.slot.wallet.bet + amount ≤ g.slot.wallet.balance ∧ g.slot.wallet.bet + amount ≤ 500
  · simp only [hc, and_self, if_true]
    exact ⟨hb, hc.1, hm, hw⟩
  · simp only [hc, if_false]
    exact ⟨hb, h5, hm, hw⟩

theorem callSpin_cases (g : Game) :
    (callSpin g).1 = g ∨
    (g.slot.isSpinning = false ∧ g.slot.wallet.bet ≤ g.slot.wallet.balance ∧
      (callSpin g).2 = SpinOutcome.accepted ∧
      (callSpin g).1 =
        { slot := { g.slot with
            isSpinning := true
            wallet := { g.slot.wallet with
              balance := g.slot.wallet.balance - g.slot.wallet.bet } },
          pending := some SpinStage.animating }) := by
  by_cases hs : g.slot.isSpinning = true
  · left
    rw [callSpin_spinning g hs]
  · have hs2 : g.slot.isSpinning = false := by simpa using hs
    by_cases hlt : g.slot.wallet.balance < g.slot.wallet.bet
    · left
      rw [callSpin_insufficient g hs2 hlt]
    · right
      rw [callSpin_accepted g hs2 (not_lt.1 hlt)]
      exact ⟨hs2, not_lt.1 hlt, rfl, rfl⟩

theorem callSpin_safe (g : Game) (h : WalletSafe g) : WalletSafe (callSpin g).1 := by
  rcases callSpin_cases g with he | ⟨-, hle, -, he⟩
  · rw [he]
    exact h
  · rw [he]
    obtain ⟨hb, h5, hm, hw⟩ := h
    exact ⟨by show 0 ≤ g.slot.wallet.balance - g.slot.wallet.bet; linarith, h5, hm,
      fun w a hp => absurd hp (by simp)⟩

theorem step_safe (g : Game) (e : Event) (h : WalletSafe g) : WalletSafe (step g e) := by
  cases e with
  | spin => exact callSpin_safe g h
  | changeBet amount => exact changeBet_safe g amount h
  | resume inp => exact resume_safe g inp h

theorem run_safe (g : Game) (es : List Event) (h : WalletSafe g) : WalletSafe (run g es) := by
  induction es generalizing g with
  | nil => exact h
  | cons e es ih => exact ih (step g e) (step_safe g e h)

theorem resume_balance (g : Game) (inp : ResumeInput) :
    (resume g inp).slot.wallet.balance = g.slot.wallet.balance ∨
    ∃ w a, g.pending = some (SpinStage.celebrating w a) ∧ inp.fault ≠ Fault.onResume ∧
      (resume g inp).slot.wallet.balance = g.slot.wallet.balance + (w : ℚ) := by
  unfold resume
  cases hp : g.pending with
  | none => exact Or.inl rfl
  | some st =>
    cases st with
    | animating =>
      left
      simp only [resumeAnimating, revealMultiplierStart]
      by_cases hrev : g.slot.multiplierEngine.isRevealing = true <;>
        cases hf : inp.fault <;> simp only [hrev, if_true, if_false, reduceCtorEq] <;> rfl
    | revealing fm =>
      left
      simp only [resumeRevealing]
      cases hf : inp.fault <;> simp only [if_true, if_false, reduceCtorEq] <;> rfl
    | shuffling =>
      left
      simp only [resumeShuffling]
      by_cases hwin : (analyzeWin g.slot.board g.slot.wallet.bet).hasWin = true <;>
        cases hf : inp.fault <;> simp only [hwin, if_true, if_false, reduceCtorEq] <;> rfl
    | celebrating w a =>
      simp only [resumeCelebrating]
      cases hf : inp.fault
      · right
        exact ⟨w, a, rfl, by simp, rfl⟩
      · left
        rfl
      · right
        exact ⟨w, a, rfl, by simp, rfl⟩
    | displaying a =>
      left
      rfl

theorem resume_bet (g : Game) (inp : ResumeInput) :
    (resume g inp).slot.wallet.bet = g.slot.wallet.bet := by
  unfold resume
  cases hp : g.pending with
  | none => rfl
  | some st =>
    cases st with
    | animating =>
      simp only [resumeAnimating, revealMultiplierStart]
      by_cases hrev : g.slot.multiplierEngine.isRevealing = true <;>
        cases hf : inp.fault <;> simp only [hrev, if_true, if_false, reduceCtorEq] <;> rfl
    | revealing fm =>
      simp only [resumeRevealing]
      cases hf : inp.fault <;> simp only [if_true, if_false, reduceCtorEq] <;> rfl
    | shuffling =>
      simp only [resumeShuffling]
      by_cases hwin : (analyzeWin g.slot.board g.slot.wallet.bet).hasWin = true <;>
        cases hf : inp.fault <;> simp only [hwin, if_true, if_false, reduceCtorEq] <;> rfl
    | celebrating w a =>
      simp only [resumeCelebrating]
      cases hf : inp.fault <;> simp only [if_true, if_false, reduceCtorEq] <;> rfl
    | displaying a => rfl

theorem changeBet_balance (g : Game) (amount : ℚ) :
    (changeBet g amount).slot.wallet.balance = g.slot.wallet.balance := by
  unfold changeBet SlotMachine.changeBet
  simp only []
  split_ifs <;> rfl

theorem step_debit (g : Game) (e : Event) (h : WalletSafe g)
    (hlt : (step g e).slot.wallet.balance < g.slot.wallet.balance) :
    e = Event.spin ∧ g.slot.isSpinning = false ∧ g.slot.wallet.bet ≤ g.slot.wallet.balance ∧
    (step g e).slot.wallet.balance = g.slot.wallet.balance - g.slot.wallet.bet := by
  cases e with
  | spin =>
    simp only [step] at hlt ⊢
    rcases callSpin_cases g with he | ⟨hs, hle, -, he⟩
    · rw [he] at hlt
      exact absurd hlt (lt_irrefl _)
    · rw [he]
      exact ⟨trivial, hs, hle, rfl⟩
  | changeBet amount =>
    simp only [step, changeBet_balance] at hlt
    exact absurd hlt (lt_irrefl _)
  | resume inp =>
    simp only [step] at hlt
    rcases resume_balance g inp with he | ⟨w, a, hp, -, he⟩
    · rw [he] at hlt
      exact absurd hlt (lt_irrefl _)
    · have hw : (0 : ℚ) ≤ (w : ℚ) := by exact_mod_cast h.2.2.2 w a hp
      rw [he] at hlt
      linarith

theorem withWallet_safe (initialBoard : Board) (wallet : Wallet) (hb : 0 ≤ wallet.balance)
    (h5 : 5 ≤ wallet.bet) : WalletSafe (withWallet initialBoard wallet) := by
  refine ⟨hb, h5, ?_, fun w a h => absurd h (by simp [withWallet])⟩
  show (0 : ℚ) ≤ 1
  norm_num

/-- C14. From the constructed game holding any wallet with `balance ≥ 0` and
`bet ≥ 5` (the initial wallet 1000 / 10 is one), after every finite sequence of
`spin()` calls, `changeBet` calls and resumptions of the call in flight, with
any draws and any faults, the balance is not negative; and the balance only
ever goes down by a `spin()` call made when `balance ≥ bet`, by exactly the
bet. -/
theorem C14_balance_never_negative (initialBoard : Board) (wallet : Wallet)
    (hb : 0 ≤ wallet.balance) (h5 : 5 ≤ wallet.bet) (es : List Event) :
    0 ≤ (run (withWallet initialBoard wallet) es).slot.wallet.balance ∧
    (∀ e : Event,
      (step (run (withWallet initialBoard wallet) es) e).slot.wallet.balance <
        (run (withWallet initialBoard wallet) es).slot.wallet.balance →
      e = Event.spin ∧
      (run (withWallet initialBoard wallet) es).slot.wallet.bet ≤
        (run (withWallet initialBoard wallet) es).slot.wallet.balance ∧
      (step (run (withWallet initialBoard wallet) es) e).slot.wallet.balance =
        (run (withWallet initialBoard wallet) es).slot.wallet.balance -
          (run (withWallet initialBoard wallet) es).slot.wallet.bet) ∧
    Game.new initialBoard none = withWallet initialBoard { balance := 1000, bet := 10 } := by
  have hsafe := run_safe _ es (withWallet_safe initialBoard wallet hb h5)
  refine ⟨hsafe.1, ?_, rfl⟩
  intro e hlt
  obtain ⟨h1, -, h3, h4⟩ := step_debit _ e hsafe hlt
  exact ⟨h1, h3, h4⟩

/-- C14, at the initial wallet, after the bet is raised to 500 and two rounds
are lost: the balance is not negative. -/
theorem C14_balance_never_negative_witness :
    (0 : ℚ) ≤ 1000 ∧ (5 : ℚ) ≤ 10 ∧
    0 ≤ (run (withWallet losingBoard { balance := 1000, bet := 10 })
      ([Event.changeBet 490, Event.spin] ++ (cleanRound losingDraws).map Event.resume ++
        [Event.spin] ++ (cleanRound losingDraws).map Event.resume)).slot.wallet.balance :=
  ⟨by norm_num, by norm_num,
    (C14_balance_never_negative losingBoard { balance := 1000, bet := 10 }
      (by norm_num) (by norm_num) _).1⟩

end Game

namespace SymbolManager

theorem getRandomSymbol_eq (includeWild : Bool) (u : Draw) (i : Nat)
    (hi : ⌊u.1 * ((availableSymbols includeWild).length : ℚ)⌋ = (i : ℤ)) :
    (availableSymbols includeWild)[i]? = some (getRandomSymbol includeWild u) := by
  have h : ⌊u.1 * ((availableSymbols includeWild).length : ℚ)⌋.toNat = i := by
    rw [hi]
    simp
  unfold getRandomSymbol
  simp only [List.get_eq_getElem, h]
  exact List.getElem?_eq_getElem _

theorem getRandomSymbol_zero : getRandomSymbol false drawZero = "bomb" := by
  have h := getRandomSymbol_eq false drawZero 0 (by simp [drawZero])
  simpa [availableSymbols, baseSymbols] using h.symm

theorem getRandomSymbol_sixth : getRandomSymbol false drawSixth = "card" := by
  have h := getRandomSymbol_eq false drawSixth 1 (by
    simp only [drawSixth, availableSymbols, baseSymbols]
    norm_num)
  simpa [availableSymbols, baseSymbols] using h.symm

theorem getRandomSymbol_third : getRandomSymbol false drawThird = "barrel" := by
  have h := getRandomSymbol_eq false drawThird 2 (by
    simp only [drawThird, availableSymbols, baseSymbols]
    norm_num)
  simpa [availableSymbols, baseSymbols] using h.symm

theorem shuffleBoard_losingDraws (board : Board) :
    shuffleBoard board false losingDraws 1 = (losingBoard, 19) := by
  simp [shuffleBoard, shuffleLoop, losingDraws, getRandomSymbol_zero, getRandomSymbol_sixth,
    getRandomSymbol_third, losingBoard]

theorem shuffleBoard_bombDraws (board : Board) :
    shuffleBoard board false bombDraws 1 = (List.replicate 9 "bomb", 19) := by
  simp [shuffleBoard, shuffleLoop, bombDraws, getRandomSymbol_zero]

end SymbolManager

namespace Game

open SymbolManager WinningDetector MultiplierEngine

/-- A round in flight at its first `await`, with no reveal running, resumed
five times without a fault: the board and the multiplier are drawn, the board
is analysed at the bet the wallet holds, the final win is credited when
`hasWin`, and the `finally` block ends the round. -/
theorem run_cleanRound (g : Game) (hp : g.pending = some SpinStage.animating)
    (hrev : g.slot.multiplierEngine.isRevealing = false) (rand : Nat → Draw) :
    run g ((cleanRound rand).map Event.resume) =
      { slot :=
          { board := settledBoard g rand
            wallet :=
              { balance := g.slot.wallet.balance +
                  (if (analyzeWin (settledBoard g rand) g.slot.wallet.bet).hasWin = true then
                    (roundFinalWin g rand g.slot.wallet.bet : ℚ) else 0)
                bet := g.slot.wallet.bet }
            isSpinning := false
            currentMultiplier := (drawnMultiplier g rand : ℚ)
            lastWinningPositions := getWinningPositions (settledBoard g rand)
            lastWin := some
              { analysis := analyzeWin (settledBoard g rand) g.slot.wallet.bet
                multiplier := (drawnMultiplier g rand : ℚ)
                finalWinAmount := roundFinalWin g rand g.slot.wallet.bet }
            multiplierEngine := { currentMultiplier := 1, isRevealing := false } }
        pending := none } := by
  obtain ⟨s, p⟩ := g
  simp only at hp hrev
  subst hp
  by_cases hwin : (analyzeWin (settledBoard ⟨s, some SpinStage.animating⟩ rand)
      s.wallet.bet).hasWin = true
  · simp only [settledBoard] at hwin
    simp [cleanRound, cleanInput, run, step, resume, resumeAnimating, resumeRevealing,
      resumeShuffling, resumeCelebrating, resumeDisplaying, revealMultiplierStart,
      revealMultiplierEnd, hrev, hwin, finish, SlotMachine.spinFinally, resetMultiplier,
      settledBoard, drawnMultiplier, roundFinalWin]
  · simp only [settledBoard] at hwin
    simp [cleanRound, cleanInput, run, step, resume, resumeAnimating, resumeRevealing,
      resumeShuffling, resumeCelebrating, resumeDisplaying, revealMultiplierStart,
      revealMultiplierEnd, hrev, hwin, finish, SlotMachine.spinFinally, resetMultiplier,
      settledBoard, drawnMultiplier, roundFinalWin]

end Game

namespace WinningDetector

open SymbolManager

theorem checkWinningLines_losingBoard : checkWinningLines losingBoard = [] := by
  rw [checkWinningLines_eq]
  simp [winningLines, generateWinningLines, List.enum, List.enumFrom, lineMatches, losingBoard,
    boardAt, List.filter_cons]
  simp [isMatchingLine_str_iff, LineRule]

theorem checkFullBoardWin_losingBoard : checkFullBoardWin losingBoard = none := by
  unfold checkFullBoardWin
  simp [losingBoard, boardAt, isWild_eq_decide]

theorem analyzeWin_losingBoard (bet : ℚ) : (analyzeWin losingBoard bet).hasWin = false := by
  simp [analyzeWin, checkWinningLines_losingBoard, checkFullBoardWin_losingBoard]

end WinningDetector

namespace Game

open SymbolManager WinningDetector MultiplierEngine

theorem settledBoard_losingDraws (g : Game) : settledBoard g losingDraws = losingBoard := by
  have h : decide (((losingDraws 0).1 : ℚ) < 15 / 100) = false := by
    simp only [losingDraws, List.getD_cons_zero, drawHalf]
    norm_num
  unfold settledBoard
  rw [h, shuffleBoard_losingDraws]

theorem settledBoard_bombDraws (g : Game) :
    settledBoard g bombDraws = List.replicate 9 "bomb" := by
  have h : decide (((bombDraws 0).1 : ℚ) < 15 / 100) = false := by
    simp only [bombDraws, if_true, drawHalf]
    norm_num
  unfold settledBoard
  rw [h, shuffleBoard_bombDraws]

theorem drawnMultiplier_bombDraws (g : Game) : drawnMultiplier g bombDraws = 5 := by
  have h : decide (((bombDraws 0).1 : ℚ) < 15 / 100) = false := by
    simp only [bombDraws, if_true, drawHalf]
    norm_num
  unfold drawnMultiplier
  rw [h, shuffleBoard_bombDraws]
  have h19 : ((bombDraws 19).1 : ℚ) = 0 := by
    simp [bombDraws, drawZero]
  rw [h19, getRandomMultiplier_unfold]
  norm_num

/-- One uninterrupted round without a fault, from an idle game that can afford
its bet. -/
theorem playRound_clean (g : Game) (hs : g.slot.isSpinning = false)
    (hrev : g.slot.multiplierEngine.isRevealing = false)
    (hle : g.slot.wallet.bet ≤ g.slot.wallet.balance) (rand : Nat → Draw) :
    playRound g (cleanRound rand) =
      { slot :=
          { board := settledBoard g rand
            wallet :=
              { balance := g.slot.wallet.balance - g.slot.wallet.bet +
                  (if (analyzeWin (settledBoard g rand) g.slot.wallet.bet).hasWin = true then
                    (roundFinalWin g rand g.slot.wallet.bet : ℚ) else 0)
                bet := g.slot.wallet.bet }
            isSpinning := false
            currentMultiplier := (drawnMultiplier g rand : ℚ)
            lastWinningPositions := getWinningPositions (settledBoard g rand)
            lastWin := some
              { analysis := analyzeWin (settledBoard g rand) g.slot.wallet.bet
                multiplier := (drawnMultiplier g rand : ℚ)
                finalWinAmount := roundFinalWin g rand g.slot.wallet.bet }
            multiplierEngine := { currentMultiplier := 1, isRevealing := false } }
        pending := none } := by
  have e : (callSpin g).1 =
      { slot := { g.slot with
            isSpinning := true
            wallet := { g.slot.wallet with
              balance := g.slot.wallet.balance - g.slot.wallet.bet } },
        pending := some SpinStage.animating } := by
    rw [callSpin_accepted g hs hle]
  have h := run_cleanRound (callSpin g).1 (by rw [e]) (by rw [e]; exact hrev) rand
  unfold playRound
  rw [h, e]
  rfl

/-- A round on `losingDraws` from an idle game that can afford its bet: the
bet is gone, nothing is credited, and the game is idle again. -/
theorem playRound_losingDraws (g : Game) (hs : g.slot.isSpinning = false)
    (hrev : g.slot.multiplierEngine.isRevealing = false)
    (hle : g.slot.wallet.bet ≤ g.slot.wallet.balance) :
    (playRound g (cleanRound losingDraws)).slot.wallet =
      { balance := g.slot.wallet.balance - g.slot.wallet.bet, bet := g.slot.wallet.bet } ∧
    (playRound g (cleanRound losingDraws)).pending = none ∧
    (playRound g (cleanRound losingDraws)).slot.isSpinning = false ∧
    (playRound g (cleanRound losingDraws)).slot.multiplierEngine.isRevealing = false := by
  rw [playRound_clean g hs hrev hle]
  simp only [settledBoard_losingDraws, analyzeWin_losingBoard]
  simp

theorem run_spin_round (g : Game) (inps : List ResumeInput) :
    run g (Event.spin :: inps.map Event.resume) = playRound g inps := rfl

theorem new_wallet (initialBoard : Board) :
    (Game.new initialBoard none).slot.wallet = { balance := 1000, bet := 10 } := rfl

/-- The initial game after `changeBet(490)` and two rounds on `losingDraws`:
idle, with balance 0 and bet 500. -/
theorem two_losing_rounds :
    (run (Game.new losingBoard none)
      ([Event.changeBet 490, Event.spin] ++ (cleanRound losingDraws).map Event.resume ++
        (Event.spin :: (cleanRound losingDraws).map Event.resume))).slot.wallet =
      { balance := 0, bet := 500 } ∧
    (run (Game.new losingBoard none)
      ([Event.changeBet 490, Event.spin] ++ (cleanRound losingDraws).map Event.resume ++
        (Event.spin :: (cleanRound losingDraws).map Event.resume))).pending = none ∧
    (run (Game.new losingBoard none)
      ([Event.changeBet 490, Event.spin] ++ (cleanRound losingDraws).map Event.resume ++
        (Event.spin :: (cleanRound losingDraws).map Event.resume))).slot.isSpinning = false := by
  have h1 : (changeBet (Game.new losingBoard none) 490).slot.wallet =
      { balance := 1000, bet := 500 } := by
    simp only [changeBet, SlotMachine.changeBet, new_wallet]
    norm_num
  have h1s : (changeBet (Game.new losingBoard none) 490).slot.isSpinning = false := by
    simp only [changeBet, SlotMachine.changeBet]
    split_ifs <;> rfl
  have h1r : (changeBet (Game.new losingBoard none) 490).slot.multiplierEngine.isRevealing =
      false := by
    simp only [changeBet, SlotMachine.changeBet]
    split_ifs <;> rfl
  obtain ⟨h2, -, h2s, h2r⟩ := playRound_losingDraws (changeBet (Game.new losingBoard none) 490)
    h1s h1r (by rw [h1]; norm_num)
  rw [h1] at h2
  obtain ⟨h3, h3p, h3s, -⟩ := playRound_losingDraws
    (playRound (changeBet (Game.new losingBoard none) 490) (cleanRound losingDraws))
    h2s h2r (by rw [h2]; norm_num)
  rw [h2] at h3
  have e : run (Game.new losingBoard none)
      ([Event.changeBet 490, Event.spin] ++ (cleanRound losingDraws).map Event.resume ++
        (Event.spin :: (cleanRound losingDraws).map Event.resume)) =
      playRound (playRound (changeBet (Game.new losingBoard none) 490) (cleanRound losingDraws))
        (cleanRound losingDraws) := by
    rw [run_append, run_spin_round]
    rfl
  rw [e]
  refine ⟨?_, h3p, h3s⟩
  rw [h3]
  norm_num

/-- C15 as stated fails: from the initial wallet, raising the bet to 500 and
losing two rounds leaves an idle game with balance 0 and bet 500, outside
`[5, min(500, balance)]`. -/
theorem C15_bet_can_exceed_balance :
    (run (Game.new losingBoard none)
      ([Event.changeBet 490, Event.spin] ++ (cleanRound losingDraws).map Event.resume ++
        (Event.spin :: (cleanRound losingDraws).map Event.resume))).pending = none ∧
    ¬ ((run (Game.new losingBoard none)
      ([Event.changeBet 490, Event.spin] ++ (cleanRound losingDraws).map Event.resume ++
        (Event.spin :: (cleanRound losingDraws).map Event.resume))).slot.wallet.bet ≤
      min 500 (run (Game.new losingBoard none)
      ([Event.changeBet 490, Event.spin] ++ (cleanRound losingDraws).map Event.resume ++
        (Event.spin :: (cleanRound losingDraws).map Event.resume))).slot.wallet.balance) := by
  obtain ⟨hw, hp, -⟩ := two_losing_rounds
  refine ⟨hp, ?_⟩
  rw [hw]
  norm_num

theorem step_bet_bounds (g : Game) (e : Event)
    (h : 5 ≤ g.slot.wallet.bet ∧ g.slot.wallet.bet ≤ 500) :
    5 ≤ (step g e).slot.wallet.bet ∧ (step g e).slot.wallet.bet ≤ 500 := by
  cases e with
  | spin =>
    simp only [step]
    rcases callSpin_cases g with he | ⟨-, -, -, he⟩ <;> rw [he] <;> exact h
  | changeBet amount =>
    simp only [step, changeBet, SlotMachine.changeBet]
    by_cases hc : g.slot.wallet.bet + amount ≥ 5 ∧
        g.slot.wallet.bet + amount ≤ g.slot.wallet.balance ∧ g.slot.wallet.bet + amount ≤ 500
    · rw [if_pos hc]
      exact ⟨hc.1, hc.2.2⟩
    · rw [if_neg hc]
      exact h
  | resume inp =>
    simp only [step, resume_bet]
    exact h

theorem run_bet_bounds (g : Game) (es : List Event)
    (h : 5 ≤ g.slot.wallet.bet ∧ g.slot.wallet.bet ≤ 500) :
    5 ≤ (run g es).slot.wallet.bet ∧ (run g es).slot.wallet.bet ≤ 500 := by
  induction es generalizing g with
  | nil => exact h
  | cons e es ih => exact ih (step g e) (step_bet_bounds g e h)

/-- C15, amended. In every state reached from the initial wallet (balance 1000,
bet 10) by `spin()` calls, `changeBet` calls and resumptions, the bet lies in
`[5, 500]`; and right after a `changeBet` call that changed the bet, the bet
also is at most the balance. -/
theorem C15_bet_within_5_and_500 (initialBoard : Board) (es : List Event) :
    5 ≤ (run (Game.new initialBoard none) es).slot.wallet.bet ∧
    (run (Game.new initialBoard none) es).slot.wallet.bet ≤ 500 ∧
    (∀ amount : ℚ,
      (step (run (Game.new initialBoard none) es) (Event.changeBet amount)).slot.wallet.bet ≠
        (run (Game.new initialBoard none) es).slot.wallet.bet →
      (step (run (Game.new initialBoard none) es) (Event.changeBet amount)).slot.wallet.bet ≤
        min 500
          (step (run (Game.new initialBoard none) es)
            (Event.changeBet amount)).slot.wallet.balance) := by
  have h := run_bet_bounds (Game.new initialBoard none) es
    (by rw [new_wallet]; norm_num)
  refine ⟨h.1, h.2, ?_⟩
  intro amount hne
  simp only [step, changeBet, SlotMachine.changeBet] at hne ⊢
  by_cases hc : (run (Game.new initialBoard none) es).slot.wallet.bet + amount ≥ 5 ∧
      (run (Game.new initialBoard none) es).slot.wallet.bet + amount ≤
        (run (Game.new initialBoard none) es).slot.wallet.balance ∧
      (run (Game.new initialBoard none) es).slot.wallet.bet + amount ≤ 500
  · rw [if_pos hc]
    exact le_min hc.2.2 hc.2.1
  · rw [if_neg hc] at hne
    exact absurd rfl hne

end Game

namespace MultiplierEngine

theorem mathRound_intCast (n : ℤ) : mathRound (n : ℚ) = n := by
  unfold mathRound
  rw [Int.floor_eq_iff]
  constructor <;> linarith

theorem calculateFinalWin_five (w : ℚ) :
    calculateFinalWin { currentMultiplier := 5, isRevealing := false } w = mathRound (w * 5) := by
  unfold calculateFinalWin
  simp only [getMultiplierBonus_eq]
  have hb : bonusForMultiplier 5 = 1 := by
    norm_num [bonusForMultiplier]
  rw [hb, mul_one, mathRound_intCast]
  rfl

end MultiplierEngine

namespace Game

open SymbolManager WinningDetector MultiplierEngine

theorem getSymbolMultiplier_bomb : getSymbolMultiplier (JSVal.str "bomb") = 5 := by
  simp [getSymbolMultiplier, JSVal.toPropertyKey, symbols]

theorem analyzeWin_bombs (b : ℚ) :
    (analyzeWin (List.replicate 9 "bomb") b).hasWin = true ∧
    (analyzeWin (List.replicate 9 "bomb") b).winAmount = 90 * b := by
  obtain ⟨-, hlen, -, hamount⟩ := analyzeWin_replicate "bomb" b (by decide)
  constructor
  · have hl : (checkWinningLines (List.replicate 9 "bomb")).length = 8 := hlen
    simp only [analyzeWin, hl]
    simp
  · rw [hamount, getSymbolMultiplier_bomb]
    push_cast
    ring

/-- A round on `bombDraws` resumed from its first `await` with no reveal
running: the wallet ends with the balance plus `round(90 × bet × 5)`, where
`bet` is the bet the wallet holds when the round is resumed. -/
theorem run_bombDraws (g : Game) (hp : g.pending = some SpinStage.animating)
    (hrev : g.slot.multiplierEngine.isRevealing = false) :
    (run g ((cleanRound bombDraws).map Event.resume)).slot.wallet =
      { balance := g.slot.wallet.balance + (mathRound (90 * g.slot.wallet.bet * 5) : ℚ)
        bet := g.slot.wallet.bet } ∧
    (run g ((cleanRound bombDraws).map Event.resume)).slot.lastWin.map
        (fun l => (l.analysis.winAmount, l.finalWinAmount)) =
      some (90 * g.slot.wallet.bet, mathRound (90 * g.slot.wallet.bet * 5)) ∧
    (run g ((cleanRound bombDraws).map Event.resume)).pending = none := by
  have hf : roundFinalWin g bombDraws g.slot.wallet.bet =
      mathRound (90 * g.slot.wallet.bet * 5) := by
    unfold roundFinalWin
    rw [drawnMultiplier_bombDraws, settledBoard_bombDraws, (analyzeWin_bombs _).2]
    exact calculateFinalWin_five _
  rw [run_cleanRound g hp hrev]
  simp only [settledBoard_bombDraws, (analyzeWin_bombs _).1, (analyzeWin_bombs _).2, hf, if_true,
    Option.map_some', and_self]

theorem callSpin_new (initialBoard : Board) :
    (callSpin (Game.new initialBoard none)).1 =
      { slot := { (Game.new initialBoard none).slot with
            isSpinning := true
            wallet := { balance := 990, bet := 10 } },
        pending := some SpinStage.animating } := by
  rw [callSpin_accepted _ rfl (by rw [new_wallet]; norm_num)]
  simp only [new_wallet]
  norm_num

/-- C17, the code at the failing input.  From the initial wallet a `spin()` call
debits 10; `changeBet(5)` made while the call is in flight is accepted and sets
the bet to 15; the round, here nine bombs under multiplier 5, is then analysed
at bet 15: win amount 1350 and credit 6750, where the debited bet gives 900 and
4500. -/
theorem C17_changeBet_in_flight_changes_payout :
    (callSpin (Game.new losingBoard none)).1.slot.isSpinning = true ∧
    (callSpin (Game.new losingBoard none)).1.slot.wallet = { balance := 990, bet := 10 } ∧
    (changeBet (callSpin (Game.new losingBoard none)).1 5).slot.isSpinning = true ∧
    (changeBet (callSpin (Game.new losingBoard none)).1 5).slot.wallet =
      { balance := 990, bet := 15 } ∧
    (run (Game.new losingBoard none)
      (Event.spin :: Event.changeBet 5 :: (cleanRound bombDraws).map Event.resume)).slot.lastWin.map
        (fun l => (l.analysis.winAmount, l.finalWinAmount)) = some (1350, 6750) ∧
    (run (Game.new losingBoard none)
      (Event.spin :: Event.changeBet 5 :: (cleanRound bombDraws).map Event.resume)).slot.wallet =
        { balance := 7740, bet := 15 } ∧
    (run (Game.new losingBoard none)
      (Event.spin :: (cleanRound bombDraws).map Event.resume)).slot.lastWin.map
        (fun l => (l.analysis.winAmount, l.finalWinAmount)) = some (900, 4500) ∧
    (run (Game.new losingBoard none)
      (Event.spin :: (cleanRound bombDraws).map Event.resume)).slot.wallet =
        { balance := 5490, bet := 10 } := by
  have h1 := callSpin_new losingBoard
  have h2 : changeBet (callSpin (Game.new losingBoard none)).1 5 =
      { slot := { (Game.new losingBoard none).slot with
            isSpinning := true
            wallet := { balance := 990, bet := 15 } },
        pending := some SpinStage.animating } := by
    rw [h1]
    simp only [changeBet, SlotMachine.changeBet]
    norm_num
  have r15 : mathRound (90 * 15 * 5) = 6750 := by
    have := mathRound_intCast 6750
    norm_num at this ⊢
    exact this
  have r10 : mathRound (90 * 10 * 5) = 4500 := by
    have := mathRound_intCast 4500
    norm_num at this ⊢
    exact this
  obtain ⟨a1, a2, -⟩ := run_bombDraws (changeBet (callSpin (Game.new losingBoard none)).1 5)
    (by rw [h2]) (by rw [h2]; rfl)
  obtain ⟨b1, b2, -⟩ := run_bombDraws (callSpin (Game.new losingBoard none)).1
    (by rw [h1]) (by rw [h1]; rfl)
  rw [h2] at a1 a2
  rw [h1] at b1 b2
  simp only [r15] at a1 a2
  simp only [r10] at b1 b2
  refine ⟨by rw [h1], by rw [h1], by rw [h2], by rw [h2], ?_, ?_, ?_, ?_⟩
  · rw [run_cons, run_cons]
    simp only [step]
    rw [h2, a2]
    norm_num
  · rw [run_cons, run_cons]
    simp only [step]
    rw [h2, a1]
    norm_num
  · rw [run_cons]
    simp only [step]
    rw [h1, b2]
    norm_num
  · rw [run_cons]
    simp only [step]
    rw [h1, b1]
    norm_num

end Game

namespace MultiplierEngine

theorem walkWeights_mem (table : List (Nat × Nat)) (r : ℚ) (v : Nat)
    (h : walkWeights table r = some v) : v ∈ table.map (fun e => e.1) := by
  induction table generalizing r with
  | nil => simp [walkWeights] at h
  | cons e rest ih =>
    obtain ⟨m, w⟩ := e
    simp only [walkWeights] at h
    by_cases h0 : r - (w : ℚ) ≤ 0
    · rw [if_pos h0] at h
      simp only [Option.some.injEq] at h
      simp [h]
    · rw [if_neg h0] at h
      simp only [List.map_cons, List.mem_cons]
      exact Or.inr (ih _ h)

theorem getRandomMultiplier_mem (u : ℚ) : getRandomMultiplier u ∈ possibleMultipliers := by
  have h5 : 5 ∈ possibleMultipliers := by decide
  unfold getRandomMultiplier
  simp only []
  cases h : walkWeights multiplierWeights (u * (totalWeight : ℚ)) with
  | none => exact h5
  | some v => exact walkWeights_mem _ _ v h

theorem getRandomMultiplier_ge_five (u : ℚ) : 5 ≤ getRandomMultiplier u := by
  have h : ∀ v ∈ possibleMultipliers, 5 ≤ v := by decide
  exact h _ (getRandomMultiplier_mem u)

theorem calculateFinalWin_pos (e : MultiplierEngine) (w : ℚ) (he : 5 ≤ e.currentMultiplier)
    (hw : 5 ≤ w) : 0 < calculateFinalWin e w := by
  have h1 : ((25 : Nat) : ℤ) ≤ applyMultiplier e w := by
    apply mathRound_ge_of_natCast
    push_cast
    nlinarith
  have h2 : (25 : ℚ) ≤ (applyMultiplier e w : ℚ) := by exact_mod_cast h1
  have h3 := bonusForMultiplier_ge_one e.currentMultiplier
  have h4 : ((25 : Nat) : ℤ) ≤ calculateFinalWin e w := by
    unfold calculateFinalWin
    simp only [getMultiplierBonus_eq]
    apply mathRound_ge_of_natCast
    push_cast
    nlinarith
  have h5 : (25 : ℤ) ≤ calculateFinalWin e w := by exact_mod_cast h4
  omega

end MultiplierEngine

namespace Game

open SymbolManager WinningDetector MultiplierEngine

theorem roundFinalWin_facts (g : Game) (rand : Nat → Draw) (bet : ℚ) (hb : 0 ≤ bet) :
    0 ≤ roundFinalWin g rand bet ∧
    ((analyzeWin (settledBoard g rand) bet).hasWin = false → roundFinalWin g rand bet = 0) ∧
    (5 ≤ bet → (analyzeWin (settledBoard g rand) bet).hasWin = true →
      0 < roundFinalWin g rand bet) := by
  have hm : (5 : ℚ) ≤ (drawnMultiplier g rand : ℚ) := by
    exact_mod_cast getRandomMultiplier_ge_five _
  refine ⟨?_, ?_, ?_⟩
  · exact calculateFinalWin_nonneg _ _ (by show (0 : ℚ) ≤ (drawnMultiplier g rand : ℚ); linarith)
      (analyzeWin_winAmount_nonneg _ _ hb)
  · intro h
    unfold roundFinalWin
    rw [analyzeWin_no_win _ _ h]
    exact calculateFinalWin_zero _
  · intro h5 hwin
    have := analyzeWin_winAmount_ge (settledBoard g rand) bet hb hwin
    exact calculateFinalWin_pos _ _ hm (by linarith)

/-- An accepted `spin()` call with bet `b > 0` that runs to its end without a
fault and without other calls in between leaves the balance at
`before − b + finalWin` when `finalWin > 0` and at `before − b` otherwise, with
`finalWin = calculateFinalWin(analyzeWin(B, b).winAmount)` under the drawn
multiplier; `finalWin > 0` implies `hasWin`, and for `b ≥ 5`, which every bet
the wallet can hold is, the guard `hasWin` holds exactly when `finalWin > 0`. -/
theorem playRound_settled_balance (g : Game) (hs : g.slot.isSpinning = false)
    (hrev : g.slot.multiplierEngine.isRevealing = false)
    (hle : g.slot.wallet.bet ≤ g.slot.wallet.balance) (hb : 0 < g.slot.wallet.bet)
    (rand : Nat → Draw) :
    (playRound g (cleanRound rand)).pending = none ∧
    (playRound g (cleanRound rand)).slot.wallet.balance =
      (if 0 < roundFinalWin g rand g.slot.wallet.bet then
        g.slot.wallet.balance - g.slot.wallet.bet + (roundFinalWin g rand g.slot.wallet.bet : ℚ)
      else g.slot.wallet.balance - g.slot.wallet.bet) ∧
    (playRound g (cleanRound rand)).slot.wallet.bet = g.slot.wallet.bet ∧
    roundFinalWin g rand g.slot.wallet.bet =
      calculateFinalWin
        { currentMultiplier := (drawnMultiplier g rand : ℚ), isRevealing := false }
        (analyzeWin (settledBoard g rand) g.slot.wallet.bet).winAmount ∧
    (0 < roundFinalWin g rand g.slot.wallet.bet →
      (analyzeWin (settledBoard g rand) g.slot.wallet.bet).hasWin = true) ∧
    (5 ≤ g.slot.wallet.bet →
      ((analyzeWin (settledBoard g rand) g.slot.wallet.bet).hasWin = true ↔
        0 < roundFinalWin g rand g.slot.wallet.bet)) := by
  obtain ⟨h0, hno, hyes⟩ := roundFinalWin_facts g rand g.slot.wallet.bet hb.le
  have himp : 0 < roundFinalWin g rand g.slot.wallet.bet →
      (analyzeWin (settledBoard g rand) g.slot.wallet.bet).hasWin = true := by
    intro hpos
    by_contra hn
    have hf : (analyzeWin (settledBoard g rand) g.slot.wallet.bet).hasWin = false := by
      simpa using hn
    rw [hno hf] at hpos
    exact absurd hpos (lt_irrefl _)
  rw [playRound_clean g hs hrev hle rand]
  refine ⟨rfl, ?_, rfl, rfl, himp, fun h5 => ⟨hyes h5, himp⟩⟩
  show g.slot.wallet.balance - g.slot.wallet.bet +
      (if (analyzeWin (settledBoard g rand) g.slot.wallet.bet).hasWin = true then
        (roundFinalWin g rand g.slot.wallet.bet : ℚ) else 0) = _
  by_cases hwin : (analyzeWin (settledBoard g rand) g.slot.wallet.bet).hasWin = true
  · rw [if_pos hwin]
    by_cases hpos : 0 < roundFinalWin g rand g.slot.wallet.bet
    · rw [if_pos hpos]
    · have hz : roundFinalWin g rand g.slot.wallet.bet = 0 := by omega
      rw [if_neg hpos, hz]
      simp
  · have hf : (analyzeWin (settledBoard g rand) g.slot.wallet.bet).hasWin = false := by
      simpa using hwin
    rw [if_neg hwin, hno hf]
    simp

/-- C18, the code at the failing input.  From the initial wallet (balance 1000,
bet 10) a `spin()` call is accepted; `changeBet(5)` is called while the call is
in flight; the call then resolves without a fault, on the board of nine bombs
under round multiplier 5.  The balance after settlement is 7740, where the
formula `before − b + finalWin` gives `1000 − 10 + 4500 = 5490` for the debited
bet 10 and `1000 − 15 + 6750 = 7735` for the bet 15 the wallet holds at the
analysis.  Without the `changeBet` call the same round settles at 5490, as the
formula says. -/
theorem C18_in_flight_changeBet_breaks_settlement :
    (callSpin (Game.new losingBoard none)).2 = SpinOutcome.accepted ∧
    (Game.new losingBoard none).slot.wallet = { balance := 1000, bet := 10 } ∧
    (run (Game.new losingBoard none)
      (Event.spin :: Event.changeBet 5 :: (cleanRound bombDraws).map Event.resume)).pending =
        none ∧
    (run (Game.new losingBoard none)
      (Event.spin :: Event.changeBet 5 :: (cleanRound bombDraws).map Event.resume)).slot.board =
        List.replicate 9 "bomb" ∧
    (run (Game.new losingBoard none)
      (Event.spin :: Event.changeBet 5 ::
        (cleanRound bombDraws).map Event.resume)).slot.currentMultiplier = 5 ∧
    calculateFinalWin { currentMultiplier := 5, isRevealing := false }
      (analyzeWin (List.replicate 9 "bomb") 10).winAmount = 4500 ∧
    calculateFinalWin { currentMultiplier := 5, isRevealing := false }
      (analyzeWin (List.replicate 9 "bomb") 15).winAmount = 6750 ∧
    (run (Game.new losingBoard none)
      (Event.spin :: Event.changeBet 5 ::
        (cleanRound bombDraws).map Event.resume)).slot.wallet.balance = 7740 ∧
    (7740 : ℚ) ≠ 1000 - 10 + 4500 ∧ (7740 : ℚ) ≠ 1000 - 15 + 6750 ∧
    (run (Game.new losingBoard none)
      (Event.spin :: (cleanRound bombDraws).map Event.resume)).slot.wallet.balance =
        1000 - 10 + 4500 := by
  have h1 := callSpin_new losingBoard
  have h2 : changeBet (callSpin (Game.new losingBoard none)).1 5 =
      { slot := { (Game.new losingBoard none).slot with
            isSpinning := true
            wallet := { balance := 990, bet := 15 } },
        pending := some SpinStage.animating } := by
    rw [h1]
    simp only [changeBet, SlotMachine.changeBet]
    norm_num
  have r15 : mathRound (90 * 15 * 5) = 6750 := by
    have := mathRound_intCast 6750
    norm_num at this ⊢
    exact this
  have r10 : mathRound (90 * 10 * 5) = 4500 := by
    have := mathRound_intCast 4500
    norm_num at this ⊢
    exact this
  have a := run_cleanRound (changeBet (callSpin (Game.new losingBoard none)).1 5)
    (by rw [h2]) (by rw [h2]; rfl) bombDraws
  obtain ⟨a1, -, -⟩ := run_bombDraws (changeBet (callSpin (Game.new losingBoard none)).1 5)
    (by rw [h2]) (by rw [h2]; rfl)
  obtain ⟨b1, -, -⟩ := run_bombDraws (callSpin (Game.new losingBoard none)).1
    (by rw [h1]) (by rw [h1]; rfl)
  rw [h2] at a1
  rw [h1] at b1
  simp only [r15] at a1
  simp only [r10] at b1
  have e : run (Game.new losingBoard none)
      (Event.spin :: Event.changeBet 5 :: (cleanRound bombDraws).map Event.resume) =
      run (changeBet (callSpin (Game.new losingBoard none)).1 5)
        ((cleanRound bombDraws).map Event.resume) := rfl
  have e0 : run (Game.new losingBoard none)
      (Event.spin :: (cleanRound bombDraws).map Event.resume) =
      run (callSpin (Game.new losingBoard none)).1
        ((cleanRound bombDraws).map Event.resume) := rfl
  refine ⟨?_, rfl, ?_, ?_, ?_, ?_, ?_, ?_, by norm_num, by norm_num, ?_⟩
  · rw [callSpin_accepted _ rfl (by rw [new_wallet]; norm_num)]
  · rw [e, a]
  · rw [e, a]
    exact settledBoard_bombDraws _
  · rw [e, a]
    show ((drawnMultiplier _ bombDraws : Nat) : ℚ) = 5
    rw [drawnMultiplier_bombDraws]
    norm_num
  · rw [(analyzeWin_bombs _).2, calculateFinalWin_five]
    exact r10
  · rw [(analyzeWin_bombs _).2, calculateFinalWin_five]
    exact r15
  · rw [e, h2, a1]
    norm_num
  · rw [e0, h1, b1]
    norm_num

end Game

namespace Game

open SymbolManager WinningDetector MultiplierEngine

theorem finish_pending (s : SlotMachine) :
    (finish s).pending = none ∧ (finish s).slot.isSpinning = false ∧
    (finish s).slot.multiplierEngine = { currentMultiplier := 1, isRevealing := false } ∧
    (finish s).slot.wallet = s.wallet :=
  ⟨rfl, rfl, rfl, rfl⟩

/-- A resumption either ends the round, through the `finally` block, or moves
the call to a later stage without a fault, keeping `isSpinning` and, up to the
credit step, the balance. -/
theorem resume_shape (g : Game) (inp : ResumeInput) (st : SpinStage)
    (hp : g.pending = some st) :
    ((resume g inp).pending = none ∧ (resume g inp).slot.isSpinning = false ∧
      (resume g inp).slot.multiplierEngine = { currentMultiplier := 1, isRevealing := false }) ∨
    (∃ st2, (resume g inp).pending = some st2 ∧ st2.rank < st.rank ∧
      (resume g inp).slot.isSpinning = g.slot.isSpinning ∧ inp.fault = Fault.none ∧
      (st2.beforeCredit = true →
        (resume g inp).slot.wallet.balance = g.slot.wallet.balance)) := by
  unfold resume
  rw [hp]
  cases st with
  | animating =>
    by_cases hrev : g.slot.multiplierEngine.isRevealing = true <;>
      cases hf : inp.fault <;>
      simp [resumeAnimating, revealMultiplierStart, hrev, hf, finish, SlotMachine.spinFinally,
        resetMultiplier, SpinStage.rank, SpinStage.beforeCredit]
  | revealing fm =>
    cases hf : inp.fault <;>
      simp [resumeRevealing, hf, finish, SlotMachine.spinFinally, resetMultiplier,
        SpinStage.rank, SpinStage.beforeCredit]
  | shuffling =>
    by_cases hwin : (analyzeWin g.slot.board g.slot.wallet.bet).hasWin = true <;>
      cases hf : inp.fault <;>
      simp [resumeShuffling, hwin, hf, finish, SlotMachine.spinFinally, resetMultiplier,
        SpinStage.rank, SpinStage.beforeCredit]
  | celebrating w a =>
    cases hf : inp.fault <;>
      simp [resumeCelebrating, hf, finish, SlotMachine.spinFinally, resetMultiplier,
        SpinStage.rank, SpinStage.beforeCredit]
  | displaying a =>
    exact Or.inl ⟨rfl, rfl, rfl⟩

theorem rank_pos (st : SpinStage) : 0 < st.rank := by
  cases st <;> simp [SpinStage.rank]

theorem resume_roundInv (debited : ℚ) (g : Game) (inp : ResumeInput)
    (h : RoundInv debited g) : RoundInv debited (resume g inp) := by
  cases hp : g.pending with
  | none =>
    have e : resume g inp = g := by
      unfold resume
      rw [hp]
    rw [e]
    exact h
  | some st =>
    unfold RoundInv at h
    rw [hp] at h
    rcases resume_shape g inp st hp with ⟨h1, h2, h3⟩ | ⟨st2, h1, h2, h3, -, h5⟩
    · unfold RoundInv
      rw [h1]
      simp only [h2, h3, and_self]
    · unfold RoundInv
      rw [h1]
      refine ⟨by rw [h3]; exact h.1, ?_⟩
      intro hb
      rw [h5 hb]
      apply h.2
      cases st with
      | displaying a =>
        have hpos := rank_pos st2
        have hlt : st2.rank < 1 := h2
        omega
      | animating => rfl
      | revealing fm => rfl
      | shuffling => rfl
      | celebrating w a => rfl

theorem changeBet_frame (g : Game) (amount : ℚ) :
    (changeBet g amount).pending = g.pending ∧
    (changeBet g amount).slot.isSpinning = g.slot.isSpinning ∧
    (changeBet g amount).slot.multiplierEngine = g.slot.multiplierEngine ∧
    (changeBet g amount).slot.wallet.balance = g.slot.wallet.balance := by
  unfold changeBet SlotMachine.changeBet
  by_cases hc : g.slot.wallet.bet + amount ≥ 5 ∧
      g.slot.wallet.bet + amount ≤ g.slot.wallet.balance ∧ g.slot.wallet.bet + amount ≤ 500
  · rw [if_pos hc]
    exact ⟨rfl, rfl, rfl, rfl⟩
  · rw [if_neg hc]
    exact ⟨rfl, rfl, rfl, rfl⟩

theorem changeBet_roundInv (debited : ℚ) (g : Game) (amount : ℚ)
    (h : RoundInv debited g) : RoundInv debited (changeBet g amount) := by
  obtain ⟨h1, h2, h3, h4⟩ := changeBet_frame g amount
  unfold RoundInv at h ⊢
  rw [h1, h2, h3, h4]
  exact h

theorem resume_rank (g : Game) (inp : ResumeInput) :
    rank (resume g inp) ≤ rank g - 1 := by
  cases hp : g.pending with
  | none =>
    have e : resume g inp = g := by
      unfold resume
      rw [hp]
    rw [e]
    simp [rank, hp]
  | some st =>
    rcases resume_shape g inp st hp with ⟨h1, -, -⟩ | ⟨st2, h1, h2, -, -, -⟩
    · simp [rank, h1]
    · simp only [rank, h1, hp]
      omega

theorem run_round (debited : ℚ) (g : Game) (es : List Event)
    (hes : ∀ e ∈ es, e ≠ Event.spin) (h : RoundInv debited g) :
    RoundInv debited (run g es) ∧
    rank (run g es) ≤ rank g - (es.filter Event.isResume).length := by
  induction es generalizing g with
  | nil => exact ⟨h, by simp [run]⟩
  | cons e es ih =>
    have hes2 : ∀ x ∈ es, x ≠ Event.spin := fun x hx => hes x (List.mem_cons_of_mem _ hx)
    rw [run_cons]
    cases e with
    | spin => exact absurd rfl (hes Event.spin (List.mem_cons_self _ _))
    | changeBet amount =>
      obtain ⟨i1, i2⟩ := ih (step g (Event.changeBet amount)) hes2
        (changeBet_roundInv debited g amount h)
      refine ⟨i1, ?_⟩
      have hr : rank (step g (Event.changeBet amount)) = rank g := by
        simp only [step, rank, (changeBet_frame g amount).1]
      rw [hr] at i2
      simpa [List.filter_cons, Event.isResume] using i2
    | resume inp =>
      obtain ⟨i1, i2⟩ := ih (step g (Event.resume inp)) hes2 (resume_roundInv debited g inp h)
      refine ⟨i1, ?_⟩
      have hr : rank (step g (Event.resume inp)) ≤ rank g - 1 := resume_rank g inp
      simp only [List.filter_cons, Event.isResume, if_true, List.length_cons]
      omega

theorem resume_fault_ends (g : Game) (inp : ResumeInput) (hf : inp.fault ≠ Fault.none) :
    (resume g inp).pending = none := by
  cases hp : g.pending with
  | none =>
    unfold resume
    rw [hp]
    exact hp
  | some st =>
    rcases resume_shape g inp st hp with ⟨h1, -, -⟩ | ⟨st2, -, -, -, h4, -⟩
    · exact h1
    · exact absurd h4 hf

theorem resume_fails_before_credit (g : Game) (inp : ResumeInput) (st : SpinStage)
    (hp : g.pending = some st) (hf : failsBeforeCredit st inp.fault = true) :
    (resume g inp).slot.wallet.balance = g.slot.wallet.balance ∧ st.beforeCredit = true ∧
    inp.fault ≠ Fault.none := by
  have hne : inp.fault ≠ Fault.none := by
    intro h
    rw [h] at hf
    cases st <;> simp [failsBeforeCredit] at hf
  have hbc : st.beforeCredit = true := by
    cases st with
    | displaying a =>
      cases hfa : inp.fault <;> rw [hfa] at hf <;> simp [failsBeforeCredit] at hf
    | animating => rfl
    | revealing fm => rfl
    | shuffling => rfl
    | celebrating w a => rfl
  refine ⟨?_, hbc, hne⟩
  rcases resume_balance g inp with he | ⟨w, a, hp2, hf2, -⟩
  · exact he
  · rw [hp] at hp2
    simp only [Option.some.injEq] at hp2
    subst hp2
    cases hfa : inp.fault
    · exact absurd hfa hne
    · exact absurd hfa hf2
    · rw [hfa] at hf
      simp [failsBeforeCredit] at hf

theorem callSpin_accepted_inv (g : Game) (h : (callSpin g).2 = SpinOutcome.accepted) :
    g.slot.isSpinning = false ∧ g.slot.wallet.bet ≤ g.slot.wallet.balance := by
  by_cases hs : g.slot.isSpinning = true
  · rw [callSpin_spinning g hs] at h
    exact absurd h (by simp)
  · have hs2 : g.slot.isSpinning = false := by simpa using hs
    by_cases hlt : g.slot.wallet.balance < g.slot.wallet.bet
    · rw [callSpin_insufficient g hs2 hlt] at h
      exact absurd h (by simp)
    · exact ⟨hs2, not_lt.1 hlt⟩

theorem callSpin_roundInv (g : Game) (h : (callSpin g).2 = SpinOutcome.accepted) :
    RoundInv (g.slot.wallet.balance - g.slot.wallet.bet) (callSpin g).1 ∧
    rank (callSpin g).1 = 5 := by
  obtain ⟨hs, hle⟩ := callSpin_accepted_inv g h
  rw [callSpin_accepted g hs hle]
  exact ⟨⟨rfl, fun _ => rfl⟩, rfl⟩

/-- C19. After an accepted `spin()` call, whatever `changeBet` calls and
resumptions follow, with whatever faults: once the call is over `isSpinning`
is clear and the engine multiplier is 1, and until then `isSpinning` is set;
five resumptions at most end it, and a fault ends it at once; and when the
fault comes before the credit step the balance is the balance before the call
minus the bet: the debit stays. -/
theorem C19_spin_always_ends_without_refund (g : Game)
    (hacc : (callSpin g).2 = SpinOutcome.accepted) (es : List Event)
    (hes : ∀ e ∈ es, e ≠ Event.spin) :
    ((run (callSpin g).1 es).pending = none →
      (run (callSpin g).1 es).slot.isSpinning = false ∧
      (run (callSpin g).1 es).slot.multiplierEngine.currentMultiplier = 1) ∧
    ((run (callSpin g).1 es).pending ≠ none →
      (run (callSpin g).1 es).slot.isSpinning = true) ∧
    (5 ≤ (es.filter Event.isResume).length → (run (callSpin g).1 es).pending = none) ∧
    (∀ inp : ResumeInput, inp.fault ≠ Fault.none →
      (resume (run (callSpin g).1 es) inp).pending = none ∧
      (resume (run (callSpin g).1 es) inp).slot.isSpinning = false ∧
      (resume (run (callSpin g).1 es) inp).slot.multiplierEngine.currentMultiplier = 1) ∧
    (∀ (st : SpinStage) (inp : ResumeInput),
      (run (callSpin g).1 es).pending = some st → failsBeforeCredit st inp.fault = true →
      (resume (run (callSpin g).1 es) inp).slot.wallet.balance =
        g.slot.wallet.balance - g.slot.wallet.bet) := by
  obtain ⟨hinv0, hrank0⟩ := callSpin_roundInv g hacc
  obtain ⟨hinv, hrank⟩ := run_round _ (callSpin g).1 es hes hinv0
  rw [hrank0] at hrank
  refine ⟨?_, ?_, ?_, ?_, ?_⟩
  · intro hp
    unfold RoundInv at hinv
    rw [hp] at hinv
    exact ⟨hinv.1, hinv.2.1⟩
  · intro hp
    cases hq : (run (callSpin g).1 es).pending with
    | none => exact absurd hq hp
    | some st =>
      unfold RoundInv at hinv
      rw [hq] at hinv
      exact hinv.1
  · intro h5
    have hz : rank (run (callSpin g).1 es) = 0 := by omega
    cases hq : (run (callSpin g).1 es).pending with
    | none => rfl
    | some st =>
      have := rank_pos st
      simp only [rank, hq] at hz
      omega
  · intro inp hf
    have hp := resume_fault_ends (run (callSpin g).1 es) inp hf
    have hi := resume_roundInv _ _ inp hinv
    unfold RoundInv at hi
    rw [hp] at hi
    exact ⟨hp, hi.1, hi.2.1⟩
  · intro st inp hp hf
    obtain ⟨hb, hbc, -⟩ := resume_fails_before_credit _ inp st hp hf
    unfold RoundInv at hinv
    rw [hp] at hinv
    rw [hb]
    exact hinv.2 hbc

/-- C19, at the initial wallet: the call is accepted, `changeBet(5)` follows,
and the spin animation then fails; the round is over, `isSpinning` is clear,
the engine multiplier is 1 and the balance is 990. -/
theorem C19_spin_always_ends_without_refund_witness :
    (callSpin (Game.new losingBoard none)).2 = SpinOutcome.accepted ∧
    (resume (run (callSpin (Game.new losingBoard none)).1 [Event.changeBet 5])
      { fault := Fault.onResume, rand := losingDraws }).pending = none ∧
    (resume (run (callSpin (Game.new losingBoard none)).1 [Event.changeBet 5])
      { fault := Fault.onResume, rand := losingDraws }).slot.isSpinning = false ∧
    (resume (run (callSpin (Game.new losingBoard none)).1 [Event.changeBet 5])
      { fault := Fault.onResume, rand := losingDraws }).slot.wallet.balance = 1000 - 10 := by
  have hacc : (callSpin (Game.new losingBoard none)).2 = SpinOutcome.accepted := by
    rw [callSpin_accepted _ rfl (by rw [new_wallet]; norm_num)]
  have hes : ∀ e ∈ [Event.changeBet 5], e ≠ Event.spin := by
    intro e he
    simp only [List.mem_singleton] at he
    rw [he]
    simp
  have hp : (run (callSpin (Game.new losingBoard none)).1 [Event.changeBet 5]).pending =
      some SpinStage.animating := by
    show (changeBet (callSpin (Game.new losingBoard none)).1 5).pending = _
    rw [(changeBet_frame _ 5).1, callSpin_new]
  have h := C19_spin_always_ends_without_refund (Game.new losingBoard none) hacc
    [Event.changeBet 5] hes
  have h4 := h.2.2.2.1 { fault := Fault.onResume, rand := losingDraws } (by simp)
  have h5 := h.2.2.2.2 SpinStage.animating { fault := Fault.onResume, rand := losingDraws } hp rfl
  refine ⟨hacc, h4.1, h4.2.1, ?_⟩
  rw [h5, new_wallet]

end Game

namespace SlotMachine

/-- C20, the code at the failing input.  The constructor, finding the saved
record `{balance: 50, bet: 200}`, loads balance 50 and bet 200: the bet is
clamped to the balance of the wallet being replaced (1000), not to the loaded
balance.  A saved balance of 0 is loaded as 1000. -/
theorem C20_loaded_bet_can_exceed_balance :
    (SlotMachine.new losingBoard (some { balance := 50, bet := 200 })).wallet =
      { balance := 50, bet := 200 } ∧
    ¬ ((SlotMachine.new losingBoard (some { balance := 50, bet := 200 })).wallet.bet ≤
      (SlotMachine.new losingBoard (some { balance := 50, bet := 200 })).wallet.balance) ∧
    (SlotMachine.new losingBoard (some { balance := 0, bet := 10 })).wallet =
      { balance := 1000, bet := 10 } ∧
    (∀ (s : SlotMachine) (saved : SavedWallet),
      (loadWalletFromStorage s (some saved)).wallet.bet =
        min (max (jsOr saved.bet 10) 5) s.wallet.balance) := by
  have h1 : (SlotMachine.new losingBoard (some { balance := 50, bet := 200 })).wallet =
      { balance := 50, bet := 200 } := by
    simp only [SlotMachine.new, loadWalletFromStorage, jsOr]
    norm_num
  refine ⟨h1, ?_, ?_, fun _ _ => rfl⟩
  · rw [h1]
    norm_num
  · simp only [SlotMachine.new, loadWalletFromStorage, jsOr]
    norm_num

end SlotMachine

namespace SymbolManager

theorem shuffleLoop_eq (includeWild : Bool) (rand : Nat → Draw) (n k : Nat) (acc : Board) :
    (shuffleLoop includeWild rand n k acc).1 =
      acc ++ (List.range n).map (fun i =>
        shuffleCell includeWild (rand (drawPosition includeWild rand k i))
          (rand (drawPosition includeWild rand k i + 1))) := by
  induction n generalizing k acc with
  | zero => simp [shuffleLoop]
  | succ n ih =>
    rw [List.range_succ_eq_map, List.map_cons, List.map_map]
    by_cases hw : (decide ((rand k).1 < 1 / 10) && includeWild) = true
    · have hc : shuffleCell includeWild (rand k) (rand (k + 1)) = "tiger" := by
        simp only [Bool.and_eq_true, decide_eq_true_eq] at hw
        rw [shuffleCell, if_pos ⟨hw.2, hw.1⟩]
      simp only [shuffleLoop, hw, if_true, ih, drawPosition, nextDrawPosition, hc,
        List.append_assoc, List.singleton_append, Function.comp_def]
    · have hc : shuffleCell includeWild (rand k) (rand (k + 1)) =
          getRandomSymbol false (rand (k + 1)) := by
        simp only [Bool.and_eq_true, decide_eq_true_eq, not_and] at hw
        unfold shuffleCell
        rw [if_neg]
        intro h
        exact hw h.2 h.1
      simp only [shuffleLoop, hw, if_false, ih, drawPosition, nextDrawPosition, hc,
        List.append_assoc, List.singleton_append, Function.comp_def, Bool.false_eq_true]

end SymbolManager

namespace SymbolManager

theorem generateLoop_eq (includeWild : Bool) (rand : Nat → Draw) (n k : Nat) (acc : Board) :
    (generateLoop includeWild rand n k acc).1 =
      acc ++ (List.range n).map (fun i => getRandomSymbol includeWild (rand (k + i))) := by
  induction n generalizing k acc with
  | zero => simp [generateLoop]
  | succ n ih =>
    rw [List.range_succ_eq_map, List.map_cons, List.map_map]
    simp only [generateLoop, ih, List.append_assoc, List.singleton_append, Function.comp_def,
      Nat.add_zero]
    congr 2
    apply List.map_congr_left
    intro i _
    congr 2
    omega

theorem getRandomSymbol_mem (includeWild : Bool) (u : Draw) :
    getRandomSymbol includeWild u ∈ availableSymbols includeWild := by
  unfold getRandomSymbol
  exact List.get_mem _ _ _

theorem getRandomSymbol_base (u : Draw) :
    getRandomSymbol false u ∈ baseSymbols ∧ getRandomSymbol false u ≠ "tiger" ∧
    getRandomSymbol false u ∈ symbolKeys := by
  have h : getRandomSymbol false u ∈ baseSymbols := getRandomSymbol_mem false u
  have hsub : ∀ c ∈ baseSymbols, c ≠ "tiger" ∧ c ∈ symbolKeys := by decide
  exact ⟨h, (hsub _ h).1, (hsub _ h).2⟩

theorem shuffleCell_mem (includeWild : Bool) (first second : Draw) :
    shuffleCell includeWild first second ∈ symbolKeys := by
  unfold shuffleCell
  split_ifs
  · decide
  · exact (getRandomSymbol_base second).2.2

theorem shuffleCell_eq_tiger (includeWild : Bool) (first second : Draw) :
    shuffleCell includeWild first second = "tiger" ↔
      includeWild = true ∧ first.1 < 1 / 10 := by
  unfold shuffleCell
  by_cases h : includeWild = true ∧ first.1 < 1 / 10
  · rw [if_pos h]
    exact ⟨fun _ => h, fun _ => rfl⟩
  · rw [if_neg h]
    exact ⟨fun e => absurd e (getRandomSymbol_base second).2.1, fun e => absurd e h⟩

end SymbolManager

namespace SymbolManager

theorem shuffleBoard_cells (board : Board) (includeWild : Bool) (rand : Nat → Draw) (k : Nat) :
    (shuffleBoard board includeWild rand k).1 =
      (List.range 9).map (fun i =>
        shuffleCell includeWild (rand (drawPosition includeWild rand k i))
          (rand (drawPosition includeWild rand k i + 1))) := by
  unfold shuffleBoard
  rw [shuffleLoop_eq]
  simp

/-- C21. With its draws made explicit, `shuffleBoard(board, includeWild)` returns
a board of exactly nine cells, each a key of the catalog, that does not depend
on the input board; cell `i` is the wild `tiger` exactly when `includeWild` is
true and the cell's first draw is below 0.1, and is otherwise the base symbol
at index `floor(draw × 6)` of `[bomb, card, barrel, goldPot, frog, cat]` for the
cell's second draw; with `includeWild = false` no cell is wild.
`generateBoard(false)` returns nine base symbols, none of them wild. -/
theorem C21_shuffleBoard_cells (board : Board) (includeWild : Bool) (rand : Nat → Draw)
    (k : Nat) :
    (shuffleBoard board includeWild rand k).1.length = 9 ∧
    (∀ c ∈ (shuffleBoard board includeWild rand k).1, c ∈ symbolKeys) ∧
    (∀ other : Board,
      shuffleBoard other includeWild rand k = shuffleBoard board includeWild rand k) ∧
    (∀ i, i < 9 →
      (shuffleBoard board includeWild rand k).1[i]? =
        some (shuffleCell includeWild (rand (drawPosition includeWild rand k i))
          (rand (drawPosition includeWild rand k i + 1)))) ∧
    (∀ i, i < 9 →
      ((shuffleBoard board includeWild rand k).1[i]? = some "tiger" ↔
        includeWild = true ∧ (rand (drawPosition includeWild rand k i)).1 < 1 / 10)) ∧
    (∀ i, i < 9 →
      ¬ (includeWild = true ∧ (rand (drawPosition includeWild rand k i)).1 < 1 / 10) →
      (shuffleBoard board includeWild rand k).1[i]? =
        [("bomb" : String), "card", "barrel", "goldPot", "frog", "cat"][
          ⌊(rand (drawPosition includeWild rand k i + 1)).1 * 6⌋.toNat]?) ∧
    (includeWild = false →
      ∀ c ∈ (shuffleBoard board includeWild rand k).1, isWild (JSVal.str c) = false) ∧
    (generateBoard false rand k).1.length = 9 ∧
    (∀ c ∈ (generateBoard false rand k).1,
      c ∈ baseSymbols ∧ c ∈ symbolKeys ∧ isWild (JSVal.str c) = false) := by
  have hcells := shuffleBoard_cells board includeWild rand k
  have hget : ∀ i, i < 9 →
      (shuffleBoard board includeWild rand k).1[i]? =
        some (shuffleCell includeWild (rand (drawPosition includeWild rand k i))
          (rand (drawPosition includeWild rand k i + 1))) := by
    intro i hi
    rw [hcells, List.getElem?_map, List.getElem?_range hi]
    rfl
  have hnotwild : ∀ c : String, c ≠ "tiger" → isWild (JSVal.str c) = false := by
    intro c hc
    rw [isWild_eq_decide]
    simpa using hc
  refine ⟨?_, ?_, fun _ => rfl, hget, ?_, ?_, ?_, ?_, ?_⟩
  · rw [hcells]
    simp
  · intro c hc
    rw [hcells] at hc
    obtain ⟨i, -, rfl⟩ := List.mem_map.1 hc
    exact shuffleCell_mem _ _ _
  · intro i hi
    rw [hget i hi]
    simp only [Option.some.injEq]
    exact shuffleCell_eq_tiger _ _ _
  · intro i hi hno
    rw [hget i hi]
    unfold shuffleCell
    rw [if_neg hno]
    have h := getRandomSymbol_eq false (rand (drawPosition includeWild rand k i + 1))
      ⌊(rand (drawPosition includeWild rand k i + 1)).1 * 6⌋.toNat (by
        have h0 : 0 ≤ ⌊(rand (drawPosition includeWild rand k i + 1)).1 * 6⌋ :=
          Int.floor_nonneg.2
            (mul_nonneg (rand (drawPosition includeWild rand k i + 1)).2.1 (by norm_num))
        have hl : ((availableSymbols false).length : ℚ) = 6 := by
          simp [availableSymbols, baseSymbols]
        rw [hl, Int.toNat_of_nonneg h0])
    exact h.symm
  · intro hw c hc
    rw [hcells] at hc
    obtain ⟨i, -, rfl⟩ := List.mem_map.1 hc
    apply hnotwild
    intro e
    have := (shuffleCell_eq_tiger _ _ _).1 e
    rw [hw] at this
    exact absurd this.1 (by decide)
  · unfold generateBoard
    rw [generateLoop_eq]
    simp
  · intro c hc
    unfold generateBoard at hc
    rw [generateLoop_eq] at hc
    simp only [List.nil_append] at hc
    obtain ⟨i, -, rfl⟩ := List.mem_map.1 hc
    have h := getRandomSymbol_base (rand (k + i))
    exact ⟨h.1, h.2.2, hnotwild _ h.2.1⟩

end SymbolManager

namespace WinningDetector

open SymbolManager

theorem eraseDups_loop_spec (as bs : List Nat) (hbs : bs.Nodup) :
    (List.eraseDups.loop as bs).Nodup ∧
    ∀ x, x ∈ List.eraseDups.loop as bs ↔ x ∈ as ∨ x ∈ bs := by
  induction as generalizing bs with
  | nil =>
    simp only [List.eraseDups.loop]
    exact ⟨List.nodup_reverse.2 hbs, fun x => by simp⟩
  | cons a as ih =>
    simp only [List.eraseDups.loop]
    by_cases ha : a ∈ bs
    · have he : bs.elem a = true := by simpa using ha
      rw [he]
      obtain ⟨h1, h2⟩ := ih bs hbs
      refine ⟨h1, fun x => ?_⟩
      rw [h2 x, List.mem_cons]
      constructor
      · rintro (h | h)
        · exact Or.inl (Or.inr h)
        · exact Or.inr h
      · rintro ((h | h) | h)
        · exact Or.inr (h ▸ ha)
        · exact Or.inl h
        · exact Or.inr h
    · have he : bs.elem a = false := by simpa using ha
      rw [he]
      obtain ⟨h1, h2⟩ := ih (a :: bs) (List.nodup_cons.2 ⟨ha, hbs⟩)
      refine ⟨h1, fun x => ?_⟩
      rw [h2 x, List.mem_cons, List.mem_cons]
      tauto

theorem eraseDups_spec (as : List Nat) :
    as.eraseDups.Nodup ∧ ∀ x, x ∈ as.eraseDups ↔ x ∈ as := by
  obtain ⟨h1, h2⟩ := eraseDups_loop_spec as [] List.nodup_nil
  refine ⟨h1, fun x => ?_⟩
  have := h2 x
  simpa [List.eraseDups] using this

theorem mem_foldl_push {α β : Type} (p : α → Bool) (f : α → List β) (l : List α)
    (init : List β) (x : β) :
    x ∈ l.foldl (fun acc a => if p a then acc ++ f a else acc) init ↔
      x ∈ init ∨ ∃ a ∈ l, p a = true ∧ x ∈ f a := by
  induction l generalizing init with
  | nil => simp
  | cons a as ih =>
    rw [List.foldl_cons, ih]
    by_cases hp : p a = true
    · simp only [hp, if_true, List.mem_append, List.mem_cons, exists_eq_or_imp, true_and]
      tauto
    · simp only [hp, if_false, List.mem_cons, exists_eq_or_imp, false_and, false_or,
        Bool.false_eq_true]

theorem mem_getWinningPositions (board : Board) (i : Nat) :
    i ∈ getWinningPositions board ↔
      ∃ line ∈ winningLines, lineMatches board line = true ∧
        (i = line.1 ∨ i = line.2.1 ∨ i = line.2.2) := by
  unfold getWinningPositions
  simp only []
  rw [(eraseDups_spec _).2]
  have h := mem_foldl_push (fun line => lineMatches board line)
    (fun line => [line.1, line.2.1, line.2.2]) winningLines [] i
  simp only [lineMatches] at h ⊢
  rw [h]
  simp

theorem checkWinningLines_lines (board : Board) :
    (checkWinningLines board).map (fun w => w.line) =
      winningLines.filter (fun l => lineMatches board l) := by
  rw [checkWinningLines_eq, List.map_map]
  exact enumFrom_filter_snd (fun l => lineMatches board l) winningLines 0

end WinningDetector

namespace WinningDetector

open SymbolManager

/-- C22. `getWinningPositions` returns a list without duplicates of cell
indices in 0..8; an index is in it exactly when it lies on one of the eight
lines on which `isMatchingLine` holds, that is on the line of some record of
`checkWinningLines`; and it is empty exactly when `checkWinningLines` returns
no record. -/
theorem C22_getWinningPositions_union (board : Board) :
    (getWinningPositions board).Nodup ∧
    (∀ i ∈ getWinningPositions board, i ≤ 8) ∧
    (∀ i : Nat, i ∈ getWinningPositions board ↔
      ∃ line ∈ winningLines,
        isMatchingLine (boardAt board line.1) (boardAt board line.2.1)
          (boardAt board line.2.2) = true ∧
        (i = line.1 ∨ i = line.2.1 ∨ i = line.2.2)) ∧
    (∀ i : Nat, i ∈ getWinningPositions board ↔
      ∃ w ∈ checkWinningLines board, i = w.line.1 ∨ i = w.line.2.1 ∨ i = w.line.2.2) ∧
    (getWinningPositions board = [] ↔ checkWinningLines board = []) := by
  have hmem := mem_getWinningPositions board
  have hlines := checkWinningLines_lines board
  have hrec : ∀ i : Nat, i ∈ getWinningPositions board ↔
      ∃ w ∈ checkWinningLines board, i = w.line.1 ∨ i = w.line.2.1 ∨ i = w.line.2.2 := by
    intro i
    rw [hmem]
    constructor
    · rintro ⟨line, hl, hm, hi⟩
      have hin : line ∈ (checkWinningLines board).map (fun w => w.line) := by
        rw [hlines]
        exact List.mem_filter.2 ⟨hl, hm⟩
      obtain ⟨w, hw, rfl⟩ := List.mem_map.1 hin
      exact ⟨w, hw, hi⟩
    · rintro ⟨w, hw, hi⟩
      have hin : w.line ∈ winningLines.filter (fun l => lineMatches board l) := by
        rw [← hlines]
        exact List.mem_map.2 ⟨w, hw, rfl⟩
      obtain ⟨hl, hm⟩ := List.mem_filter.1 hin
      exact ⟨w.line, hl, hm, hi⟩
  have hbound : ∀ line ∈ winningLines, line.1 ≤ 8 ∧ line.2.1 ≤ 8 ∧ line.2.2 ≤ 8 := by decide
  refine ⟨?_, ?_, hmem, hrec, ?_⟩
  · unfold getWinningPositions
    exact (eraseDups_spec _).1
  · intro i hi
    obtain ⟨line, hl, -, h⟩ := (hmem i).1 hi
    obtain ⟨b1, b2, b3⟩ := hbound line hl
    rcases h with h | h | h <;> rw [h] <;> assumption
  · constructor
    · intro he
      cases hc : checkWinningLines board with
      | nil => rfl
      | cons w ws =>
        have : w.line.1 ∈ getWinningPositions board :=
          (hrec _).2 ⟨w, by rw [hc]; exact List.mem_cons_self _ _, Or.inl rfl⟩
        rw [he] at this
        exact absurd this (List.not_mem_nil _)
    · intro he
      cases hg : getWinningPositions board with
      | nil => rfl
      | cons i is =>
        have : i ∈ getWinningPositions board := by
          rw [hg]
          exact List.mem_cons_self _ _
        obtain ⟨w, hw, -⟩ := (hrec i).1 this
        rw [he] at hw
        exact absurd hw (List.not_mem_nil _)

end WinningDetector

namespace SymbolManager

theorem symbols_isSome_iff (key : String) : (symbols key).isSome = true ↔ key ∈ symbolKeys := by
  constructor
  · intro h
    unfold symbols at h
    split at h <;> first | (simp [symbolKeys]; done) | simp at h
  · intro h
    simp only [symbolKeys, List.mem_cons, List.mem_singleton, List.not_mem_nil, or_false] at h
    rcases h with h | h | h | h | h | h | h <;> subst h <;> simp [symbols]

theorem symbols_eq_none (key : String) (h : key ∉ symbolKeys) : symbols key = none := by
  cases hs : symbols key with
  | none => rfl
  | some info =>
    have : (symbols key).isSome = true := by rw [hs]; rfl
    exact absurd ((symbols_isSome_iff key).1 this) h

/-- C23 as stated fails: the key `dragon` is not in the catalog, yet looking it
up raises nothing: `getSymbolInfo` returns no record, `getSymbolMultiplier`
gives it the multiplier 1 and `isWild` the flag `false`. -/
theorem C23_unknown_key_gets_defaults :
    "dragon" ∉ symbolKeys ∧
    getSymbolInfo (JSVal.str "dragon") = none ∧
    getSymbolMultiplier (JSVal.str "dragon") = 1 ∧
    isWild (JSVal.str "dragon") = false := by
  have h : "dragon" ∉ symbolKeys := by decide
  have hs := symbols_eq_none "dragon" h
  refine ⟨h, ?_, ?_, ?_⟩
  · simp only [getSymbolInfo, JSVal.toPropertyKey, hs]
  · simp only [getSymbolMultiplier, JSVal.toPropertyKey, hs]
  · simp only [isWild, JSVal.toPropertyKey, hs]

/-- C23, amended. `getSymbolInfo` returns the record of a key that is one of the
seven catalog keys and no record, without an error, for every other key; for
such a key `getSymbolMultiplier` returns the default 1 and `isWild` the default
`false`.  `isWild(key)` is true exactly for `tiger`, and `baseSymbols` is exactly
the catalog keys that are not wild. -/
theorem C23_catalog_lookup_defaults (key : String) :
    (key ∈ symbolKeys →
      ∃ info : SymbolInfo, getSymbolInfo (JSVal.str key) = some info ∧
        getSymbolMultiplier (JSVal.str key) = info.multiplier ∧
        isWild (JSVal.str key) = info.isWild) ∧
    (key ∉ symbolKeys →
      getSymbolInfo (JSVal.str key) = none ∧ getSymbolMultiplier (JSVal.str key) = 1 ∧
        isWild (JSVal.str key) = false) ∧
    (isWild (JSVal.str key) = true ↔ key = "tiger") ∧
    (key ∈ baseSymbols ↔ key ∈ symbolKeys ∧ isWild (JSVal.str key) = false) ∧
    symbolKeys = ["bomb", "card", "barrel", "goldPot", "frog", "cat", "tiger"] ∧
    symbolKeys.map (fun k => getSymbolMultiplier (JSVal.str k)) =
      [5, 10, 15, 20, 30, 50, 100] := by
  refine ⟨?_, ?_, isWild_str key, ?_, rfl, ?_⟩
  · intro h
    simp only [symbolKeys, List.mem_cons, List.mem_singleton, List.not_mem_nil, or_false] at h
    rcases h with h | h | h | h | h | h | h <;> subst h <;>
      simp [getSymbolInfo, getSymbolMultiplier, isWild, JSVal.toPropertyKey, symbols]
  · intro h
    have hs := symbols_eq_none key h
    simp only [getSymbolInfo, getSymbolMultiplier, isWild, JSVal.toPropertyKey, hs, and_self]
  · rw [isWild_eq_decide]
    simp only [decide_eq_false_iff_not]
    constructor
    · intro h
      have hsub : ∀ c ∈ baseSymbols, c ∈ symbolKeys ∧ c ≠ "tiger" := by decide
      exact hsub key h
    · rintro ⟨h, hne⟩
      simp only [symbolKeys, List.mem_cons, List.mem_singleton, List.not_mem_nil, or_false] at h
      rcases h with h | h | h | h | h | h | h
      all_goals first
        | exact absurd h hne
        | (subst h; decide)
  · simp [symbolKeys, getSymbolMultiplier, JSVal.toPropertyKey, symbols]

end SymbolManager

namespace WinningDetector

open SymbolManager

theorem perm_pair {α : Type} (y z b c : α) (h : [y, z].Perm [b, c]) :
    (y = b ∧ z = c) ∨ (y = c ∧ z = b) := by
  have hy : y ∈ [b, c] := h.subset (List.mem_cons_self _ _)
  simp only [List.mem_cons, List.mem_singleton, List.not_mem_nil, or_false] at hy
  rcases hy with hy | hy
  · subst hy
    have h2 := (List.perm_cons y).1 h
    exact Or.inl ⟨rfl, List.perm_singleton.1 h2 |> List.singleton_inj.1⟩
  · subst hy
    have h2 : [y, z].Perm [y, b] := h.trans (List.Perm.swap y b [])
    have h3 := (List.perm_cons y).1 h2
    exact Or.inr ⟨rfl, List.perm_singleton.1 h3 |> List.singleton_inj.1⟩

theorem perm_triple {α : Type} (x y z a b c : α) (h : [x, y, z].Perm [a, b, c]) :
    (x = a ∧ y = b ∧ z = c) ∨ (x = a ∧ y = c ∧ z = b) ∨ (x = b ∧ y = a ∧ z = c) ∨
    (x = b ∧ y = c ∧ z = a) ∨ (x = c ∧ y = a ∧ z = b) ∨ (x = c ∧ y = b ∧ z = a) := by
  have hx : x ∈ [a, b, c] := h.subset (List.mem_cons_self _ _)
  simp only [List.mem_cons, List.mem_singleton, List.not_mem_nil, or_false] at hx
  rcases hx with hx | hx | hx
  · subst hx
    rcases perm_pair y z b c ((List.perm_cons x).1 h) with ⟨h1, h2⟩ | ⟨h1, h2⟩
    · exact Or.inl ⟨rfl, h1, h2⟩
    · exact Or.inr (Or.inl ⟨rfl, h1, h2⟩)
  · subst hx
    have h2 : [x, y, z].Perm [x, a, c] := h.trans (List.Perm.swap x a [c])
    rcases perm_pair y z a c ((List.perm_cons x).1 h2) with ⟨h1, h3⟩ | ⟨h1, h3⟩
    · exact Or.inr (Or.inr (Or.inl ⟨rfl, h1, h3⟩))
    · exact Or.inr (Or.inr (Or.inr (Or.inl ⟨rfl, h1, h3⟩)))
  · subst hx
    have h2 : [x, y, z].Perm [x, a, b] :=
      h.trans (((List.Perm.swap x b []).cons a).trans (List.Perm.swap x a [b]))
    rcases perm_pair y z a b ((List.perm_cons x).1 h2) with ⟨h1, h3⟩ | ⟨h1, h3⟩
    · exact Or.inr (Or.inr (Or.inr (Or.inr (Or.inl ⟨rfl, h1, h3⟩))))
    · exact Or.inr (Or.inr (Or.inr (Or.inr (Or.inr ⟨rfl, h1, h3⟩))))

end WinningDetector

namespace WinningDetector

open SymbolManager

theorem isMatchingLine_swap12 (a b c : String) :
    isMatchingLine (JSVal.str b) (JSVal.str a) (JSVal.str c) =
      isMatchingLine (JSVal.str a) (JSVal.str b) (JSVal.str c) := by
  unfold isMatchingLine countWilds
  simp only [isWild_eq_decide, List.filter]
  by_cases h1 : a = "tiger" <;> by_cases h2 : b = "tiger" <;>
    by_cases h3 : c = "tiger" <;> simp [h1, h2, h3, jsAt]
  · exact eq_comm
  · by_cases hab : a = b
    · subst hab
      simp
    · simp [hab, Ne.symm hab]

theorem isMatchingLine_swap23 (a b c : String) :
    isMatchingLine (JSVal.str a) (JSVal.str c) (JSVal.str b) =
      isMatchingLine (JSVal.str a) (JSVal.str b) (JSVal.str c) := by
  unfold isMatchingLine countWilds
  simp only [isWild_eq_decide, List.filter]
  by_cases h1 : a = "tiger" <;> by_cases h2 : b = "tiger" <;>
    by_cases h3 : c = "tiger" <;> simp [h1, h2, h3, jsAt]
  · by_cases hbc : b = c
    · subst hbc
      simp
    · simp [hbc, Ne.symm hbc]
  · by_cases hbc : b = c
    · subst hbc
      simp
    · by_cases hab : a = b
      · subst hab
        simp [hbc, Ne.symm hbc]
      · simp [hbc, Ne.symm hbc, hab]

theorem countWilds_swap12 (a b c : JSVal) : countWilds b a c = countWilds a b c := by
  unfold countWilds
  cases ha : isWild a <;> cases hb : isWild b <;> cases hc : isWild c <;>
    simp [List.filter, ha, hb, hc]

theorem countWilds_swap23 (a b c : JSVal) : countWilds a c b = countWilds a b c := by
  unfold countWilds
  cases ha : isWild a <;> cases hb : isWild b <;> cases hc : isWild c <;>
    simp [List.filter, ha, hb, hc]

theorem getBaseSymbol_swap12 (a b c : String)
    (h : isMatchingLine (JSVal.str a) (JSVal.str b) (JSVal.str c) = true) :
    getBaseSymbol (JSVal.str b) (JSVal.str a) (JSVal.str c) =
      getBaseSymbol (JSVal.str a) (JSVal.str b) (JSVal.str c) := by
  unfold isMatchingLine countWilds at h
  unfold getBaseSymbol
  simp only [isWild_eq_decide, List.filter] at h ⊢
  by_cases h1 : a = "tiger" <;> by_cases h2 : b = "tiger" <;>
    by_cases h3 : c = "tiger" <;> simp [h1, h2, h3, jsAt] at h ⊢
  · subst h
    simp
  · obtain ⟨e1, e2⟩ := h
    subst e1
    simp

theorem getBaseSymbol_swap23 (a b c : String)
    (h : isMatchingLine (JSVal.str a) (JSVal.str b) (JSVal.str c) = true) :
    getBaseSymbol (JSVal.str a) (JSVal.str c) (JSVal.str b) =
      getBaseSymbol (JSVal.str a) (JSVal.str b) (JSVal.str c) := by
  unfold isMatchingLine countWilds at h
  unfold getBaseSymbol
  simp only [isWild_eq_decide, List.filter] at h ⊢
  by_cases h1 : a = "tiger" <;> by_cases h2 : b = "tiger" <;>
    by_cases h3 : c = "tiger" <;> simp [h1, h2, h3, jsAt] at h ⊢
  · have e : b = c := h.elim (fun h => h.2) id
    subst e
    simp
  · obtain ⟨e1, e2⟩ := h
    subst e1
    subst e2
    simp

end WinningDetector

namespace WinningDetector

open SymbolManager

theorem sameLine_refl (a b c : String) : SameLine a b c a b c :=
  ⟨rfl, rfl, fun _ => rfl⟩

theorem sameLine_swap12 (a b c : String) : SameLine b a c a b c :=
  ⟨isMatchingLine_swap12 a b c, countWilds_swap12 _ _ _, getBaseSymbol_swap12 a b c⟩

theorem sameLine_swap23 (a b c : String) : SameLine a c b a b c :=
  ⟨isMatchingLine_swap23 a b c, countWilds_swap23 _ _ _, getBaseSymbol_swap23 a b c⟩

theorem sameLine_trans (x y z p q r a b c : String) (h1 : SameLine x y z p q r)
    (h2 : SameLine p q r a b c) : SameLine x y z a b c := by
  refine ⟨h1.1.trans h2.1, h1.2.1.trans h2.2.1, fun hm => ?_⟩
  have hp : isMatchingLine (JSVal.str p) (JSVal.str q) (JSVal.str r) = true := by
    rw [h2.1]
    exact hm
  exact (h1.2.2 hp).trans (h2.2.2 hm)

theorem sameLine_of_perm (a b c x y z : String) (h : [x, y, z].Perm [a, b, c]) :
    SameLine x y z a b c := by
  rcases perm_triple x y z a b c h with ⟨rfl, rfl, rfl⟩ | ⟨rfl, rfl, rfl⟩ | ⟨rfl, rfl, rfl⟩ |
    ⟨rfl, rfl, rfl⟩ | ⟨rfl, rfl, rfl⟩ | ⟨rfl, rfl, rfl⟩
  · exact sameLine_refl _ _ _
  · exact sameLine_swap23 _ _ _
  · exact sameLine_swap12 _ _ _
  · exact sameLine_trans _ _ _ _ _ _ _ _ _ (sameLine_swap23 _ _ _) (sameLine_swap12 _ _ _)
  · exact sameLine_trans _ _ _ _ _ _ _ _ _ (sameLine_swap12 _ _ _) (sameLine_swap23 _ _ _)
  · exact sameLine_trans _ _ _ _ _ _ _ _ _ (sameLine_swap23 _ _ _)
      (sameLine_trans _ _ _ _ _ _ _ _ _ (sameLine_swap12 _ _ _) (sameLine_swap23 _ _ _))

/-- C24. For all keys `a`, `b`, `c` and every reordering `(x, y, z)` of them,
`isMatchingLine` and `countWilds` give the same result on `(x, y, z)` as on
`(a, b, c)`, and when the line matches so does `getBaseSymbol`; hence the
multiplier and the wild factor of a line's payout do not depend on where on the
line the wild sits. -/
theorem C24_line_functions_permutation_invariant (a b c x y z : String)
    (h : [x, y, z].Perm [a, b, c]) :
    isMatchingLine (JSVal.str x) (JSVal.str y) (JSVal.str z) =
      isMatchingLine (JSVal.str a) (JSVal.str b) (JSVal.str c) ∧
    countWilds (JSVal.str x) (JSVal.str y) (JSVal.str z) =
      countWilds (JSVal.str a) (JSVal.str b) (JSVal.str c) ∧
    (isMatchingLine (JSVal.str a) (JSVal.str b) (JSVal.str c) = true →
      getBaseSymbol (JSVal.str x) (JSVal.str y) (JSVal.str z) =
        getBaseSymbol (JSVal.str a) (JSVal.str b) (JSVal.str c)) ∧
    (isMatchingLine (JSVal.str a) (JSVal.str b) (JSVal.str c) = true →
      ∀ bet : ℚ,
        bet * (getSymbolMultiplier
            (getBaseSymbol (JSVal.str x) (JSVal.str y) (JSVal.str z)) : ℚ) *
          (1 + (1 / 2) * (countWilds (JSVal.str x) (JSVal.str y) (JSVal.str z) : ℚ)) =
        bet * (getSymbolMultiplier
            (getBaseSymbol (JSVal.str a) (JSVal.str b) (JSVal.str c)) : ℚ) *
          (1 + (1 / 2) * (countWilds (JSVal.str a) (JSVal.str b) (JSVal.str c) : ℚ))) := by
  obtain ⟨h1, h2, h3⟩ := sameLine_of_perm a b c x y z h
  refine ⟨h1, h2, h3, fun hm bet => ?_⟩
  rw [h3 hm, h2]

/-- C24, at the triples (cat, tiger, cat) and (tiger, cat, cat): both match. -/
theorem C24_line_functions_permutation_invariant_witness :
    (["cat", "tiger", "cat"] : List String).Perm ["tiger", "cat", "cat"] ∧
    isMatchingLine (JSVal.str "cat") (JSVal.str "tiger") (JSVal.str "cat") = true :=
  ⟨List.Perm.swap "tiger" "cat" ["cat"],
    (C24_line_functions_permutation_invariant "tiger" "cat" "cat" "cat" "tiger" "cat"
      (List.Perm.swap "tiger" "cat" ["cat"])).1.trans isMatchingLine_tiger_cat_cat⟩

end WinningDetector

namespace WinningDetector

open SymbolManager

theorem getSymbolMultiplier_catalog (key : String) (h : key ∈ symbolKeys) :
    5 ≤ getSymbolMultiplier (JSVal.str key) := by
  simp only [symbolKeys, List.mem_cons, List.mem_singleton, List.not_mem_nil, or_false] at h
  rcases h with h | h | h | h | h | h | h <;> subst h <;>
    simp [getSymbolMultiplier, JSVal.toPropertyKey, symbols]

theorem checkFullBoardWin_isSome_iff (board : Board) (hne : board ≠ []) :
    checkFullBoardWin board ≠ none ↔
      (∃ s : String, ∀ c ∈ board, c = s) ∨ 3 ≤ board.count wildKey := by
  by_cases hu : ∃ s : String, ∀ c ∈ board, c = s
  · obtain ⟨s, hs⟩ := hu
    rw [checkFullBoardWin_uniform board hne s hs]
    simp only [ne_eq, reduceCtorEq, not_false_eq_true, true_iff]
    exact Or.inl ⟨s, hs⟩
  · rw [checkFullBoardWin_not_uniform board hne hu]
    by_cases h3 : 3 ≤ board.count wildKey
    · rw [if_pos h3]
      simp only [ne_eq, reduceCtorEq, not_false_eq_true, true_iff]
      exact Or.inr h3
    · rw [if_neg h3]
      simp only [ne_eq, not_true_eq_false, false_iff, not_or]
      exact ⟨hu, h3⟩

theorem checkFullBoardWin_multiplier_catalog (board : Board) (hne : board ≠ [])
    (hcat : ∀ c ∈ board, c ∈ symbolKeys) (f : FullBoardWin)
    (hf : checkFullBoardWin board = some f) : (50 : ℚ) ≤ f.multiplier := by
  by_cases hu : ∃ s : String, ∀ c ∈ board, c = s
  · obtain ⟨s, hs⟩ := hu
    rw [checkFullBoardWin_uniform board hne s hs] at hf
    simp only [Option.some.injEq] at hf
    subst hf
    have hmem : s ∈ board := by
      cases board with
      | nil => exact absurd rfl hne
      | cons c0 cs =>
        have := hs c0 (List.mem_cons_self _ _)
        rw [← this]
        exact List.mem_cons_self _ _
    have h5 : (5 : ℚ) ≤ (getSymbolMultiplier (JSVal.str s) : ℚ) := by
      exact_mod_cast getSymbolMultiplier_catalog s (hcat s hmem)
    show (50 : ℚ) ≤ (getSymbolMultiplier (JSVal.str s) : ℚ) * 10
    linarith
  · rw [checkFullBoardWin_not_uniform board hne hu] at hf
    by_cases h3 : 3 ≤ board.count wildKey
    · rw [if_pos h3] at hf
      simp only [Option.some.injEq] at hf
      subst hf
      show (50 : ℚ) ≤ 500
      norm_num
    · rw [if_neg h3] at hf
      exact absurd hf (by simp)

/-- C25. On a nine-cell board of catalog keys, at a bet that is not negative,
when `analyzeWin` reports a full-board win (the board is uniform or holds at
least three wilds) both `isBigWin` and `isMegaWin` are true: the full-board
contribution alone is at least `50 × bet` and no line contribution is
negative. -/
theorem C25_full_board_is_big_and_mega (board : Board) (bet : ℚ) (h9 : board.length = 9)
    (hcat : ∀ c ∈ board, c ∈ symbolKeys) (hbet : 0 ≤ bet)
    (hfull : (analyzeWin board bet).fullBoardWin ≠ none) :
    (analyzeWin board bet).isBigWin = true ∧
    (analyzeWin board bet).isMegaWin = true ∧
    50 * bet ≤ fullBoardContribution bet (analyzeWin board bet).fullBoardWin ∧
    (∀ w ∈ (analyzeWin board bet).wins, 0 ≤ lineContribution bet w) ∧
    50 * bet ≤ (analyzeWin board bet).winAmount ∧
    ((analyzeWin board bet).fullBoardWin ≠ none ↔
      (∃ s : String, ∀ c ∈ board, c = s) ∨ 3 ≤ board.count wildKey) := by
  have hne : board ≠ [] := by
    intro h
    rw [h] at h9
    simp at h9
  have hfull2 : checkFullBoardWin board ≠ none := hfull
  obtain ⟨f, hf⟩ : ∃ f, checkFullBoardWin board = some f := by
    cases hc : checkFullBoardWin board with
    | none => exact absurd hc hfull2
    | some f => exact ⟨f, rfl⟩
  have hm := checkFullBoardWin_multiplier_catalog board hne hcat f hf
  have hcontrib : 50 * bet ≤ fullBoardContribution bet (checkFullBoardWin board) := by
    rw [hf]
    simp only [fullBoardContribution]
    have := mul_le_mul_of_nonneg_left hm hbet
    linarith
  have hlines : ∀ w ∈ checkWinningLines board, 0 ≤ lineContribution bet w := by
    intro w hw
    have := lineContribution_ge bet hbet w (checkWinningLines_multiplier board w hw)
    linarith
  have hsum := sum_lineContribution_nonneg bet hbet (checkWinningLines board)
    (checkWinningLines_multiplier board)
  have hamount : 50 * bet ≤ (analyzeWin board bet).winAmount := by
    show 50 * bet ≤ calculateWinAmount bet (checkWinningLines board) (checkFullBoardWin board)
    rw [calculateWinAmount_eq]
    linarith
  refine ⟨?_, ?_, hcontrib, hlines, hamount, checkFullBoardWin_isSome_iff board hne⟩
  · simp only [analyzeWin, hf]
    simp
  · have : (analyzeWin board bet).isMegaWin =
        decide ((analyzeWin board bet).winAmount ≥ bet * 50) := rfl
    rw [this, decide_eq_true_eq]
    linarith

/-- C25, at the board of nine bombs and bet 10: a full-board win whose
contribution is exactly `50 × bet`; both flags are set. -/
theorem C25_full_board_is_big_and_mega_witness :
    (List.replicate 9 "bomb").length = 9 ∧
    (analyzeWin (List.replicate 9 "bomb") 10).fullBoardWin ≠ none ∧
    (analyzeWin (List.replicate 9 "bomb") 10).isBigWin = true ∧
    (analyzeWin (List.replicate 9 "bomb") 10).isMegaWin = true := by
  have hfull : (analyzeWin (List.replicate 9 "bomb") 10).fullBoardWin ≠ none := by
    show checkFullBoardWin (List.replicate 9 "bomb") ≠ none
    rw [checkFullBoardWin_uniform (List.replicate 9 "bomb") (by simp) "bomb"
      (fun c hc => List.eq_of_mem_replicate hc)]
    simp
  have hcat : ∀ c ∈ List.replicate 9 "bomb", c ∈ symbolKeys := by
    intro c hc
    rw [List.eq_of_mem_replicate hc]
    decide
  have h := C25_full_board_is_big_and_mega (List.replicate 9 "bomb") 10 (by simp) hcat
    (by norm_num) hfull
  exact ⟨by simp, hfull, h.1, h.2.1⟩

end WinningDetector
